import Mathlib

/-!
Verification development for the biosim island simulator
(`biosim/animals.py`, `biosim/landscape.py`, `biosim/island_nature.py`).

Shallow embedding conventions:
* Machine reals are modelled by `ℚ` (all arithmetic in the source is ordinary
  field arithmetic; the claims under study are about exact arithmetic).
* `math.exp` is modelled by an abstract function `pexp : ℚ → ℚ`; theorems that
  need it assume positivity (`0 < pexp x`), which the real exponential has.
  Concrete examples instantiate `pexp` with explicit positive functions.
* `random.random()` is modelled by a stream `u : ℕ → ℚ` consumed in program
  order through an explicit index; `random.gauss` draws are modelled by a
  second stream `g : ℕ → ℚ` (Python's `gauss` consumes an
  implementation-defined number of uniform draws, so it gets its own stream),
  indexed by the same running counter.
* Per-species parameter dictionaries become the record `AnimalP`; the
  carnivore-only key `DeltaPhiMax` is passed separately as `dpm`.
* `Carnivore.prob_kill` is an overridable method in the source (the test suite
  monkeypatches it), so the feeding machinery takes the kill-probability
  function `pk` as a parameter; `Carnivore.prob_kill` below is its default.
-/

namespace Biosim

/-- Per-species parameter set (the `params` dictionaries in `animals.py`).
`lam` is the key called `lambda` in the source. -/
structure AnimalP where
  eta : ℚ
  omega : ℚ
  a_half : ℚ
  w_half : ℚ
  phi_age : ℚ
  phi_weight : ℚ
  gamma : ℚ
  w_birth : ℚ
  sigma_birth : ℚ
  zeta : ℚ
  xi : ℚ
  beta : ℚ
  mu : ℚ
  lam : ℚ
  F : ℚ
deriving DecidableEq

/-- Default `Herbivore.params` from `animals.py`. -/
def herbDefault : AnimalP :=
  ⟨0.05, 0.4, 40, 10, 0.2, 0.1, 0.2, 8, 1.5, 3.5, 1.2, 0.9, 0.25, 1, 10⟩

/-- Default `Carnivore.params` from `animals.py` (without `DeltaPhiMax`,
which is carried separately; its default is `10`). -/
def carnDefault : AnimalP :=
  ⟨0.125, 0.9, 60, 4, 0.4, 0.4, 0.8, 6, 1, 3.5, 1.1, 0.75, 0.4, 1, 50⟩

/-- An animal: weight and age.  Fitness is cached in the source but the cache
is invalidated on every weight/age mutation, so recomputing it on read is
observably identical. -/
structure Animal where
  weight : ℚ
  age : ℕ
deriving DecidableEq

/-- `_q_factor` from `fitness_workers.py`. -/
def q_factor (pexp : ℚ → ℚ) (phi x x_half : ℚ) : ℚ :=
  1 / (1 + pexp (phi * (x - x_half)))

/-- `_fitness` from `fitness_workers.py`, as used by `Animal.fitness`. -/
def fitness (pexp : ℚ → ℚ) (p : AnimalP) (a : Animal) : ℚ :=
  q_factor pexp p.phi_age (a.age : ℚ) p.a_half *
    q_factor pexp (-p.phi_weight) a.weight p.w_half

/-- `Animal.aging`. -/
def aging (a : Animal) : Animal := { a with age := a.age + 1 }

/-- `Animal.weight_change`: `self.weight -= eta * self.weight`.
The weight setter performs no validation (the positivity check is only in
`Animal.__init__`), so the update is total. -/
def weight_change (p : AnimalP) (a : Animal) : Animal :=
  { a with weight := a.weight - p.eta * a.weight }

/-- `Animal.probability_birth`. -/
def probability_birth (pexp : ℚ → ℚ) (p : AnimalP) (a : Animal)
    (num_animals : ℕ) : ℚ :=
  if a.weight < p.zeta * (p.w_birth + p.sigma_birth) then 0
  else
    let prob := p.gamma * fitness pexp p a * ((num_animals : ℚ) - 1)
    if prob > 1 then 1 else prob

/-- `Animal.birth`.  Returns the (possibly weight-reduced) mother, the
optional newborn, and the advanced draw counter.  One uniform draw is always
consumed; the newborn-weight gauss draw is consumed only when the birth roll
succeeds. -/
def birth (pexp : ℚ → ℚ) (p : AnimalP) (a : Animal) (num_animals : ℕ)
    (u g : ℕ → ℚ) (k : ℕ) : Animal × Option Animal × ℕ :=
  if u k < probability_birth pexp p a num_animals then
    let w_newborn := g (k + 1)
    if 0 < w_newborn ∧ w_newborn < a.weight then
      let w_mother_after := a.weight - p.xi * w_newborn
      if w_mother_after > 0 then
        ({ a with weight := w_mother_after }, some ⟨w_newborn, 0⟩, k + 2)
      else (a, none, k + 2)
    else (a, none, k + 2)
  else (a, none, k + 1)

/-- `Animal.death`. -/
def death (pexp : ℚ → ℚ) (p : AnimalP) (a : Animal) (rnd : ℚ) : Bool :=
  decide (rnd < p.omega * (1 - fitness pexp p a))

/-- `Animal.prob_migration`. -/
def prob_migration (pexp : ℚ → ℚ) (p : AnimalP) (a : Animal) : ℚ :=
  p.mu * fitness pexp p a

namespace Herbivore

/-- `Herbivore.eating`: returns the fed animal and the amount eaten.
The source raises `ValueError` on negative available food; that branch is
unreachable from `Landscape.herb_eating`, whose loop guards `0 < food`; it is
modelled as eating nothing. -/
def eating (p : AnimalP) (a : Animal) (available_food : ℚ) : Animal × ℚ :=
  if available_food < 0 then (a, 0)
  else if p.F ≤ available_food then
    ({ a with weight := a.weight + p.beta * p.F }, p.F)
  else
    ({ a with weight := a.weight + p.beta * available_food }, available_food)

end Herbivore

namespace Carnivore

/-- `Carnivore.prob_kill` (the default kill-probability method). -/
def prob_kill (pexp : ℚ → ℚ) (pC : AnimalP) (dpm : ℚ) (c : Animal)
    (herb_fit : ℚ) : ℚ :=
  (fitness pexp pC c - herb_fit) / dpm

/-- `Carnivore.carn_kills_herb`.  When the fitness gap lies in `(0, dpm)` the
result is the stochastic draw against `pk`; in every other case the `else`
branch of the source returns `True`.  The failed stochastic draw falls off the
end of the Python function, returning `None`, modelled as `false`. -/
def carn_kills_herb (pexp : ℚ → ℚ) (pC pH : AnimalP) (dpm : ℚ)
    (pk : Animal → ℚ → ℚ) (c h : Animal) (rnd : ℚ) : Bool :=
  if 0 < fitness pexp pC c - fitness pexp pH h ∧
      fitness pexp pC c - fitness pexp pH h < dpm then
    decide (rnd < pk c (fitness pexp pH h))
  else true

/-- Loop body of `Carnivore.eating` over the (pre-sorted) herbivore list,
carrying the carnivore (whose weight, hence fitness, changes as it eats), the
`eaten_food` accumulator and the draw counter.  A uniform draw is consumed
exactly when `carn_kills_herb` takes its stochastic branch.  The surviving
herbivores are returned in order; on a break the remaining list is retained
(`surviving_herbivores.extend(herbivores[index:])` in the source, where
`index` is the current position). -/
def eatAux (pexp : ℚ → ℚ) (pC pH : AnimalP) (dpm : ℚ) (pk : Animal → ℚ → ℚ)
    (u : ℕ → ℚ) : Animal → List Animal → ℚ → ℕ → Animal × List Animal × ℕ
  | c, [], _, k => (c, [], k)
  | c, h :: hs, eaten_food, k =>
    if fitness pexp pC c ≤ fitness pexp pH h ∨ eaten_food = pC.F then
      (c, h :: hs, k)
    else
      let stoch := 0 < fitness pexp pC c - fitness pexp pH h ∧
        fitness pexp pC c - fitness pexp pH h < dpm
      let k' := if stoch then k + 1 else k
      if carn_kills_herb pexp pC pH dpm pk c h (u k) then
        if eaten_food + h.weight > pC.F then
          eatAux pexp pC pH dpm pk u
            { c with weight := c.weight + (pC.F - eaten_food) * pC.beta }
            hs pC.F k'
        else
          eatAux pexp pC pH dpm pk u
            { c with weight := c.weight + h.weight * pC.beta }
            hs (eaten_food + h.weight) k'
      else
        let r := eatAux pexp pC pH dpm pk u c hs eaten_food k'
        (r.1, h :: r.2.1, r.2.2)

/-- `Carnivore.eating`: starts the loop with `eaten_food = 0`. -/
def eating (pexp : ℚ → ℚ) (pC pH : AnimalP) (dpm : ℚ) (pk : Animal → ℚ → ℚ)
    (u : ℕ → ℚ) (c : Animal) (herbs : List Animal) (k : ℕ) :
    Animal × List Animal × ℕ :=
  eatAux pexp pC pH dpm pk u c herbs 0 k

end Carnivore

/-! ### Basic facts about fitness -/

theorem q_factor_pos_lt_one (pexp : ℚ → ℚ) (phi x xh : ℚ)
    (h : 0 < pexp (phi * (x - xh))) :
    0 < q_factor pexp phi x xh ∧ q_factor pexp phi x xh < 1 := by
  unfold q_factor
  constructor
  · positivity
  · rw [div_lt_one (by linarith)]
    linarith

theorem fitness_pos_lt_one (pexp : ℚ → ℚ) (hpexp : ∀ x, 0 < pexp x)
    (p : AnimalP) (a : Animal) :
    0 < fitness pexp p a ∧ fitness pexp p a < 1 := by
  unfold fitness
  obtain ⟨h1, h2⟩ := q_factor_pos_lt_one pexp p.phi_age (a.age : ℚ) p.a_half
    (hpexp _)
  obtain ⟨h3, h4⟩ := q_factor_pos_lt_one pexp (-p.phi_weight) a.weight p.w_half
    (hpexp _)
  constructor
  · positivity
  · nlinarith

/-! ### Landscape layer (`landscape.py`) -/

/-- Landscape kinds.  `Jungle`, `Savannah`, `Desert` inherit the base
`Landscape` behaviour; `Mountain` and `Ocean` override habitability and
population placement. -/
inductive LKind
  | jungle
  | savannah
  | desert
  | mountain
  | ocean
deriving DecidableEq

/-- Species selector for the string arguments `'herbivore'` / `'carnivore'`
used internally by `landscape.py` (the call sites pass these literals). -/
inductive Sp
  | herbivore
  | carnivore
deriving DecidableEq

/-- One grid cell: landscape kind, resident populations, immigrant staging
lists and available fodder (`self.herb`, `self.carn`, `self.herb_immigrants`,
`self.carn_immigrants`, `self.available_food`). -/
structure Cell where
  kind : LKind
  herb : List Animal
  carn : List Animal
  herbImm : List Animal
  carnImm : List Animal
  food : ℚ
deriving DecidableEq

/-- Landscape-level parameters: `Jungle.params['fmax']`,
`Savannah.params['fmax']`, `Savannah.params['alpha']`, bundled with the two
species parameter sets and `DeltaPhiMax`. -/
structure SimP where
  herbP : AnimalP
  carnP : AnimalP
  dpm : ℚ
  fmaxJ : ℚ
  fmaxS : ℚ
  alphaS : ℚ
deriving DecidableEq

/-- All default parameters of the source. -/
def simDefault : SimP := ⟨herbDefault, carnDefault, 10, 800, 300, 0.3⟩

/-- `Landscape.animals_can_live_here` with the `Mountain`/`Ocean` overrides. -/
def animals_can_live_here (c : Cell) : Bool :=
  match c.kind with
  | .mountain => false
  | .ocean => false
  | _ => true

/-- `food_growth` with the `Jungle`/`Savannah` overrides (the base class and
`Desert`/`Mountain`/`Ocean` do nothing). -/
def food_growth (sp : SimP) (c : Cell) : Cell :=
  match c.kind with
  | .jungle => { c with food := sp.fmaxJ }
  | .savannah => { c with food := c.food + sp.alphaS * (sp.fmaxS - c.food) }
  | _ => c

/-- One fitness-keyed sort, modelling Python's stable `list.sort(key=...,
reverse=...)`.  A stable sort with respect to a total preorder is unique as a
function, so `mergeSort` computes the same list as Timsort. -/
def sortByFitness (pexp : ℚ → ℚ) (p : AnimalP) (descending : Bool)
    (l : List Animal) : List Animal :=
  l.mergeSort (fun a b =>
    if descending then decide (fitness pexp p b ≤ fitness pexp p a)
    else decide (fitness pexp p a ≤ fitness pexp p b))

/-- `Landscape.fitness_sorting`: sorts both populations. -/
def fitness_sorting (pexp : ℚ → ℚ) (sp : SimP) (herb_descending : Bool)
    (carn_descending : Bool) (c : Cell) : Cell :=
  { c with herb := sortByFitness pexp sp.herbP herb_descending c.herb,
           carn := sortByFitness pexp sp.carnP carn_descending c.carn }

/-- `Landscape.total_num_animals` (residents plus staged immigrants). -/
def total_num_animals (c : Cell) : Sp → ℕ
  | .herbivore => c.herb.length + c.herbImm.length
  | .carnivore => c.carn.length + c.carnImm.length

/-- `Landscape.get_available_fodder`: plant food for herbivores, total living
herbivore weight for carnivores. -/
def get_available_fodder (c : Cell) : Sp → ℚ
  | .herbivore => c.food
  | .carnivore => (c.herb.map Animal.weight).sum

/-- The `while k < num_herb and 0 < self.available_food` loop of
`Landscape.herb_eating`: the first `n` (sorted) herbivores eat in turn while
food remains, and the available food is reduced by the amounts eaten. -/
def herbFeedLoop (p : AnimalP) : List Animal → ℚ → ℕ → List Animal × ℚ
  | [], food, _ => ([], food)
  | h :: hs, food, 0 => (h :: hs, food)
  | h :: hs, food, n + 1 =>
    if 0 < food then
      let fed := Herbivore.eating p h food
      let rest := herbFeedLoop p hs (food - fed.2) n
      (fed.1 :: rest.1, rest.2)
    else (h :: hs, food)

/-- `Landscape.herb_eating`: sort (herbivores descending, carnivores
descending by default), then feed.  The loop bound is
`total_num_animals('herbivore')`, which also counts staged immigrants; at this
phase of the cycle the staging lists are empty (an overshooting bound would be
an `IndexError` in the source). -/
def herb_eating (pexp : ℚ → ℚ) (sp : SimP) (c : Cell) : Cell :=
  let c1 := fitness_sorting pexp sp true true c
  let fed := herbFeedLoop sp.herbP c1.herb c1.food (total_num_animals c1 .herbivore)
  { c1 with herb := fed.1, food := fed.2 }

/-- The `for carn in self.carn` loop of `Landscape.carn_eating`: breaks when
the herbivore list is empty or the current carnivore's fitness is strictly
below the weakest (first) herbivore's; otherwise the carnivore eats and the
herbivore list is replaced by the survivors. -/
def carnFeedLoop (pexp : ℚ → ℚ) (sp : SimP) (pk : Animal → ℚ → ℚ)
    (u : ℕ → ℚ) : List Animal → List Animal → ℕ → List Animal × List Animal × ℕ
  | [], herbs, k => ([], herbs, k)
  | c :: cs, [], k => (c :: cs, [], k)
  | c :: cs, h0 :: hs, k =>
    if fitness pexp sp.carnP c < fitness pexp sp.herbP h0 then
      (c :: cs, h0 :: hs, k)
    else
      let e := Carnivore.eating pexp sp.carnP sp.herbP sp.dpm pk u c (h0 :: hs) k
      let rest := carnFeedLoop pexp sp pk u cs e.2.1 e.2.2
      (e.1 :: rest.1, rest.2.1, rest.2.2)

/-- `Landscape.carn_eating`: herbivores sorted ascending, carnivores
descending, then the hunting loop. -/
def carn_eating (pexp : ℚ → ℚ) (sp : SimP) (pk : Animal → ℚ → ℚ)
    (u : ℕ → ℚ) (c : Cell) (k : ℕ) : Cell × ℕ :=
  let c1 := fitness_sorting pexp sp false true c
  let r := carnFeedLoop pexp sp pk u c1.carn c1.herb k
  ({ c1 with herb := r.2.1, carn := r.1 }, r.2.2)

/-- `Landscape.newborns`: every animal of the snapshot list gets one birth
attempt with the snapshot count `n`; mothers are updated in place and the
newborns are collected in order. -/
def newbornsLoop (pexp : ℚ → ℚ) (p : AnimalP) (u g : ℕ → ℚ) (n : ℕ) :
    List Animal → ℕ → List Animal × List Animal × ℕ
  | [], k => ([], [], k)
  | a :: rest, k =>
    let b := birth pexp p a n u g k
    let r := newbornsLoop pexp p u g n rest b.2.2
    (b.1 :: r.1,
     (match b.2.1 with
      | some nb => nb :: r.2.1
      | none => r.2.1),
     r.2.2)

/-- `Landscape.animal_birth`: `self.herb += self.newborns(self.herb)` then the
same for carnivores; the count passed to each attempt is the pre-birth
population size. -/
def animal_birth (pexp : ℚ → ℚ) (sp : SimP) (u g : ℕ → ℚ) (c : Cell) (k : ℕ) :
    Cell × ℕ :=
  let rh := newbornsLoop pexp sp.herbP u g c.herb.length c.herb k
  let rc := newbornsLoop pexp sp.carnP u g c.carn.length c.carn rh.2.2
  ({ c with herb := rh.1 ++ rh.2.1, carn := rc.1 ++ rc.2.1 }, rc.2.2)

/-- `Landscape.animal_aging`. -/
def animal_aging (c : Cell) : Cell :=
  { c with herb := c.herb.map aging, carn := c.carn.map aging }

/-- `Landscape.animal_weight_change`. -/
def animal_weight_change (sp : SimP) (c : Cell) : Cell :=
  { c with herb := c.herb.map (weight_change sp.herbP),
           carn := c.carn.map (weight_change sp.carnP) }

/-- The death filter of `Landscape.animal_death` for one population: one draw
per animal, in list order; survivors keep their order. -/
def deathFilter (pexp : ℚ → ℚ) (p : AnimalP) (u : ℕ → ℚ) :
    List Animal → ℕ → List Animal × ℕ
  | [], k => ([], k)
  | a :: rest, k =>
    let r := deathFilter pexp p u rest (k + 1)
    (if death pexp p a (u k) then r.1 else a :: r.1, r.2)

/-- `Landscape.animal_death`: herbivores roll first, then carnivores. -/
def animal_death (pexp : ℚ → ℚ) (sp : SimP) (u : ℕ → ℚ) (c : Cell) (k : ℕ) :
    Cell × ℕ :=
  let rh := deathFilter pexp sp.herbP u c.herb k
  let rc := deathFilter pexp sp.carnP u c.carn rh.2
  ({ c with herb := rh.1, carn := rc.1 }, rc.2)

/-- `Landscape.relative_abundance_of_fodder`; `p` is the parameter set of the
moving animal (`animal.params['F']` in the source). -/
def relative_abundance_of_fodder (neighbours : List Cell) (p : AnimalP)
    (s : Sp) : List ℚ :=
  neighbours.map (fun cell =>
    get_available_fodder cell s / (((total_num_animals cell s : ℚ) + 1) * p.F))

/-- `Landscape.propensity`: `0` for uninhabitable neighbours, else
`exp(lambda * ek)`. -/
def propensity (pexp : ℚ → ℚ) (p : AnimalP) (neighbours : List Cell)
    (ek : List ℚ) : List ℚ :=
  (neighbours.zip ek).map (fun ce =>
    if animals_can_live_here ce.1 then pexp (p.lam * ce.2) else 0)

/-- `Landscape.prob_move`. -/
def prob_move (pexp : ℚ → ℚ) (p : AnimalP) (neighbours : List Cell) (s : Sp) :
    List ℚ :=
  let ek := relative_abundance_of_fodder neighbours p s
  let exp_ek := propensity pexp p neighbours ek
  if exp_ek.sum = 0 then [0, 0, 0, 0]
  else exp_ek.map (fun x => x / exp_ek.sum)

/-- `Landscape.animal_moves_to`: the cumulative-probability walk, unrolled for
the 4-entry probability list (`pos` is incremented while the accumulated
probability is `≤ rnd`, with a forced stop at position 3).  The source first
asserts `round(sum(prob_move), 15) == 1`; that guard is established separately
(`prob_move` sums to exactly 1 whenever this function is reached). -/
def animal_moves_to (pm : List ℚ) (rnd : ℚ) : ℕ :=
  let a0 := pm.getD 0 0
  if rnd < a0 then 0
  else
    let a1 := a0 + pm.getD 1 0
    if rnd < a1 then 1
    else
      let a2 := a1 + pm.getD 2 0
      if rnd < a2 then 2 else 3

/-- `Landscape.add_herb_immigrant`. -/
def add_herb_immigrant (h : Animal) (c : Cell) : Cell :=
  { c with herbImm := c.herbImm ++ [h] }

/-- `Landscape.add_carn_immigrant`. -/
def add_carn_immigrant (a : Animal) (c : Cell) : Cell :=
  { c with carnImm := c.carnImm ++ [a] }

/-- `Landscape.add_immigrants_to_pop`: merge both staging lists into the
resident lists and clear them. -/
def add_immigrants_to_pop (c : Cell) : Cell :=
  { c with herb := c.herb ++ c.herbImm, herbImm := [],
           carn := c.carn ++ c.carnImm, carnImm := [] }

/-- One population record handed to `add_population` / `place_animals`
(`{'species': ..., 'age': ..., 'weight': ...}`). -/
structure PopEntry where
  species : String
  age : ℚ
  weight : ℚ
deriving DecidableEq

/-- `Animal.__init__` validation: weight must be strictly positive, age a
non-negative integer (`age < 0 or (age - round(age)) != 0` raises). -/
def mkAnimal (w : ℚ) (age : ℚ) : Option Animal :=
  if w ≤ 0 then none
  else if age < 0 ∨ age.den ≠ 1 then none
  else some ⟨w, age.num.toNat⟩

/-- The loop of the base `Landscape.add_population`: entries are processed in
order, each appending a constructed animal to the matching resident list; an
unknown species tag (or an invalid weight/age, which makes the constructor
raise) aborts with an error, keeping the animals already appended — the
mutations made before the exception persist. -/
def addPopLoop : List PopEntry → Cell → Cell × Option String
  | [], c => (c, none)
  | e :: es, c =>
    if e.species = "Herbivore" ∨ e.species = "herbivore" then
      match mkAnimal e.weight e.age with
      | some a => addPopLoop es { c with herb := c.herb ++ [a] }
      | none => (c, some "invalid animal")
    else if e.species = "Carnivore" ∨ e.species = "carnivore" then
      match mkAnimal e.weight e.age with
      | some a => addPopLoop es { c with carn := c.carn ++ [a] }
      | none => (c, some "invalid animal")
    else (c, some "invalid species")

/-- `add_population` with the `Mountain`/`Ocean` overrides, which raise
(for any non-`None` population) before touching the cell. -/
def add_population (pop : List PopEntry) (c : Cell) : Cell × Option String :=
  match c.kind with
  | .mountain => (c, some "Animals can not live here")
  | .ocean => (c, some "Animals can not live here")
  | _ => addPopLoop pop c

/-! ### Island layer (`island_nature.py`)

The island is the `island_map` list of rows of cells.  Cells are addressed by
`(row, column)` integer coordinates; reads outside the map yield a default
(empty, uninhabitable) ocean cell and writes outside the map are dropped — the
source only ever reads or writes neighbours of interior cells, which are
always inside the map. -/

/-- The grid of cells (`Island.island_map`). -/
abbrev Island := List (List Cell)

/-- A grid coordinate. -/
abbrev Loc := ℤ × ℤ

/-- The default out-of-map cell. -/
def oceanCell : Cell := ⟨.ocean, [], [], [], [], 0⟩

/-- Read the cell at a coordinate. -/
def getCell (isl : Island) (loc : Loc) : Cell :=
  if loc.1 < 0 ∨ loc.2 < 0 then oceanCell
  else (isl.getD loc.1.toNat []).getD loc.2.toNat oceanCell

/-- Replace the cell at a coordinate (dropped when out of the map). -/
def setCell (isl : Island) (loc : Loc) (c : Cell) : Island :=
  if loc.1 < 0 ∨ loc.2 < 0 then isl
  else isl.set loc.1.toNat ((isl.getD loc.1.toNat []).set loc.2.toNat c)

/-- Update the cell at a coordinate. -/
def modifyCell (isl : Island) (loc : Loc) (f : Cell → Cell) : Island :=
  setCell isl loc (f (getCell isl loc))

/-- `Landscape.neighbour_locations`: upper, right, lower, left. -/
def neighbour_locations (loc : Loc) : List Loc :=
  [(loc.1 - 1, loc.2), (loc.1, loc.2 + 1), (loc.1 + 1, loc.2), (loc.1, loc.2 - 1)]

/-- The `for herb in self.herb` loop of `Landscape.herb_migration`, processing
the cell's resident list while threading the island (the neighbour objects are
aliases into the island, so staging is immediately visible to later reads) and
the list of remaining residents.  One draw decides the migration attempt; a
second is consumed by `animal_moves_to` when a destination is sampled. -/
def herbMigLoop (pexp : ℚ → ℚ) (sp : SimP) (u : ℕ → ℚ) (loc : Loc) :
    List Animal → Island → List Animal → ℕ → Island × List Animal × ℕ
  | [], isl, rem, k => (isl, rem, k)
  | h :: hs, isl, rem, k =>
    if u k < prob_migration pexp sp.herbP h then
      let nbs := (neighbour_locations loc).map (getCell isl)
      let pm := prob_move pexp sp.herbP nbs .herbivore
      if pm.sum = 0 then herbMigLoop pexp sp u loc hs isl (rem ++ [h]) (k + 1)
      else
        let pos := animal_moves_to pm (u (k + 1))
        herbMigLoop pexp sp u loc hs
          (modifyCell isl ((neighbour_locations loc).getD pos loc)
            (add_herb_immigrant h))
          rem (k + 2)
    else herbMigLoop pexp sp u loc hs isl (rem ++ [h]) (k + 1)

/-- `Landscape.herb_migration` for the cell at `loc`: run the loop over the
residents, then store the remaining herbivores back into the cell. -/
def herb_migration (pexp : ℚ → ℚ) (sp : SimP) (u : ℕ → ℚ) (isl : Island)
    (loc : Loc) (k : ℕ) : Island × ℕ :=
  let r := herbMigLoop pexp sp u loc (getCell isl loc).herb isl [] k
  (setCell r.1 loc { getCell r.1 loc with herb := r.2.1 }, r.2.2)

/-- The carnivore counterpart of `herbMigLoop`. -/
def carnMigLoop (pexp : ℚ → ℚ) (sp : SimP) (u : ℕ → ℚ) (loc : Loc) :
    List Animal → Island → List Animal → ℕ → Island × List Animal × ℕ
  | [], isl, rem, k => (isl, rem, k)
  | a :: as_, isl, rem, k =>
    if u k < prob_migration pexp sp.carnP a then
      let nbs := (neighbour_locations loc).map (getCell isl)
      let pm := prob_move pexp sp.carnP nbs .carnivore
      if pm.sum = 0 then carnMigLoop pexp sp u loc as_ isl (rem ++ [a]) (k + 1)
      else
        let pos := animal_moves_to pm (u (k + 1))
        carnMigLoop pexp sp u loc as_
          (modifyCell isl ((neighbour_locations loc).getD pos loc)
            (add_carn_immigrant a))
          rem (k + 2)
    else carnMigLoop pexp sp u loc as_ isl (rem ++ [a]) (k + 1)

/-- `Landscape.carn_migration` for the cell at `loc`. -/
def carn_migration (pexp : ℚ → ℚ) (sp : SimP) (u : ℕ → ℚ) (isl : Island)
    (loc : Loc) (k : ℕ) : Island × ℕ :=
  let r := carnMigLoop pexp sp u loc (getCell isl loc).carn isl [] k
  (setCell r.1 loc { getCell r.1 loc with carn := r.2.1 }, r.2.2)

/-- The first phase of `Island.animals_migrate`: `herb_migration` on every
cell of the (shuffled) visitation list, in order. -/
def herbPass (pexp : ℚ → ℚ) (sp : SimP) (u : ℕ → ℚ) :
    List Loc → Island → ℕ → Island × ℕ
  | [], isl, k => (isl, k)
  | l :: ls, isl, k =>
    let r := herb_migration pexp sp u isl l k
    herbPass pexp sp u ls r.1 r.2

/-- The third phase of `Island.animals_migrate`. -/
def carnPass (pexp : ℚ → ℚ) (sp : SimP) (u : ℕ → ℚ) :
    List Loc → Island → ℕ → Island × ℕ
  | [], isl, k => (isl, k)
  | l :: ls, isl, k =>
    let r := carn_migration pexp sp u isl l k
    carnPass pexp sp u ls r.1 r.2

/-- The commit phases of `Island.animals_migrate`:
`add_immigrants_to_pop` on every cell of the visitation list. -/
def commitPass : List Loc → Island → Island
  | [], isl => isl
  | l :: ls, isl => commitPass ls (modifyCell isl l add_immigrants_to_pop)

/-- `Island.animals_migrate`: herbivore staging pass over the randomized
interior-cell list, herbivore commit, carnivore staging pass, carnivore
commit (the commit loops use the same cell list). -/
def animals_migrate (pexp : ℚ → ℚ) (sp : SimP) (u : ℕ → ℚ)
    (order : List Loc) (isl : Island) (k : ℕ) : Island × ℕ :=
  let r1 := herbPass pexp sp u order isl k
  let isl2 := commitPass order r1.1
  let r3 := carnPass pexp sp u order isl2 r1.2
  (commitPass order r3.1, r3.2)

/-- Apply a draw-free per-cell operation to every cell
(the row-major `for row in self.island_map: for cell in row` loops). -/
def mapCells (f : Cell → Cell) (isl : Island) : Island :=
  isl.map (fun row => row.map f)

/-- Apply a draw-consuming per-cell operation along one row. -/
def rowFold (f : Cell → ℕ → Cell × ℕ) : List Cell → ℕ → List Cell × ℕ
  | [], k => ([], k)
  | c :: cs, k =>
    let r := f c k
    let rest := rowFold f cs r.2
    (r.1 :: rest.1, rest.2)

/-- Apply a draw-consuming per-cell operation to every cell, row-major. -/
def cellsFold (f : Cell → ℕ → Cell × ℕ) : Island → ℕ → Island × ℕ
  | [], k => ([], k)
  | row :: rows, k =>
    let r := rowFold f row k
    let rest := cellsFold f rows r.2
    (r.1 :: rest.1, rest.2)

/-- `Island.annual_cycle`: growth, herbivore feeding, carnivore feeding,
birth, migration, aging, weight loss, death.  `order` is this year's shuffled
interior-cell visitation list (`randomize_cell_structure`). -/
def annual_cycle (pexp : ℚ → ℚ) (sp : SimP) (pk : Animal → ℚ → ℚ)
    (u g : ℕ → ℚ) (order : List Loc) (isl : Island) (k : ℕ) : Island × ℕ :=
  let i1 := mapCells (food_growth sp) isl
  let i2 := mapCells (herb_eating pexp sp) i1
  let r3 := cellsFold (carn_eating pexp sp pk u) i2 k
  let r4 := cellsFold (animal_birth pexp sp u g) r3.1 r3.2
  let r5 := animals_migrate pexp sp u order r4.1 r4.2
  let i6 := mapCells animal_aging r5.1
  let i7 := mapCells (animal_weight_change sp) i6
  cellsFold (animal_death pexp sp u) i7 r5.2

/-- Repeated annual cycles; `orders y` is the shuffled visitation list of the
`y`-th remaining year. -/
def simulate (pexp : ℚ → ℚ) (sp : SimP) (pk : Animal → ℚ → ℚ) (u g : ℕ → ℚ)
    (orders : ℕ → List Loc) : ℕ → Island → ℕ → Island × ℕ
  | 0, isl, k => (isl, k)
  | n + 1, isl, k =>
    let r := annual_cycle pexp sp pk u g (orders n) isl k
    simulate pexp sp pk u g orders n r.1 r.2

/-- Herbivores and staged herbivore immigrants in a cell, as counted by
`total_num_animals('herbivore')`. -/
def cellHerbCount (c : Cell) : ℕ := c.herb.length + c.herbImm.length

/-- Carnivore counterpart of `cellHerbCount`. -/
def cellCarnCount (c : Cell) : ℕ := c.carn.length + c.carnImm.length

/-- Island-wide herbivore count (the `num_herbs` sum of
`Island.number_of_animals`). -/
def totalHerb (isl : Island) : ℕ :=
  (isl.map (fun row => (row.map cellHerbCount).sum)).sum

/-- Island-wide carnivore count. -/
def totalCarn (isl : Island) : ℕ :=
  (isl.map (fun row => (row.map cellCarnCount).sum)).sum

/-- `Island.number_of_animals`. -/
def number_of_animals (isl : Island) : ℕ × ℕ := (totalHerb isl, totalCarn isl)

/-- One record handed to `Island.place_animals`
(`{'loc': (row, col), 'pop': [...]}`, 1-indexed location). -/
structure PlaceRec where
  loc : ℤ × ℤ
  pop : List PopEntry
deriving DecidableEq

/-- Python list indexing `xs[i]` for a list of length `n`: a negative index
counts from the end (`xs[-1]` is the last element); an index out of range
after that wraparound raises `IndexError`. -/
def pyIdx (n : ℕ) (i : ℤ) : Option ℕ :=
  if 0 ≤ i then
    if i < (n : ℤ) then some i.toNat else none
  else if 0 ≤ i + (n : ℤ) then some (i + (n : ℤ)).toNat else none

/-- `Island.place_animals`.  For each record: bounds check against the map
size (`len(island_map) - 1 < row or len(island_map[0]) - 1 < col` raises —
it only catches too-large indices), then `self.island_map[row][col]` with
Python index semantics (a negative row/column wraps around to count from the
far edge; only an index out of range after wraparound raises `IndexError`),
then habitability dispatch and `add_population` on the target cell; an error
stops processing with all mutations made so far still in place. -/
def place_animals (isl : Island) : List PlaceRec → Island × Option String
  | [] => (isl, none)
  | r :: rs =>
    let row := r.loc.1 - 1
    let col := r.loc.2 - 1
    if (isl.length : ℤ) - 1 < row ∨ ((isl.getD 0 []).length : ℤ) - 1 < col then
      (isl, some "Position does not exist on map")
    else
      match pyIdx isl.length row with
      | none => (isl, some "IndexError")
      | some i =>
        match pyIdx (isl.getD i []).length col with
        | none => (isl, some "IndexError")
        | some j =>
          if animals_can_live_here (getCell isl ((i : ℤ), (j : ℤ))) then
            let res := add_population r.pop (getCell isl ((i : ℤ), (j : ℤ)))
            match res.2 with
            | none => place_animals (setCell isl ((i : ℤ), (j : ℤ)) res.1) rs
            | some e => (setCell isl ((i : ℤ), (j : ℤ)) res.1, some e)
          else (isl, some "Animals can not live in position")

/-! ### Concrete instantiations used by examples -/

/-- A concrete positive stand-in for `math.exp` (constant `1`): it makes
every animal's fitness `1/4`. -/
def pexpConst1 : ℚ → ℚ := fun _ => 1

/-- A concrete positive stand-in for `math.exp` that distinguishes negative
from non-negative arguments, giving animals distinct fitness values. -/
def pexpStep : ℚ → ℚ := fun x => if x < 0 then 1 / 2 else 2

/-- The all-zeros uniform stream (`random.random()` may return `0.0`). -/
def uZero : ℕ → ℚ := fun _ => 0

/-- A constant gauss stream. -/
def gConst : ℕ → ℚ := fun _ => 7

/-! ### C7: probability of birth -/

/-- C7: `probability_birth` returns `0` when the animal's weight is below
`zeta * (w_birth + sigma_birth)` and otherwise `gamma * fitness * (n - 1)`
capped at `1`; in particular it returns `0` for `n = 1` regardless of weight
and fitness. -/
theorem C7_probability_birth_spec (pexp : ℚ → ℚ) (p : AnimalP) (a : Animal)
    (n : ℕ) :
    probability_birth pexp p a n =
      (if a.weight < p.zeta * (p.w_birth + p.sigma_birth) then 0
       else min (p.gamma * fitness pexp p a * ((n : ℚ) - 1)) 1) ∧
    probability_birth pexp p a 1 = 0 := by
  constructor
  · unfold probability_birth
    split
    · rfl
    · rcases le_or_lt (p.gamma * fitness pexp p a * ((n : ℚ) - 1)) 1 with h | h
      · rw [if_neg (not_lt.mpr h), min_eq_left h]
      · rw [if_pos h, min_eq_right h.le]
  · unfold probability_birth
    split
    · rfl
    · norm_num

/-! ### C8: annual weight loss -/

/-- C8: for an animal of positive weight, the annual weight loss sets the
weight to `w - eta * w` (the weight setter performs no validation, so no
error can be raised); for `eta ∈ [0, 1)` the result is strictly positive and
for `eta = 1` it is exactly `0`. -/
theorem C8_weight_loss (p : AnimalP) (a : Animal) (hw : 0 < a.weight) :
    (weight_change p a).weight = a.weight - p.eta * a.weight ∧
    (0 ≤ p.eta → p.eta < 1 → 0 < (weight_change p a).weight) ∧
    (p.eta = 1 → (weight_change p a).weight = 0) := by
  refine ⟨rfl, ?_, ?_⟩
  · intro h0 h1
    simp only [weight_change]
    nlinarith
  · intro h
    simp only [weight_change, h]
    ring

/-- Witness for C8 at concrete inputs (default herbivore decay rate, and the
boundary rate `eta = 1`). -/
theorem C8_weight_loss_witness :
    0 < (weight_change herbDefault ⟨10, 2⟩).weight ∧
    (weight_change { herbDefault with eta := 1 } ⟨10, 2⟩).weight = 0 := by
  constructor
  · exact (C8_weight_loss herbDefault ⟨10, 2⟩ (by norm_num)).2.1
      (by norm_num [herbDefault]) (by norm_num [herbDefault])
  · exact (C8_weight_loss { herbDefault with eta := 1 } ⟨10, 2⟩
      (by norm_num)).2.2 rfl

/-! ### C3: the kill-attempt function -/

/-- C3 counterexample: with equal fitness values (gap `= 0`, "carnivore not
fitter") `carn_kills_herb` returns `True` — the `else` branch of the source
covers the whole complement of `0 < gap < DeltaPhiMax`, so a non-positive gap
yields a certain kill rather than no kill. -/
theorem C3_gap_zero_kills :
    fitness pexpConst1 carnDefault ⟨8, 3⟩ - fitness pexpConst1 herbDefault ⟨8, 3⟩ = 0 ∧
    Carnivore.carn_kills_herb pexpConst1 carnDefault herbDefault 10
      (Carnivore.prob_kill pexpConst1 carnDefault 10) ⟨8, 3⟩ ⟨8, 3⟩ 0 = true := by
  constructor
  · norm_num [fitness, q_factor, pexpConst1]
  · norm_num [Carnivore.carn_kills_herb, fitness, q_factor, pexpConst1]

/-- C3 amended: with the default kill probability, a fitness gap in
`(0, DeltaPhiMax)` kills iff the uniform draw is below `gap / DeltaPhiMax`,
and a gap `≥ DeltaPhiMax` kills certainly — but a gap `≤ 0` also returns a
certain kill (the feeding loop never calls the function in that regime, since
it spares the prey when the carnivore is not strictly fitter). -/
theorem C3_kill_cases (pexp : ℚ → ℚ) (pC pH : AnimalP) (dpm : ℚ)
    (c h : Animal) (rnd : ℚ) :
    (0 < fitness pexp pC c - fitness pexp pH h →
      fitness pexp pC c - fitness pexp pH h < dpm →
      (Carnivore.carn_kills_herb pexp pC pH dpm
          (Carnivore.prob_kill pexp pC dpm) c h rnd = true ↔
        rnd < (fitness pexp pC c - fitness pexp pH h) / dpm)) ∧
    (dpm ≤ fitness pexp pC c - fitness pexp pH h →
      Carnivore.carn_kills_herb pexp pC pH dpm
        (Carnivore.prob_kill pexp pC dpm) c h rnd = true) ∧
    (fitness pexp pC c - fitness pexp pH h ≤ 0 →
      Carnivore.carn_kills_herb pexp pC pH dpm
        (Carnivore.prob_kill pexp pC dpm) c h rnd = true) := by
  refine ⟨?_, ?_, ?_⟩
  · intro h1 h2
    simp [Carnivore.carn_kills_herb, Carnivore.prob_kill, h1, h2]
  · intro h1
    have hc : ¬(0 < fitness pexp pC c - fitness pexp pH h ∧
        fitness pexp pC c - fitness pexp pH h < dpm) := by
      intro hc
      linarith [hc.2]
    simp only [Carnivore.carn_kills_herb, if_neg hc]
  · intro h1
    have hc : ¬(0 < fitness pexp pC c - fitness pexp pH h ∧
        fitness pexp pC c - fitness pexp pH h < dpm) := by
      intro hc
      linarith [hc.1]
    simp only [Carnivore.carn_kills_herb, if_neg hc]

/-- Witness for C3 at a concrete stochastic-branch input: a carnivore of
fitness `4/9` against a herbivore of fitness `1/9` (gap `1/3`, inside
`(0, 10)`), with draw `0 < (1/3)/10`. -/
theorem C3_kill_cases_witness :
    Carnivore.carn_kills_herb pexpStep carnDefault herbDefault 10
      (Carnivore.prob_kill pexpStep carnDefault 10) ⟨50, 5⟩ ⟨5, 50⟩ 0 = true := by
  have h := (C3_kill_cases pexpStep carnDefault herbDefault 10 ⟨50, 5⟩ ⟨5, 50⟩ 0).1
    (by norm_num [fitness, q_factor, pexpStep, carnDefault, herbDefault])
    (by norm_num [fitness, q_factor, pexpStep, carnDefault, herbDefault])
  rw [h]
  norm_num [fitness, q_factor, pexpStep, carnDefault, herbDefault]

/-! ### C4: cell-wide early exit of carnivore feeding -/

/-- If every remaining carnivore's fitness is at most the first (weakest)
remaining herbivore's, the feeding loop changes nothing: either it breaks
outright, or an equal-fitness carnivore's `eating` call spares the whole list
at its first check. -/
theorem carnFeedLoop_no_change (pexp : ℚ → ℚ) (sp : SimP)
    (pk : Animal → ℚ → ℚ) (u : ℕ → ℚ) (h0 : Animal) (hs : List Animal) :
    ∀ (cs : List Animal) (k : ℕ),
      (∀ x ∈ cs, fitness pexp sp.carnP x ≤ fitness pexp sp.herbP h0) →
      carnFeedLoop pexp sp pk u cs (h0 :: hs) k = (cs, h0 :: hs, k) := by
  intro cs
  induction cs with
  | nil => intro k _; rfl
  | cons c rest ih =>
    intro k hall
    have hch : fitness pexp sp.carnP c ≤ fitness pexp sp.herbP h0 :=
      hall c (List.mem_cons_self c rest)
    by_cases hlt : fitness pexp sp.carnP c < fitness pexp sp.herbP h0
    · simp [carnFeedLoop, if_pos hlt]
    · have heat : Carnivore.eating pexp sp.carnP sp.herbP sp.dpm pk u c
          (h0 :: hs) k = (c, h0 :: hs, k) := by
        simp [Carnivore.eating, Carnivore.eatAux, if_pos (Or.inl hch)]
      simp only [carnFeedLoop, if_neg hlt, heat,
        ih k (fun x hx => hall x (List.mem_cons_of_mem c hx))]

/-- C4: in the carnivore-feeding loop of a cell — carnivores in descending
fitness order, herbivores ascending — once the weakest remaining herbivore's
fitness is `≥` the current carnivore's, no further herbivore is killed and no
further carnivore's weight changes for the rest of the phase. -/
theorem C4_cell_wide_early_exit (pexp : ℚ → ℚ) (sp : SimP)
    (pk : Animal → ℚ → ℚ) (u : ℕ → ℚ) (c0 : Animal) (cs : List Animal)
    (h0 : Animal) (hs : List Animal) (k : ℕ)
    (hcarns : (c0 :: cs).Pairwise
      (fun a b => fitness pexp sp.carnP b ≤ fitness pexp sp.carnP a))
    (_hherbs : (h0 :: hs).Pairwise
      (fun a b => fitness pexp sp.herbP a ≤ fitness pexp sp.herbP b))
    (htrig : fitness pexp sp.carnP c0 ≤ fitness pexp sp.herbP h0) :
    carnFeedLoop pexp sp pk u (c0 :: cs) (h0 :: hs) k = (c0 :: cs, h0 :: hs, k) := by
  apply carnFeedLoop_no_change
  intro x hx
  rcases List.mem_cons.mp hx with hx | hx
  · rw [hx]; exact htrig
  · exact le_trans ((List.pairwise_cons.mp hcarns).1 x hx) htrig

/-- Witness for C4 at concrete inputs (two equal-fitness carnivores against
one equal-fitness herbivore; the loop does not break at the equality but
leaves everything untouched). -/
theorem C4_cell_wide_early_exit_witness :
    carnFeedLoop pexpConst1 simDefault
      (Carnivore.prob_kill pexpConst1 carnDefault 10) uZero
      [⟨20, 5⟩, ⟨30, 1⟩] [⟨10, 3⟩] 0 = ([⟨20, 5⟩, ⟨30, 1⟩], [⟨10, 3⟩], 0) := by
  exact C4_cell_wide_early_exit pexpConst1 simDefault
    (Carnivore.prob_kill pexpConst1 carnDefault 10) uZero ⟨20, 5⟩ [⟨30, 1⟩]
    ⟨10, 3⟩ [] 0
    (by norm_num [List.pairwise_cons, fitness, q_factor, pexpConst1, simDefault])
    (by norm_num [List.pairwise_cons])
    (by norm_num [fitness, q_factor, pexpConst1, simDefault])

/-! ### C5: the destination-probability distribution -/

theorem zip_self_map {α β : Type} (l : List α) (f : α → β) :
    l.zip (l.map f) = l.map (fun a => (a, f a)) := by
  induction l with
  | nil => rfl
  | cons a t ih => simp [ih]

/-- `propensity` over the abundance list of the same neighbour list is the
pointwise map sending uninhabitable cells to `0` and habitable ones to
`pexp (lambda * ek)`. -/
theorem propensity_eq_map (pexp : ℚ → ℚ) (p : AnimalP) (nbs : List Cell)
    (s : Sp) :
    propensity pexp p nbs (relative_abundance_of_fodder nbs p s) =
      nbs.map (fun c =>
        if animals_can_live_here c then
          pexp (p.lam * (get_available_fodder c s /
            (((total_num_animals c s : ℚ) + 1) * p.F)))
        else 0) := by
  unfold propensity relative_abundance_of_fodder
  rw [zip_self_map, List.map_map]
  rfl

theorem propensity_nonneg (pexp : ℚ → ℚ) (p : AnimalP) (nbs : List Cell)
    (ek : List ℚ) (hpexp : ∀ x, 0 < pexp x) :
    ∀ x ∈ propensity pexp p nbs ek, 0 ≤ x := by
  intro x hx
  unfold propensity at hx
  obtain ⟨ce, _, rfl⟩ := List.mem_map.mp hx
  split
  · exact le_of_lt (hpexp _)
  · exact le_rfl

theorem sum_map_div (l : List ℚ) (S : ℚ) :
    (l.map (fun x => x / S)).sum = l.sum / S := by
  induction l with
  | nil => simp
  | cons a t ih => simp [ih, add_div]

/-- C5: the destination-probability list sums to exactly `1` whenever at
least one neighbour is habitable; each entry is the neighbour's propensity
divided by the sum of the propensities; and the list is `[0, 0, 0, 0]` when
no neighbour is habitable. -/
theorem C5_prob_move_distribution (pexp : ℚ → ℚ) (p : AnimalP) (s : Sp)
    (nbs : List Cell) (hpexp : ∀ x, 0 < pexp x) :
    ((∃ c ∈ nbs, animals_can_live_here c = true) →
      (prob_move pexp p nbs s).sum = 1 ∧
      prob_move pexp p nbs s =
        (propensity pexp p nbs (relative_abundance_of_fodder nbs p s)).map
          (fun x => x /
            (propensity pexp p nbs (relative_abundance_of_fodder nbs p s)).sum)) ∧
    ((∀ c ∈ nbs, animals_can_live_here c = false) →
      prob_move pexp p nbs s = [0, 0, 0, 0]) := by
  constructor
  · rintro ⟨c, hc, hhab⟩
    have hpos : 0 < (propensity pexp p nbs
        (relative_abundance_of_fodder nbs p s)).sum := by
      have hmem : pexp (p.lam * (get_available_fodder c s /
          (((total_num_animals c s : ℚ) + 1) * p.F))) ∈
          propensity pexp p nbs (relative_abundance_of_fodder nbs p s) := by
        rw [propensity_eq_map]
        have := List.mem_map_of_mem (fun c =>
          if animals_can_live_here c then
            pexp (p.lam * (get_available_fodder c s /
              (((total_num_animals c s : ℚ) + 1) * p.F)))
          else 0) hc
        simp only [if_pos hhab] at this
        exact this
      calc (0 : ℚ) < pexp (p.lam * (get_available_fodder c s /
            (((total_num_animals c s : ℚ) + 1) * p.F))) := hpexp _
        _ ≤ _ := List.single_le_sum
            (propensity_nonneg pexp p nbs _ hpexp) _ hmem
    have hne : (propensity pexp p nbs
        (relative_abundance_of_fodder nbs p s)).sum ≠ 0 := ne_of_gt hpos
    constructor
    · unfold prob_move
      rw [if_neg hne, sum_map_div, div_self hne]
    · unfold prob_move
      rw [if_neg hne]
  · intro hall
    have hzero : (propensity pexp p nbs
        (relative_abundance_of_fodder nbs p s)).sum = 0 := by
      apply List.sum_eq_zero
      intro x hx
      rw [propensity_eq_map] at hx
      obtain ⟨c, hc, rfl⟩ := List.mem_map.mp hx
      rw [if_neg (by simp [hall c hc])]
    unfold prob_move
    rw [if_pos hzero]

/-- Witness for C5: one habitable (jungle) neighbour among three ocean cells
gives a distribution summing to `1`; four ocean neighbours give
`[0, 0, 0, 0]`. -/
theorem C5_prob_move_distribution_witness :
    (prob_move pexpConst1 herbDefault
      [oceanCell, ⟨.jungle, [], [], [], [], 800⟩, oceanCell, oceanCell]
      .herbivore).sum = 1 ∧
    prob_move pexpConst1 herbDefault
      [oceanCell, oceanCell, oceanCell, oceanCell] .herbivore = [0, 0, 0, 0] := by
  constructor
  · exact ((C5_prob_move_distribution pexpConst1 herbDefault .herbivore
      [oceanCell, ⟨.jungle, [], [], [], [], 800⟩, oceanCell, oceanCell]
      (fun x => by norm_num [pexpConst1])).1
      ⟨⟨.jungle, [], [], [], [], 800⟩, by simp, by rfl⟩).1
  · exact (C5_prob_move_distribution pexpConst1 herbDefault .herbivore
      [oceanCell, oceanCell, oceanCell, oceanCell]
      (fun x => by norm_num [pexpConst1])).2
      (by intro c hc; simp at hc; rw [hc]; rfl)

/-! ### C9: placement errors -/

/-- An empty habitable jungle cell with the given fodder. -/
def jCell (food : ℚ) : Cell := ⟨.jungle, [], [], [], [], food⟩

/-- A 3×3 all-ocean-border island with one empty jungle cell in the middle. -/
def islOneJungle : Island :=
  [[oceanCell, oceanCell, oceanCell],
   [oceanCell, jCell 800, oceanCell],
   [oceanCell, oceanCell, oceanCell]]

/-- C9 counterexample: a record whose second entry has an unknown species tag
raises, but the record's first animal has already been added to the target
cell — the placement is partial, not fail-fast. -/
theorem C9_partial_placement :
    (place_animals islOneJungle
      [⟨(2, 2), [⟨"Herbivore", 5, 20⟩, ⟨"Unicorn", 1, 5⟩]⟩]).2 =
        some "invalid species" ∧
    totalHerb (place_animals islOneJungle
      [⟨(2, 2), [⟨"Herbivore", 5, 20⟩, ⟨"Unicorn", 1, 5⟩]⟩]).1 = 1 := by
  constructor
  · norm_num +decide [place_animals, pyIdx, islOneJungle, getCell, jCell,
      oceanCell, animals_can_live_here, add_population, addPopLoop, mkAnimal,
      setCell]
  · norm_num +decide [place_animals, pyIdx, islOneJungle, getCell, jCell,
      oceanCell, animals_can_live_here, add_population, addPopLoop, mkAnimal,
      setCell, totalHerb, cellHerbCount]

/-- A population entry that `add_population` accepts: a known species tag and
weight/age the `Animal` constructor accepts. -/
def isValidEntry (e : PopEntry) : Prop :=
  ((e.species = "Herbivore" ∨ e.species = "herbivore") ∨
    (e.species = "Carnivore" ∨ e.species = "carnivore")) ∧
  (mkAnimal e.weight e.age).isSome = true

/-- The effect of one accepted entry on a cell. -/
def applyEntry (e : PopEntry) (c : Cell) : Cell :=
  if e.species = "Herbivore" ∨ e.species = "herbivore" then
    { c with herb := c.herb ++ (mkAnimal e.weight e.age).toList }
  else if e.species = "Carnivore" ∨ e.species = "carnivore" then
    { c with carn := c.carn ++ (mkAnimal e.weight e.age).toList }
  else c

theorem addPopLoop_valid_step (e : PopEntry) (es : List PopEntry) (c : Cell)
    (he : isValidEntry e) :
    addPopLoop (e :: es) c = addPopLoop es (applyEntry e c) := by
  obtain ⟨hsp, hmk⟩ := he
  obtain ⟨a, ha⟩ := Option.isSome_iff_exists.mp hmk
  rcases hsp with hherb | hcarn
  · simp [addPopLoop, applyEntry, hherb, ha]
  · rcases (em (e.species = "Herbivore" ∨ e.species = "herbivore")) with hh | hh
    · simp [addPopLoop, applyEntry, hh, ha]
    · simp [addPopLoop, applyEntry, hh, hcarn, ha]

/-- C9 amended: the bounds check of `place_animals` only rejects too-large
indices, raising before any mutation; a 1-indexed coordinate `≤ 0` is *not*
rejected — Python's negative indexing wraps it around to a cell counted from
the far edge, where the record is placed with no error when that cell is
habitable (and only an index out of range after wraparound raises
`IndexError`); a non-habitable target raises with the island unchanged; and
an unknown species tag inside a record aborts `add_population` only when its
entry is reached, with all earlier entries of the record already added. -/
theorem C9_placement_errors_amended (isl : Island) (r : PlaceRec)
    (rs : List PlaceRec) (i j : ℕ) (c' : Cell) (pre : List PopEntry)
    (bad : PopEntry) (rest : List PopEntry) (c : Cell) :
    (((isl.length : ℤ) - 1 < r.loc.1 - 1 ∨
        ((isl.getD 0 []).length : ℤ) - 1 < r.loc.2 - 1) →
      place_animals isl (r :: rs) = (isl, some "Position does not exist on map")) ∧
    (¬((isl.length : ℤ) - 1 < r.loc.1 - 1 ∨
        ((isl.getD 0 []).length : ℤ) - 1 < r.loc.2 - 1) →
      pyIdx isl.length (r.loc.1 - 1) = none →
      place_animals isl (r :: rs) = (isl, some "IndexError")) ∧
    (¬((isl.length : ℤ) - 1 < r.loc.1 - 1 ∨
        ((isl.getD 0 []).length : ℤ) - 1 < r.loc.2 - 1) →
      pyIdx isl.length (r.loc.1 - 1) = some i →
      pyIdx (isl.getD i []).length (r.loc.2 - 1) = some j →
      animals_can_live_here (getCell isl ((i : ℤ), (j : ℤ))) = false →
      place_animals isl (r :: rs) = (isl, some "Animals can not live in position")) ∧
    (¬((isl.length : ℤ) - 1 < r.loc.1 - 1 ∨
        ((isl.getD 0 []).length : ℤ) - 1 < r.loc.2 - 1) →
      pyIdx isl.length (r.loc.1 - 1) = some i →
      pyIdx (isl.getD i []).length (r.loc.2 - 1) = some j →
      animals_can_live_here (getCell isl ((i : ℤ), (j : ℤ))) = true →
      add_population r.pop (getCell isl ((i : ℤ), (j : ℤ))) = (c', none) →
      place_animals isl (r :: rs) =
        place_animals (setCell isl ((i : ℤ), (j : ℤ)) c') rs) ∧
    ((∀ e ∈ pre, isValidEntry e) →
      ¬((bad.species = "Herbivore" ∨ bad.species = "herbivore") ∨
        (bad.species = "Carnivore" ∨ bad.species = "carnivore")) →
      c.kind ≠ .mountain → c.kind ≠ .ocean →
      add_population (pre ++ bad :: rest) c =
        (pre.foldl (fun acc e => applyEntry e acc) c, some "invalid species")) := by
  refine ⟨?_, ?_, ?_, ?_, ?_⟩
  · intro hb
    simp only [place_animals]
    rw [if_pos hb]
  · intro hb hpyr
    simp only [place_animals]
    rw [if_neg hb, hpyr]
  · intro hb hpyr hpyc hhab
    simp only [place_animals]
    rw [if_neg hb, hpyr]
    dsimp only
    rw [hpyc]
    dsimp only
    rw [if_neg (by simp [hhab])]
  · intro hb hpyr hpyc hhab hadd
    simp only [place_animals]
    rw [if_neg hb, hpyr]
    dsimp only
    rw [hpyc]
    dsimp only
    rw [if_pos hhab, hadd]
  · intro hpre hbad hm ho
    have hloop : ∀ (pre : List PopEntry) (c : Cell),
        (∀ e ∈ pre, isValidEntry e) →
        addPopLoop (pre ++ bad :: rest) c =
          (pre.foldl (fun acc e => applyEntry e acc) c, some "invalid species") := by
      intro pre
      induction pre with
      | nil =>
        intro c _
        have h1 : ¬(bad.species = "Herbivore" ∨ bad.species = "herbivore") :=
          fun h => hbad (Or.inl h)
        have h2 : ¬(bad.species = "Carnivore" ∨ bad.species = "carnivore") :=
          fun h => hbad (Or.inr h)
        simp [addPopLoop, h1, h2]
      | cons e es ih =>
        intro c hall
        rw [List.cons_append, addPopLoop_valid_step e _ c
          (hall e (List.mem_cons_self e es)), List.foldl_cons]
        exact ih _ (fun x hx => hall x (List.mem_cons_of_mem e hx))
    have hk : add_population (pre ++ bad :: rest) c =
        addPopLoop (pre ++ bad :: rest) c := by
      unfold add_population
      cases hck : c.kind
      · rfl
      · rfl
      · rfl
      · exact absurd hck hm
      · exact absurd hck ho
    rw [hk, hloop pre c hpre]

/-- Witness for C9 amended: a too-large record; a record wrapping beyond the
map (`IndexError`); a record aimed at an ocean cell; a record whose negative
1-indexed location `(-1, 2)` wraps around onto the habitable middle cell and
is placed there with no error; and a record with a valid herbivore before an
unknown tag. -/
theorem C9_placement_errors_amended_witness :
    place_animals islOneJungle [⟨(5, 5), []⟩] =
      (islOneJungle, some "Position does not exist on map") ∧
    place_animals islOneJungle [⟨(-3, 2), []⟩] =
      (islOneJungle, some "IndexError") ∧
    place_animals islOneJungle [⟨(1, 1), [⟨"Herbivore", 5, 20⟩]⟩] =
      (islOneJungle, some "Animals can not live in position") ∧
    (place_animals islOneJungle [⟨(-1, 2), [⟨"Herbivore", 5, 20⟩]⟩]).2 = none ∧
    totalHerb (place_animals islOneJungle
      [⟨(-1, 2), [⟨"Herbivore", 5, 20⟩]⟩]).1 = 1 ∧
    add_population [⟨"Herbivore", 5, 20⟩, ⟨"Unicorn", 1, 5⟩] (jCell 800) =
      (applyEntry ⟨"Herbivore", 5, 20⟩ (jCell 800), some "invalid species") := by
  refine ⟨?_, ?_, ?_, ?_, ?_, ?_⟩
  · exact (C9_placement_errors_amended islOneJungle ⟨(5, 5), []⟩ [] 0 0
      oceanCell [] ⟨"x", 0, 0⟩ [] oceanCell).1 (by norm_num [islOneJungle])
  · exact (C9_placement_errors_amended islOneJungle ⟨(-3, 2), []⟩ [] 0 0
      oceanCell [] ⟨"x", 0, 0⟩ [] oceanCell).2.1
      (by norm_num [islOneJungle]) (by decide)
  · exact (C9_placement_errors_amended islOneJungle
      ⟨(1, 1), [⟨"Herbivore", 5, 20⟩]⟩ [] 0 0 oceanCell [] ⟨"x", 0, 0⟩ []
      oceanCell).2.2.1 (by norm_num [islOneJungle]) (by decide) (by decide)
      (by decide)
  · have h := (C9_placement_errors_amended islOneJungle
      ⟨(-1, 2), [⟨"Herbivore", 5, 20⟩]⟩ [] 1 1
      ⟨.jungle, [⟨20, 5⟩], [], [], [], 800⟩ [] ⟨"x", 0, 0⟩ []
      oceanCell).2.2.2.1 (by norm_num [islOneJungle]) (by decide) (by decide)
      (by decide)
      (by norm_num +decide [add_population, addPopLoop, mkAnimal, getCell,
        islOneJungle, jCell])
    rw [h]
    rfl
  · have h := (C9_placement_errors_amended islOneJungle
      ⟨(-1, 2), [⟨"Herbivore", 5, 20⟩]⟩ [] 1 1
      ⟨.jungle, [⟨20, 5⟩], [], [], [], 800⟩ [] ⟨"x", 0, 0⟩ []
      oceanCell).2.2.2.1 (by norm_num [islOneJungle]) (by decide) (by decide)
      (by decide)
      (by norm_num +decide [add_population, addPopLoop, mkAnimal, getCell,
        islOneJungle, jCell])
    rw [h]
    decide
  · have h := (C9_placement_errors_amended islOneJungle ⟨(1, 1), []⟩ [] 0 0
      oceanCell [⟨"Herbivore", 5, 20⟩] ⟨"Unicorn", 1, 5⟩ []
      (jCell 800)).2.2.2.2
      (by
        intro e he
        simp only [List.mem_singleton] at he
        subst he
        constructor
        · exact Or.inl (Or.inl rfl)
        · norm_num [mkAnimal])
      (by simp) (by simp [jCell]) (by simp [jCell])
    simpa using h

/-! ### Grid infrastructure lemmas -/

theorem getD_set_eq_ite {α : Type} (l : List α) (i j : ℕ) (a : α) (d : α) :
    (l.set i a).getD j d = if i = j ∧ i < l.length then a else l.getD j d := by
  induction l generalizing i j with
  | nil => simp
  | cons x t ih =>
    cases i with
    | zero =>
      cases j with
      | zero => simp
      | succ m => simp
    | succ n =>
      cases j with
      | zero => simp
      | succ m =>
        simp only [List.set_cons_succ, List.getD_cons_succ, List.length_cons]
        rw [ih]
        by_cases h : n = m ∧ n < t.length
        · rw [if_pos h, if_pos ⟨by omega, by omega⟩]
        · rw [if_neg h, if_neg (by omega)]

theorem set_getD_self {α : Type} (l : List α) (i : ℕ) (d : α)
    (h : i < l.length) : l.set i (l.getD i d) = l := by
  induction l generalizing i with
  | nil => simp at h
  | cons x t ih =>
    cases i with
    | zero => simp
    | succ n =>
      simp only [List.getD_cons_succ, List.set_cons_succ]
      rw [ih n (by simpa using h)]

theorem sum_map_set {α : Type} (f : α → ℕ) (l : List α) (i : ℕ) (a d : α)
    (h : i < l.length) :
    ((l.set i a).map f).sum + f (l.getD i d) = (l.map f).sum + f a := by
  induction l generalizing i with
  | nil => simp at h
  | cons x t ih =>
    cases i with
    | zero => simp; omega
    | succ n =>
      simp only [List.set_cons_succ, List.getD_cons_succ, List.map_cons,
        List.sum_cons]
      have := ih n (by simpa using h)
      omega

/-- The row-length profile of an island; every operation below preserves it. -/
def shape (isl : Island) : List ℕ := isl.map List.length

theorem rowLen_eq_shape_getD (isl : Island) (i : ℕ) :
    (isl.getD i []).length = (shape isl).getD i 0 := by
  induction isl generalizing i with
  | nil => simp [shape]
  | cons row rows ih =>
    cases i with
    | zero => simp [shape]
    | succ n => simpa [shape] using ih n

/-- In-bounds coordinates, phrased against a shape. -/
def InbS (sh : List ℕ) (loc : Loc) : Prop :=
  0 ≤ loc.1 ∧ 0 ≤ loc.2 ∧ loc.1.toNat < sh.length ∧
    loc.2.toNat < sh.getD loc.1.toNat 0

instance (sh : List ℕ) (loc : Loc) : Decidable (InbS sh loc) := by
  unfold InbS
  infer_instance

/-- In-bounds coordinates of an island. -/
def Inb (isl : Island) (loc : Loc) : Prop := InbS (shape isl) loc

instance (isl : Island) (loc : Loc) : Decidable (Inb isl loc) := by
  unfold Inb
  infer_instance

theorem inb_iff (isl : Island) (loc : Loc) :
    Inb isl loc ↔ 0 ≤ loc.1 ∧ 0 ≤ loc.2 ∧ loc.1.toNat < isl.length ∧
      loc.2.toNat < (isl.getD loc.1.toNat []).length := by
  unfold Inb InbS
  rw [← rowLen_eq_shape_getD]
  unfold shape
  rw [List.length_map]

theorem shape_setCell (isl : Island) (loc : Loc) (c : Cell) :
    shape (setCell isl loc c) = shape isl := by
  unfold setCell
  split
  · rfl
  · unfold shape
    generalize loc.1.toNat = i
    induction isl generalizing i with
    | nil => rfl
    | cons row rows ih =>
      cases i with
      | zero => simp
      | succ n =>
        simp only [List.getD_cons_succ, List.set_cons_succ, List.map_cons,
          List.cons.injEq, true_and]
        exact ih n

theorem shape_modifyCell (isl : Island) (loc : Loc) (f : Cell → Cell) :
    shape (modifyCell isl loc f) = shape isl :=
  shape_setCell isl loc _

theorem getCell_oob (isl : Island) (loc : Loc) (h : ¬ Inb isl loc) :
    getCell isl loc = oceanCell := by
  rw [inb_iff] at h
  unfold getCell
  split
  · rfl
  · rename_i hneg
    push_neg at hneg
    rcases Nat.lt_or_ge loc.1.toNat isl.length with h1 | h1
    · rcases Nat.lt_or_ge loc.2.toNat (isl.getD loc.1.toNat []).length with h2 | h2
      · exact absurd ⟨hneg.1, hneg.2, h1, h2⟩ h
      · exact List.getD_eq_default _ _ h2
    · rw [List.getD_eq_default _ _ h1]
      rfl

theorem setCell_oob (isl : Island) (loc : Loc) (c : Cell) (h : ¬ Inb isl loc) :
    setCell isl loc c = isl := by
  rw [inb_iff] at h
  unfold setCell
  split
  · rfl
  · rename_i hneg
    push_neg at hneg
    rcases Nat.lt_or_ge loc.1.toNat isl.length with h1 | h1
    · rcases Nat.lt_or_ge loc.2.toNat (isl.getD loc.1.toNat []).length with h2 | h2
      · exact absurd ⟨hneg.1, hneg.2, h1, h2⟩ h
      · rw [List.set_eq_of_length_le h2]
        exact set_getD_self _ _ _ h1
    · exact List.set_eq_of_length_le h1

/-- Reading after writing: the written cell at the written (in-bounds)
coordinate, the old contents elsewhere. -/
theorem getCell_setCell (isl : Island) (loc loc' : Loc) (c : Cell) :
    getCell (setCell isl loc c) loc' =
      if loc' = loc ∧ Inb isl loc then c else getCell isl loc' := by
  by_cases heq : loc' = loc
  · subst heq
    by_cases hinb : Inb isl loc'
    · rw [if_pos ⟨rfl, hinb⟩]
      obtain ⟨h1, h2, h3, h4⟩ := (inb_iff isl loc').mp hinb
      have hcond : ¬(loc'.1 < 0 ∨ loc'.2 < 0) := by omega
      unfold getCell setCell
      simp only [if_neg hcond]
      rw [getD_set_eq_ite, if_pos ⟨rfl, h3⟩, getD_set_eq_ite, if_pos ⟨rfl, h4⟩]
    · rw [if_neg (fun hc => hinb hc.2), setCell_oob _ _ _ hinb]
  · rw [if_neg (fun hc => heq hc.1)]
    by_cases hinb : Inb isl loc
    · obtain ⟨h1, h2, h3, h4⟩ := (inb_iff isl loc).mp hinb
      have hcond : ¬(loc.1 < 0 ∨ loc.2 < 0) := by omega
      unfold getCell setCell
      simp only [if_neg hcond]
      by_cases hneg' : loc'.1 < 0 ∨ loc'.2 < 0
      · simp only [if_pos hneg']
      · simp only [if_neg hneg']
        push_neg at hneg'
        by_cases hrow : loc.1.toNat = loc'.1.toNat
        · have hcol : loc.2.toNat ≠ loc'.2.toNat := by
            intro hc
            apply heq
            refine Prod.ext ?_ ?_ <;> omega
          rw [getD_set_eq_ite, if_pos ⟨hrow, h3⟩, getD_set_eq_ite,
            if_neg (fun hc => hcol hc.1), hrow]
        · rw [getD_set_eq_ite, if_neg (fun hc => hrow hc.1)]
    · rw [setCell_oob isl loc c hinb]

theorem getCell_setCell_self (isl : Island) (loc : Loc) (c : Cell)
    (h : Inb isl loc) : getCell (setCell isl loc c) loc = c := by
  rw [getCell_setCell, if_pos ⟨rfl, h⟩]

theorem getCell_setCell_ne (isl : Island) (loc loc' : Loc) (c : Cell)
    (h : loc' ≠ loc) : getCell (setCell isl loc c) loc' = getCell isl loc' := by
  rw [getCell_setCell, if_neg (by rintro ⟨rfl, -⟩; exact h rfl)]

/-- Writing a cell that agrees with the old one on a projection `φ` preserves
`φ` of every cell of the island. -/
theorem getCell_setCell_proj {α : Type} (φ : Cell → α) (isl : Island)
    (loc : Loc) (c : Cell) (h : φ c = φ (getCell isl loc)) (loc' : Loc) :
    φ (getCell (setCell isl loc c) loc') = φ (getCell isl loc') := by
  rw [getCell_setCell]
  split
  · rename_i hc
    rw [h, hc.1]
  · rfl

/-! ### Unfolding equations for the migration loops -/

theorem herbMigLoop_cons_stay1 (pexp : ℚ → ℚ) (sp : SimP) (u : ℕ → ℚ)
    (loc : Loc) (h : Animal) (hs : List Animal) (isl : Island)
    (rem : List Animal) (k : ℕ)
    (h1 : ¬ u k < prob_migration pexp sp.herbP h) :
    herbMigLoop pexp sp u loc (h :: hs) isl rem k =
      herbMigLoop pexp sp u loc hs isl (rem ++ [h]) (k + 1) := by
  simp only [herbMigLoop, if_neg h1]

theorem herbMigLoop_cons_stay2 (pexp : ℚ → ℚ) (sp : SimP) (u : ℕ → ℚ)
    (loc : Loc) (h : Animal) (hs : List Animal) (isl : Island)
    (rem : List Animal) (k : ℕ)
    (h1 : u k < prob_migration pexp sp.herbP h)
    (h2 : (prob_move pexp sp.herbP
      ((neighbour_locations loc).map (getCell isl)) .herbivore).sum = 0) :
    herbMigLoop pexp sp u loc (h :: hs) isl rem k =
      herbMigLoop pexp sp u loc hs isl (rem ++ [h]) (k + 1) := by
  simp only [herbMigLoop, if_pos h1, if_pos h2]

theorem herbMigLoop_cons_move (pexp : ℚ → ℚ) (sp : SimP) (u : ℕ → ℚ)
    (loc : Loc) (h : Animal) (hs : List Animal) (isl : Island)
    (rem : List Animal) (k : ℕ)
    (h1 : u k < prob_migration pexp sp.herbP h)
    (h2 : ¬ (prob_move pexp sp.herbP
      ((neighbour_locations loc).map (getCell isl)) .herbivore).sum = 0) :
    herbMigLoop pexp sp u loc (h :: hs) isl rem k =
      herbMigLoop pexp sp u loc hs
        (modifyCell isl
          ((neighbour_locations loc).getD
            (animal_moves_to
              (prob_move pexp sp.herbP
                ((neighbour_locations loc).map (getCell isl)) .herbivore)
              (u (k + 1))) loc)
          (add_herb_immigrant h))
        rem (k + 2) := by
  simp only [herbMigLoop, if_pos h1, if_neg h2]

theorem carnMigLoop_cons_stay1 (pexp : ℚ → ℚ) (sp : SimP) (u : ℕ → ℚ)
    (loc : Loc) (a : Animal) (as_ : List Animal) (isl : Island)
    (rem : List Animal) (k : ℕ)
    (h1 : ¬ u k < prob_migration pexp sp.carnP a) :
    carnMigLoop pexp sp u loc (a :: as_) isl rem k =
      carnMigLoop pexp sp u loc as_ isl (rem ++ [a]) (k + 1) := by
  simp only [carnMigLoop, if_neg h1]

theorem carnMigLoop_cons_stay2 (pexp : ℚ → ℚ) (sp : SimP) (u : ℕ → ℚ)
    (loc : Loc) (a : Animal) (as_ : List Animal) (isl : Island)
    (rem : List Animal) (k : ℕ)
    (h1 : u k < prob_migration pexp sp.carnP a)
    (h2 : (prob_move pexp sp.carnP
      ((neighbour_locations loc).map (getCell isl)) .carnivore).sum = 0) :
    carnMigLoop pexp sp u loc (a :: as_) isl rem k =
      carnMigLoop pexp sp u loc as_ isl (rem ++ [a]) (k + 1) := by
  simp only [carnMigLoop, if_pos h1, if_pos h2]

theorem carnMigLoop_cons_move (pexp : ℚ → ℚ) (sp : SimP) (u : ℕ → ℚ)
    (loc : Loc) (a : Animal) (as_ : List Animal) (isl : Island)
    (rem : List Animal) (k : ℕ)
    (h1 : u k < prob_migration pexp sp.carnP a)
    (h2 : ¬ (prob_move pexp sp.carnP
      ((neighbour_locations loc).map (getCell isl)) .carnivore).sum = 0) :
    carnMigLoop pexp sp u loc (a :: as_) isl rem k =
      carnMigLoop pexp sp u loc as_
        (modifyCell isl
          ((neighbour_locations loc).getD
            (animal_moves_to
              (prob_move pexp sp.carnP
                ((neighbour_locations loc).map (getCell isl)) .carnivore)
              (u (k + 1))) loc)
          (add_carn_immigrant a))
        rem (k + 2) := by
  simp only [carnMigLoop, if_pos h1, if_neg h2]

theorem animal_moves_to_le_three (pm : List ℚ) (rnd : ℚ) :
    animal_moves_to pm rnd ≤ 3 := by
  simp only [animal_moves_to]
  split_ifs <;> omega

theorem neighbour_getD_mem (loc : Loc) (pos : ℕ) (h : pos ≤ 3) :
    (neighbour_locations loc).getD pos loc ∈ neighbour_locations loc := by
  interval_cases pos <;> simp [neighbour_locations]

theorem neighbour_ne_self (loc : Loc) :
    ∀ nb ∈ neighbour_locations loc, nb ≠ loc := by
  intro nb h
  simp only [neighbour_locations, List.mem_cons, List.mem_singleton,
    List.not_mem_nil, or_false] at h
  rcases h with h | h | h | h <;>
    (subst h; intro hc; rw [Prod.ext_iff] at hc; omega)

/-! ### Pointwise projections preserved by the migration passes -/

theorem herbMigLoop_proj {α : Type} (φ : Cell → α)
    (hφ : ∀ h c, φ (add_herb_immigrant h c) = φ c)
    (pexp : ℚ → ℚ) (sp : SimP) (u : ℕ → ℚ) (loc : Loc) :
    ∀ (hs : List Animal) (isl : Island) (rem : List Animal) (k : ℕ)
      (loc' : Loc),
      φ (getCell (herbMigLoop pexp sp u loc hs isl rem k).1 loc') =
        φ (getCell isl loc') := by
  intro hs
  induction hs with
  | nil => intro isl rem k loc'; rfl
  | cons h t ih =>
    intro isl rem k loc'
    by_cases h1 : u k < prob_migration pexp sp.herbP h
    · by_cases h2 : (prob_move pexp sp.herbP
          ((neighbour_locations loc).map (getCell isl)) .herbivore).sum = 0
      · rw [herbMigLoop_cons_stay2 pexp sp u loc h t isl rem k h1 h2]
        exact ih isl (rem ++ [h]) (k + 1) loc'
      · rw [herbMigLoop_cons_move pexp sp u loc h t isl rem k h1 h2]
        rw [ih _ rem (k + 2) loc']
        exact getCell_setCell_proj φ isl _ _ (hφ h _) loc'
    · rw [herbMigLoop_cons_stay1 pexp sp u loc h t isl rem k h1]
      exact ih isl (rem ++ [h]) (k + 1) loc'

theorem carnMigLoop_proj {α : Type} (φ : Cell → α)
    (hφ : ∀ a c, φ (add_carn_immigrant a c) = φ c)
    (pexp : ℚ → ℚ) (sp : SimP) (u : ℕ → ℚ) (loc : Loc) :
    ∀ (as_ : List Animal) (isl : Island) (rem : List Animal) (k : ℕ)
      (loc' : Loc),
      φ (getCell (carnMigLoop pexp sp u loc as_ isl rem k).1 loc') =
        φ (getCell isl loc') := by
  intro as_
  induction as_ with
  | nil => intro isl rem k loc'; rfl
  | cons a t ih =>
    intro isl rem k loc'
    by_cases h1 : u k < prob_migration pexp sp.carnP a
    · by_cases h2 : (prob_move pexp sp.carnP
          ((neighbour_locations loc).map (getCell isl)) .carnivore).sum = 0
      · rw [carnMigLoop_cons_stay2 pexp sp u loc a t isl rem k h1 h2]
        exact ih isl (rem ++ [a]) (k + 1) loc'
      · rw [carnMigLoop_cons_move pexp sp u loc a t isl rem k h1 h2]
        rw [ih _ rem (k + 2) loc']
        exact getCell_setCell_proj φ isl _ _ (hφ a _) loc'
    · rw [carnMigLoop_cons_stay1 pexp sp u loc a t isl rem k h1]
      exact ih isl (rem ++ [a]) (k + 1) loc'

/-- The herbivore staging pass never changes any cell's available fodder. -/
theorem herb_migration_food (pexp : ℚ → ℚ) (sp : SimP) (u : ℕ → ℚ)
    (isl : Island) (loc : Loc) (k : ℕ) (loc' : Loc) :
    (getCell (herb_migration pexp sp u isl loc k).1 loc').food =
      (getCell isl loc').food :=
  (getCell_setCell_proj (fun c => c.food)
    (herbMigLoop pexp sp u loc (getCell isl loc).herb isl [] k).1 loc
    { getCell (herbMigLoop pexp sp u loc (getCell isl loc).herb isl [] k).1 loc
        with herb := (herbMigLoop pexp sp u loc (getCell isl loc).herb isl [] k).2.1 }
    rfl loc').trans
  (herbMigLoop_proj (fun c => c.food) (fun _ _ => rfl) pexp sp u loc
    (getCell isl loc).herb isl [] k loc')

/-- The carnivore staging pass never changes any cell's herbivore lists. -/
theorem carn_migration_herb (pexp : ℚ → ℚ) (sp : SimP) (u : ℕ → ℚ)
    (isl : Island) (loc : Loc) (k : ℕ) (loc' : Loc) :
    (getCell (carn_migration pexp sp u isl loc k).1 loc').herb =
      (getCell isl loc').herb ∧
    (getCell (carn_migration pexp sp u isl loc k).1 loc').herbImm =
      (getCell isl loc').herbImm := by
  have h : ((getCell (carn_migration pexp sp u isl loc k).1 loc').herb,
      (getCell (carn_migration pexp sp u isl loc k).1 loc').herbImm) =
      ((getCell isl loc').herb, (getCell isl loc').herbImm) :=
    (getCell_setCell_proj (fun c => (c.herb, c.herbImm))
      (carnMigLoop pexp sp u loc (getCell isl loc).carn isl [] k).1 loc
      { getCell (carnMigLoop pexp sp u loc (getCell isl loc).carn isl [] k).1 loc
          with carn := (carnMigLoop pexp sp u loc (getCell isl loc).carn isl [] k).2.1 }
      rfl loc').trans
    (carnMigLoop_proj (fun c => (c.herb, c.herbImm)) (fun _ _ => rfl) pexp sp u
      loc (getCell isl loc).carn isl [] k loc')
  exact ⟨congrArg Prod.fst h, congrArg Prod.snd h⟩

theorem herbPass_food (pexp : ℚ → ℚ) (sp : SimP) (u : ℕ → ℚ) :
    ∀ (order : List Loc) (isl : Island) (k : ℕ) (loc : Loc),
      (getCell (herbPass pexp sp u order isl k).1 loc).food =
        (getCell isl loc).food := by
  intro order
  induction order with
  | nil => intro isl k loc; rfl
  | cons l ls ih =>
    intro isl k loc
    show (getCell (herbPass pexp sp u ls
      (herb_migration pexp sp u isl l k).1
      (herb_migration pexp sp u isl l k).2).1 loc).food = _
    rw [ih _ _ loc, herb_migration_food]

theorem carnPass_herb (pexp : ℚ → ℚ) (sp : SimP) (u : ℕ → ℚ) :
    ∀ (order : List Loc) (isl : Island) (k : ℕ) (loc : Loc),
      (getCell (carnPass pexp sp u order isl k).1 loc).herb =
        (getCell isl loc).herb ∧
      (getCell (carnPass pexp sp u order isl k).1 loc).herbImm =
        (getCell isl loc).herbImm := by
  intro order
  induction order with
  | nil => intro isl k loc; exact ⟨rfl, rfl⟩
  | cons l ls ih =>
    intro isl k loc
    have hrec := ih (carn_migration pexp sp u isl l k).1
      (carn_migration pexp sp u isl l k).2 loc
    have hone := carn_migration_herb pexp sp u isl l k loc
    exact ⟨hrec.1.trans hone.1, hrec.2.trans hone.2⟩

/-! ### C1: what the migration reads are computed from -/

/-- C1 amended: during a species' staging pass, the fodder component of the
abundance read is pre-pass stable — the herbivore pass never changes any
cell's plant food, and the carnivore pass never changes any cell's herbivore
lists (whose weights are the carnivore fodder).  (The population-count
component is not pre-pass stable; see the counterexample.) -/
theorem C1_pass_reads_stable_components (pexp : ℚ → ℚ) (sp : SimP)
    (u : ℕ → ℚ) (order : List Loc) (isl : Island) (k : ℕ) (loc : Loc) :
    (getCell (herbPass pexp sp u order isl k).1 loc).food =
      (getCell isl loc).food ∧
    (getCell (carnPass pexp sp u order isl k).1 loc).herb =
      (getCell isl loc).herb ∧
    (getCell (carnPass pexp sp u order isl k).1 loc).herbImm =
      (getCell isl loc).herbImm :=
  ⟨herbPass_food pexp sp u order isl k loc,
   (carnPass_herb pexp sp u order isl k loc).1,
   (carnPass_herb pexp sp u order isl k loc).2⟩

/-- Three habitable cells in a row; the outer two each hold one herbivore. -/
def islC1 : Island :=
  [[oceanCell, oceanCell, oceanCell, oceanCell, oceanCell],
   [oceanCell, ⟨.jungle, [⟨20, 2⟩], [], [], [], 800⟩, jCell 800,
    ⟨.jungle, [⟨20, 2⟩], [], [], [], 800⟩, oceanCell],
   [oceanCell, oceanCell, oceanCell, oceanCell, oceanCell]]

/-- The state of `islC1` after cell `(1,1)` has run its herbivore migration
with all-zero draws: its herbivore has been staged into `(1,2)`. -/
def islC1after : Island :=
  [[oceanCell, oceanCell, oceanCell, oceanCell, oceanCell],
   [oceanCell, ⟨.jungle, [], [], [], [], 800⟩,
    ⟨.jungle, [], [], [⟨20, 2⟩], [], 800⟩,
    ⟨.jungle, [⟨20, 2⟩], [], [], [], 800⟩, oceanCell],
   [oceanCell, oceanCell, oceanCell, oceanCell, oceanCell]]

theorem islC1_migration_step :
    herb_migration pexpConst1 simDefault uZero islC1 (1, 1) 0 =
      (islC1after, 2) := by
  have h1 : uZero 0 < prob_migration pexpConst1 simDefault.herbP ⟨20, 2⟩ := by
    norm_num [uZero, prob_migration, fitness, q_factor, pexpConst1, simDefault,
      herbDefault]
  have hprop : propensity pexpConst1 simDefault.herbP
      ((neighbour_locations (1, 1)).map (getCell islC1))
      (relative_abundance_of_fodder
        ((neighbour_locations (1, 1)).map (getCell islC1))
        simDefault.herbP .herbivore) = [0, 1, 0, 0] := rfl
  have hpm : prob_move pexpConst1 simDefault.herbP
      ((neighbour_locations (1, 1)).map (getCell islC1)) .herbivore =
      [0, 1, 0, 0] := by
    simp only [prob_move]
    rw [hprop]
    norm_num
  have h2 : ¬ (prob_move pexpConst1 simDefault.herbP
      ((neighbour_locations (1, 1)).map (getCell islC1)) .herbivore).sum = 0 := by
    rw [hpm]
    norm_num
  have hmove : animal_moves_to [0, 1, 0, 0] (uZero 1) = 1 := by
    norm_num [animal_moves_to, uZero]
  have hloop : herbMigLoop pexpConst1 simDefault uZero (1, 1) [⟨20, 2⟩] islC1 [] 0 =
      (modifyCell islC1 (1, 2) (add_herb_immigrant ⟨20, 2⟩), [], 2) := by
    rw [herbMigLoop_cons_move pexpConst1 simDefault uZero (1, 1) ⟨20, 2⟩ []
      islC1 [] 0 h1 h2, hpm, hmove,
      show (neighbour_locations (1, 1)).getD 1 (1, 1) = ((1 : ℤ), (2 : ℤ))
        from rfl]
    rfl
  unfold herb_migration
  rw [show (getCell islC1 (1, 1)).herb = [(⟨20, 2⟩ : Animal)] from rfl, hloop]
  rfl

/-- C1 counterexample: after cell `(1,1)` runs its herbivore migration (its
animal is staged into the middle cell `(1,2)`), the relative-abundance list
read over the neighbours of the later-visited cell `(1,3)` differs from its
value at the start of the phase: `total_num_animals` counts the staged
immigrant, so the entry for neighbour `(1,2)` drops from `80` to `40`.  The
read is therefore not computed from the pre-migration state. -/
theorem C1_read_changed_by_pass :
    relative_abundance_of_fodder
      ((neighbour_locations (1, 3)).map
        (getCell (herb_migration pexpConst1 simDefault uZero islC1 (1, 1) 0).1))
      simDefault.herbP .herbivore ≠
    relative_abundance_of_fodder
      ((neighbour_locations (1, 3)).map (getCell islC1))
      simDefault.herbP .herbivore := by
  rw [show (herb_migration pexpConst1 simDefault uZero islC1 (1, 1) 0).1 =
    islC1after from congrArg Prod.fst islC1_migration_step]
  rw [show (neighbour_locations (1, 3)).map (getCell islC1after) =
    [oceanCell, oceanCell, oceanCell, ⟨.jungle, [], [], [⟨20, 2⟩], [], 800⟩]
    from rfl]
  rw [show (neighbour_locations (1, 3)).map (getCell islC1) =
    [oceanCell, oceanCell, oceanCell, jCell 800] from rfl]
  norm_num [relative_abundance_of_fodder, get_available_fodder,
    total_num_animals, oceanCell, jCell, simDefault, herbDefault]

/-! ### Counting lemmas -/

/-- Island-wide sum of a per-cell count. -/
def totalBy (cnt : Cell → ℕ) (isl : Island) : ℕ :=
  (isl.map (fun row => (row.map cnt).sum)).sum

theorem totalHerb_eq_totalBy (isl : Island) :
    totalHerb isl = totalBy cellHerbCount isl := rfl

theorem totalCarn_eq_totalBy (isl : Island) :
    totalCarn isl = totalBy cellCarnCount isl := rfl

theorem totalBy_setCell (cnt : Cell → ℕ) (isl : Island) (loc : Loc) (c : Cell)
    (h : Inb isl loc) :
    totalBy cnt (setCell isl loc c) + cnt (getCell isl loc) =
      totalBy cnt isl + cnt c := by
  obtain ⟨h1, h2, h3, h4⟩ := (inb_iff isl loc).mp h
  have hcond : ¬(loc.1 < 0 ∨ loc.2 < 0) := by omega
  unfold setCell getCell totalBy
  simp only [if_neg hcond]
  have houter := sum_map_set (fun row => (row.map cnt).sum) isl loc.1.toNat
    ((isl.getD loc.1.toNat []).set loc.2.toNat c) [] h3
  have hinner := sum_map_set cnt (isl.getD loc.1.toNat []) loc.2.toNat c
    oceanCell h4
  dsimp only at houter
  omega

theorem totalBy_setCell_eq (cnt : Cell → ℕ) (isl : Island) (loc : Loc)
    (c : Cell) (h : cnt c = cnt (getCell isl loc)) :
    totalBy cnt (setCell isl loc c) = totalBy cnt isl := by
  by_cases hinb : Inb isl loc
  · have := totalBy_setCell cnt isl loc c hinb
    omega
  · rw [setCell_oob _ _ _ hinb]

theorem totalBy_modifyCell_eq (cnt : Cell → ℕ) (isl : Island) (loc : Loc)
    (f : Cell → Cell) (h : cnt (f (getCell isl loc)) = cnt (getCell isl loc)) :
    totalBy cnt (modifyCell isl loc f) = totalBy cnt isl :=
  totalBy_setCell_eq cnt isl loc _ h

theorem totalBy_modifyCell_succ (cnt : Cell → ℕ) (isl : Island) (loc : Loc)
    (f : Cell → Cell) (hinb : Inb isl loc)
    (h : cnt (f (getCell isl loc)) = cnt (getCell isl loc) + 1) :
    totalBy cnt (modifyCell isl loc f) = totalBy cnt isl + 1 := by
  unfold modifyCell
  have := totalBy_setCell cnt isl loc (f (getCell isl loc)) hinb
  omega

theorem totalBy_mapCells (cnt : Cell → ℕ) (f : Cell → Cell)
    (h : ∀ c, cnt (f c) = cnt c) :
    ∀ isl : Island, totalBy cnt (mapCells f isl) = totalBy cnt isl := by
  have hrow : ∀ row : List Cell,
      ((row.map f).map cnt).sum = (row.map cnt).sum := by
    intro row
    induction row with
    | nil => rfl
    | cons c cs ihc => simp only [List.map_cons, List.sum_cons, ihc, h c]
  intro isl
  induction isl with
  | nil => rfl
  | cons row rows ih =>
    simp only [mapCells, totalBy, List.map_cons, List.sum_cons] at ih ⊢
    rw [hrow row]
    omega

theorem totalBy_rowFold (cnt : Cell → ℕ) (f : Cell → ℕ → Cell × ℕ)
    (h : ∀ c k, cnt (f c k).1 = cnt c) :
    ∀ (row : List Cell) (k : ℕ),
      ((rowFold f row k).1.map cnt).sum = (row.map cnt).sum := by
  intro row
  induction row with
  | nil => intro k; rfl
  | cons c cs ih =>
    intro k
    simp only [rowFold, List.map_cons, List.sum_cons, ih, h c k]

theorem totalBy_cellsFold (cnt : Cell → ℕ) (f : Cell → ℕ → Cell × ℕ)
    (h : ∀ c k, cnt (f c k).1 = cnt c) :
    ∀ (isl : Island) (k : ℕ),
      totalBy cnt (cellsFold f isl k).1 = totalBy cnt isl := by
  intro isl
  induction isl with
  | nil => intro k; rfl
  | cons row rows ih =>
    intro k
    simp only [cellsFold, totalBy, List.map_cons, List.sum_cons] at ih ⊢
    rw [totalBy_rowFold cnt f h row k, ih]

/-! ### Shape preservation by the per-cell phases and folds -/

theorem shape_mapCells (f : Cell → Cell) (isl : Island) :
    shape (mapCells f isl) = shape isl := by
  unfold shape mapCells
  rw [List.map_map]
  exact List.map_congr_left (fun row _ => List.length_map row f)

theorem length_rowFold (f : Cell → ℕ → Cell × ℕ) :
    ∀ (row : List Cell) (k : ℕ), (rowFold f row k).1.length = row.length := by
  intro row
  induction row with
  | nil => intro k; rfl
  | cons c cs ih =>
    intro k
    simp only [rowFold, List.length_cons, ih]

theorem shape_cellsFold (f : Cell → ℕ → Cell × ℕ) :
    ∀ (isl : Island) (k : ℕ), shape (cellsFold f isl k).1 = shape isl := by
  intro isl
  induction isl with
  | nil => intro k; rfl
  | cons row rows ih =>
    intro k
    simp only [cellsFold, shape, List.map_cons, List.cons.injEq]
    exact ⟨length_rowFold f row k, ih _⟩

/-! ### Migration conserves the animal counts -/

theorem cellHerbCount_add_herb_immigrant (h : Animal) (c : Cell) :
    cellHerbCount (add_herb_immigrant h c) = cellHerbCount c + 1 := by
  simp [cellHerbCount, add_herb_immigrant]
  omega

theorem cellCarnCount_add_carn_immigrant (a : Animal) (c : Cell) :
    cellCarnCount (add_carn_immigrant a c) = cellCarnCount c + 1 := by
  simp [cellCarnCount, add_carn_immigrant]
  omega

/-- The destination cell of a staging step is one of the four neighbours. -/
theorem herb_dest_mem (loc : Loc) (pm : List ℚ) (rnd : ℚ) :
    (neighbour_locations loc).getD (animal_moves_to pm rnd) loc ∈
      neighbour_locations loc :=
  neighbour_getD_mem loc _ (animal_moves_to_le_three pm rnd)

/-- The herbivore staging loop: the island total plus the remaining list
grows by exactly one per processed animal, the shape is unchanged, and the
source cell itself is untouched. -/
theorem herbMigLoop_conserve (pexp : ℚ → ℚ) (sp : SimP) (u : ℕ → ℚ)
    (loc : Loc) :
    ∀ (hs : List Animal) (isl : Island) (rem : List Animal) (k : ℕ),
      (∀ nb ∈ neighbour_locations loc, Inb isl nb) →
      totalBy cellHerbCount (herbMigLoop pexp sp u loc hs isl rem k).1 +
          (herbMigLoop pexp sp u loc hs isl rem k).2.1.length =
        totalBy cellHerbCount isl + rem.length + hs.length ∧
      shape (herbMigLoop pexp sp u loc hs isl rem k).1 = shape isl ∧
      getCell (herbMigLoop pexp sp u loc hs isl rem k).1 loc =
        getCell isl loc := by
  intro hs
  induction hs with
  | nil =>
    intro isl rem k _
    exact ⟨by simp [herbMigLoop], rfl, rfl⟩
  | cons h t ih =>
    intro isl rem k hn
    by_cases h1 : u k < prob_migration pexp sp.herbP h
    · by_cases h2 : (prob_move pexp sp.herbP
          ((neighbour_locations loc).map (getCell isl)) .herbivore).sum = 0
      · rw [herbMigLoop_cons_stay2 pexp sp u loc h t isl rem k h1 h2]
        obtain ⟨ha, hb, hc⟩ := ih isl (rem ++ [h]) (k + 1) hn
        refine ⟨?_, hb, hc⟩
        rw [ha, List.length_append]
        simp
        omega
      · rw [herbMigLoop_cons_move pexp sp u loc h t isl rem k h1 h2]
        set nb := (neighbour_locations loc).getD
          (animal_moves_to (prob_move pexp sp.herbP
            ((neighbour_locations loc).map (getCell isl)) .herbivore)
            (u (k + 1))) loc with hnb
        have hmem : nb ∈ neighbour_locations loc := herb_dest_mem loc _ _
        have hinb : Inb isl nb := hn nb hmem
        have hne : nb ≠ loc := neighbour_ne_self loc nb hmem
        set isl' := modifyCell isl nb (add_herb_immigrant h) with hisl'
        have hsh : shape isl' = shape isl := shape_modifyCell isl nb _
        have htot : totalBy cellHerbCount isl' = totalBy cellHerbCount isl + 1 :=
          totalBy_modifyCell_succ cellHerbCount isl nb _ hinb
            (cellHerbCount_add_herb_immigrant h _)
        have hn' : ∀ nb' ∈ neighbour_locations loc, Inb isl' nb' := by
          intro nb' hm
          unfold Inb
          rw [hsh]
          exact hn nb' hm
        obtain ⟨ha, hb, hc⟩ := ih isl' rem (k + 2) hn'
        refine ⟨?_, hb.trans hsh, ?_⟩
        · rw [ha, htot]
          simp
          omega
        · rw [hc, hisl']
          exact getCell_setCell_ne isl nb loc _ (Ne.symm hne)
    · rw [herbMigLoop_cons_stay1 pexp sp u loc h t isl rem k h1]
      obtain ⟨ha, hb, hc⟩ := ih isl (rem ++ [h]) (k + 1) hn
      refine ⟨?_, hb, hc⟩
      rw [ha, List.length_append]
      simp
      omega

/-- The herbivore staging loop never changes the carnivore total. -/
theorem herbMigLoop_carn_total (pexp : ℚ → ℚ) (sp : SimP) (u : ℕ → ℚ)
    (loc : Loc) :
    ∀ (hs : List Animal) (isl : Island) (rem : List Animal) (k : ℕ),
      totalBy cellCarnCount (herbMigLoop pexp sp u loc hs isl rem k).1 =
        totalBy cellCarnCount isl := by
  intro hs
  induction hs with
  | nil => intro isl rem k; rfl
  | cons h t ih =>
    intro isl rem k
    by_cases h1 : u k < prob_migration pexp sp.herbP h
    · by_cases h2 : (prob_move pexp sp.herbP
          ((neighbour_locations loc).map (getCell isl)) .herbivore).sum = 0
      · rw [herbMigLoop_cons_stay2 pexp sp u loc h t isl rem k h1 h2]
        exact ih isl (rem ++ [h]) (k + 1)
      · rw [herbMigLoop_cons_move pexp sp u loc h t isl rem k h1 h2]
        rw [ih _ rem (k + 2)]
        exact totalBy_modifyCell_eq cellCarnCount isl _ _ rfl
    · rw [herbMigLoop_cons_stay1 pexp sp u loc h t isl rem k h1]
      exact ih isl (rem ++ [h]) (k + 1)

/-- The carnivore staging loop mirror images. -/
theorem carnMigLoop_conserve (pexp : ℚ → ℚ) (sp : SimP) (u : ℕ → ℚ)
    (loc : Loc) :
    ∀ (as_ : List Animal) (isl : Island) (rem : List Animal) (k : ℕ),
      (∀ nb ∈ neighbour_locations loc, Inb isl nb) →
      totalBy cellCarnCount (carnMigLoop pexp sp u loc as_ isl rem k).1 +
          (carnMigLoop pexp sp u loc as_ isl rem k).2.1.length =
        totalBy cellCarnCount isl + rem.length + as_.length ∧
      shape (carnMigLoop pexp sp u loc as_ isl rem k).1 = shape isl ∧
      getCell (carnMigLoop pexp sp u loc as_ isl rem k).1 loc =
        getCell isl loc := by
  intro as_
  induction as_ with
  | nil =>
    intro isl rem k _
    exact ⟨by simp [carnMigLoop], rfl, rfl⟩
  | cons a t ih =>
    intro isl rem k hn
    by_cases h1 : u k < prob_migration pexp sp.carnP a
    · by_cases h2 : (prob_move pexp sp.carnP
          ((neighbour_locations loc).map (getCell isl)) .carnivore).sum = 0
      · rw [carnMigLoop_cons_stay2 pexp sp u loc a t isl rem k h1 h2]
        obtain ⟨ha, hb, hc⟩ := ih isl (rem ++ [a]) (k + 1) hn
        refine ⟨?_, hb, hc⟩
        rw [ha, List.length_append]
        simp
        omega
      · rw [carnMigLoop_cons_move pexp sp u loc a t isl rem k h1 h2]
        set nb := (neighbour_locations loc).getD
          (animal_moves_to (prob_move pexp sp.carnP
            ((neighbour_locations loc).map (getCell isl)) .carnivore)
            (u (k + 1))) loc with hnb
        have hmem : nb ∈ neighbour_locations loc :=
          neighbour_getD_mem loc _ (animal_moves_to_le_three _ _)
        have hinb : Inb isl nb := hn nb hmem
        have hne : nb ≠ loc := neighbour_ne_self loc nb hmem
        set isl' := modifyCell isl nb (add_carn_immigrant a) with hisl'
        have hsh : shape isl' = shape isl := shape_modifyCell isl nb _
        have htot : totalBy cellCarnCount isl' = totalBy cellCarnCount isl + 1 :=
          totalBy_modifyCell_succ cellCarnCount isl nb _ hinb
            (cellCarnCount_add_carn_immigrant a _)
        have hn' : ∀ nb' ∈ neighbour_locations loc, Inb isl' nb' := by
          intro nb' hm
          unfold Inb
          rw [hsh]
          exact hn nb' hm
        obtain ⟨ha, hb, hc⟩ := ih isl' rem (k + 2) hn'
        refine ⟨?_, hb.trans hsh, ?_⟩
        · rw [ha, htot]
          simp
          omega
        · rw [hc, hisl']
          exact getCell_setCell_ne isl nb loc _ (Ne.symm hne)
    · rw [carnMigLoop_cons_stay1 pexp sp u loc a t isl rem k h1]
      obtain ⟨ha, hb, hc⟩ := ih isl (rem ++ [a]) (k + 1) hn
      refine ⟨?_, hb, hc⟩
      rw [ha, List.length_append]
      simp
      omega

/-- The carnivore staging loop never changes the herbivore total. -/
theorem carnMigLoop_herb_total (pexp : ℚ → ℚ) (sp : SimP) (u : ℕ → ℚ)
    (loc : Loc) :
    ∀ (as_ : List Animal) (isl : Island) (rem : List Animal) (k : ℕ),
      totalBy cellHerbCount (carnMigLoop pexp sp u loc as_ isl rem k).1 =
        totalBy cellHerbCount isl := by
  intro as_
  induction as_ with
  | nil => intro isl rem k; rfl
  | cons a t ih =>
    intro isl rem k
    by_cases h1 : u k < prob_migration pexp sp.carnP a
    · by_cases h2 : (prob_move pexp sp.carnP
          ((neighbour_locations loc).map (getCell isl)) .carnivore).sum = 0
      · rw [carnMigLoop_cons_stay2 pexp sp u loc a t isl rem k h1 h2]
        exact ih isl (rem ++ [a]) (k + 1)
      · rw [carnMigLoop_cons_move pexp sp u loc a t isl rem k h1 h2]
        rw [ih _ rem (k + 2)]
        exact totalBy_modifyCell_eq cellHerbCount isl _ _ rfl
    · rw [carnMigLoop_cons_stay1 pexp sp u loc a t isl rem k h1]
      exact ih isl (rem ++ [a]) (k + 1)

/-- One cell's herbivore migration conserves both totals and the shape
(the staged-out animals reappear in neighbour staging lists, both counted by
`total_num_animals`). -/
theorem herb_migration_conserve (pexp : ℚ → ℚ) (sp : SimP) (u : ℕ → ℚ)
    (isl : Island) (loc : Loc) (k : ℕ)
    (hloc : Inb isl loc)
    (hn : ∀ nb ∈ neighbour_locations loc, Inb isl nb) :
    totalBy cellHerbCount (herb_migration pexp sp u isl loc k).1 =
      totalBy cellHerbCount isl ∧
    totalBy cellCarnCount (herb_migration pexp sp u isl loc k).1 =
      totalBy cellCarnCount isl ∧
    shape (herb_migration pexp sp u isl loc k).1 = shape isl := by
  obtain ⟨ha, hb, hc⟩ := herbMigLoop_conserve pexp sp u loc
    (getCell isl loc).herb isl [] k hn
  have hcarn := herbMigLoop_carn_total pexp sp u loc (getCell isl loc).herb
    isl [] k
  set r := herbMigLoop pexp sp u loc (getCell isl loc).herb isl [] k with hr
  have hinb' : Inb r.1 loc := by
    unfold Inb
    rw [hb]
    exact hloc
  have hset := totalBy_setCell cellHerbCount r.1 loc
    { getCell r.1 loc with herb := r.2.1 } hinb'
  have hsetc := totalBy_setCell_eq cellCarnCount r.1 loc
    { getCell r.1 loc with herb := r.2.1 } rfl
  refine ⟨?_, ?_, ?_⟩
  · show totalBy cellHerbCount
      (setCell r.1 loc { getCell r.1 loc with herb := r.2.1 }) = _
    have e1 : cellHerbCount { getCell r.1 loc with herb := r.2.1 } =
        r.2.1.length + (getCell isl loc).herbImm.length := by
      simp [cellHerbCount, hc]
    have e2 : cellHerbCount (getCell r.1 loc) =
        (getCell isl loc).herb.length + (getCell isl loc).herbImm.length := by
      simp [cellHerbCount, hc]
    rw [e1, e2] at hset
    simp only [List.length_nil, Nat.add_zero, Nat.zero_add] at ha
    omega
  · show totalBy cellCarnCount
      (setCell r.1 loc { getCell r.1 loc with herb := r.2.1 }) = _
    rw [hsetc, hcarn]
  · show shape (setCell r.1 loc { getCell r.1 loc with herb := r.2.1 }) = _
    rw [shape_setCell, hb]

/-- One cell's carnivore migration conserves both totals and the shape. -/
theorem carn_migration_conserve (pexp : ℚ → ℚ) (sp : SimP) (u : ℕ → ℚ)
    (isl : Island) (loc : Loc) (k : ℕ)
    (hloc : Inb isl loc)
    (hn : ∀ nb ∈ neighbour_locations loc, Inb isl nb) :
    totalBy cellHerbCount (carn_migration pexp sp u isl loc k).1 =
      totalBy cellHerbCount isl ∧
    totalBy cellCarnCount (carn_migration pexp sp u isl loc k).1 =
      totalBy cellCarnCount isl ∧
    shape (carn_migration pexp sp u isl loc k).1 = shape isl := by
  obtain ⟨ha, hb, hc⟩ := carnMigLoop_conserve pexp sp u loc
    (getCell isl loc).carn isl [] k hn
  have hherb := carnMigLoop_herb_total pexp sp u loc (getCell isl loc).carn
    isl [] k
  set r := carnMigLoop pexp sp u loc (getCell isl loc).carn isl [] k with hr
  have hinb' : Inb r.1 loc := by
    unfold Inb
    rw [hb]
    exact hloc
  have hset := totalBy_setCell cellCarnCount r.1 loc
    { getCell r.1 loc with carn := r.2.1 } hinb'
  have hsetc := totalBy_setCell_eq cellHerbCount r.1 loc
    { getCell r.1 loc with carn := r.2.1 } rfl
  refine ⟨?_, ?_, ?_⟩
  · show totalBy cellHerbCount
      (setCell r.1 loc { getCell r.1 loc with carn := r.2.1 }) = _
    rw [hsetc, hherb]
  · show totalBy cellCarnCount
      (setCell r.1 loc { getCell r.1 loc with carn := r.2.1 }) = _
    have e1 : cellCarnCount { getCell r.1 loc with carn := r.2.1 } =
        r.2.1.length + (getCell isl loc).carnImm.length := by
      simp [cellCarnCount, hc]
    have e2 : cellCarnCount (getCell r.1 loc) =
        (getCell isl loc).carn.length + (getCell isl loc).carnImm.length := by
      simp [cellCarnCount, hc]
    rw [e1, e2] at hset
    simp only [List.length_nil, Nat.add_zero, Nat.zero_add] at ha
    omega
  · show shape (setCell r.1 loc { getCell r.1 loc with carn := r.2.1 }) = _
    rw [shape_setCell, hb]

theorem cellHerbCount_commit (c : Cell) :
    cellHerbCount (add_immigrants_to_pop c) = cellHerbCount c := by
  simp [cellHerbCount, add_immigrants_to_pop]

theorem cellCarnCount_commit (c : Cell) :
    cellCarnCount (add_immigrants_to_pop c) = cellCarnCount c := by
  simp [cellCarnCount, add_immigrants_to_pop]

theorem commitPass_conserve :
    ∀ (order : List Loc) (isl : Island),
      totalBy cellHerbCount (commitPass order isl) = totalBy cellHerbCount isl ∧
      totalBy cellCarnCount (commitPass order isl) = totalBy cellCarnCount isl ∧
      shape (commitPass order isl) = shape isl := by
  intro order
  induction order with
  | nil => intro isl; exact ⟨rfl, rfl, rfl⟩
  | cons l ls ih =>
    intro isl
    obtain ⟨ha, hb, hc⟩ := ih (modifyCell isl l add_immigrants_to_pop)
    refine ⟨?_, ?_, ?_⟩
    · rw [show commitPass (l :: ls) isl =
        commitPass ls (modifyCell isl l add_immigrants_to_pop) from rfl, ha,
        totalBy_modifyCell_eq cellHerbCount isl l _ (cellHerbCount_commit _)]
    · rw [show commitPass (l :: ls) isl =
        commitPass ls (modifyCell isl l add_immigrants_to_pop) from rfl, hb,
        totalBy_modifyCell_eq cellCarnCount isl l _ (cellCarnCount_commit _)]
    · rw [show commitPass (l :: ls) isl =
        commitPass ls (modifyCell isl l add_immigrants_to_pop) from rfl, hc,
        shape_modifyCell]

/-- Interior-visitable location: it and its four neighbours are in bounds. -/
def GoodLoc (sh : List ℕ) (loc : Loc) : Prop :=
  InbS sh loc ∧ ∀ nb ∈ neighbour_locations loc, InbS sh nb

instance (sh : List ℕ) (loc : Loc) : Decidable (GoodLoc sh loc) := by
  unfold GoodLoc
  infer_instance

theorem herbPass_conserve (pexp : ℚ → ℚ) (sp : SimP) (u : ℕ → ℚ) :
    ∀ (order : List Loc) (isl : Island) (k : ℕ),
      (∀ l ∈ order, GoodLoc (shape isl) l) →
      totalBy cellHerbCount (herbPass pexp sp u order isl k).1 =
        totalBy cellHerbCount isl ∧
      totalBy cellCarnCount (herbPass pexp sp u order isl k).1 =
        totalBy cellCarnCount isl ∧
      shape (herbPass pexp sp u order isl k).1 = shape isl := by
  intro order
  induction order with
  | nil => intro isl k _; exact ⟨rfl, rfl, rfl⟩
  | cons l ls ih =>
    intro isl k horder
    obtain ⟨hl1, hl2⟩ := horder l (List.mem_cons_self l ls)
    obtain ⟨ha, hb, hc⟩ := herb_migration_conserve pexp sp u isl l k hl1 hl2
    obtain ⟨hd, he, hf⟩ := ih (herb_migration pexp sp u isl l k).1
      (herb_migration pexp sp u isl l k).2
      (by
        intro l' hm
        rw [hc]
        exact horder l' (List.mem_cons_of_mem l hm))
    exact ⟨hd.trans ha, he.trans hb, hf.trans hc⟩

theorem carnPass_conserve (pexp : ℚ → ℚ) (sp : SimP) (u : ℕ → ℚ) :
    ∀ (order : List Loc) (isl : Island) (k : ℕ),
      (∀ l ∈ order, GoodLoc (shape isl) l) →
      totalBy cellHerbCount (carnPass pexp sp u order isl k).1 =
        totalBy cellHerbCount isl ∧
      totalBy cellCarnCount (carnPass pexp sp u order isl k).1 =
        totalBy cellCarnCount isl ∧
      shape (carnPass pexp sp u order isl k).1 = shape isl := by
  intro order
  induction order with
  | nil => intro isl k _; exact ⟨rfl, rfl, rfl⟩
  | cons l ls ih =>
    intro isl k horder
    obtain ⟨hl1, hl2⟩ := horder l (List.mem_cons_self l ls)
    obtain ⟨ha, hb, hc⟩ := carn_migration_conserve pexp sp u isl l k hl1 hl2
    obtain ⟨hd, he, hf⟩ := ih (carn_migration pexp sp u isl l k).1
      (carn_migration pexp sp u isl l k).2
      (by
        intro l' hm
        rw [hc]
        exact horder l' (List.mem_cons_of_mem l hm))
    exact ⟨hd.trans ha, he.trans hb, hf.trans hc⟩

/-- The full two-phase migration protocol conserves both species totals and
the shape, for any visitation order of in-bounds interior cells. -/
theorem animals_migrate_conserve (pexp : ℚ → ℚ) (sp : SimP) (u : ℕ → ℚ)
    (order : List Loc) (isl : Island) (k : ℕ)
    (horder : ∀ l ∈ order, GoodLoc (shape isl) l) :
    totalBy cellHerbCount (animals_migrate pexp sp u order isl k).1 =
      totalBy cellHerbCount isl ∧
    totalBy cellCarnCount (animals_migrate pexp sp u order isl k).1 =
      totalBy cellCarnCount isl ∧
    shape (animals_migrate pexp sp u order isl k).1 = shape isl := by
  obtain ⟨h1a, h1b, h1c⟩ := herbPass_conserve pexp sp u order isl k horder
  set i1 := (herbPass pexp sp u order isl k).1
  obtain ⟨h2a, h2b, h2c⟩ := commitPass_conserve order i1
  set i2 := commitPass order i1
  obtain ⟨h3a, h3b, h3c⟩ := carnPass_conserve pexp sp u order i2
    (herbPass pexp sp u order isl k).2
    (by
      intro l hm
      rw [h2c, h1c]
      exact horder l hm)
  set i3 := (carnPass pexp sp u order i2 (herbPass pexp sp u order isl k).2).1
  obtain ⟨h4a, h4b, h4c⟩ := commitPass_conserve order i3
  refine ⟨?_, ?_, ?_⟩
  · show totalBy cellHerbCount (commitPass order i3) = _
    rw [h4a, h3a, h2a, h1a]
  · show totalBy cellCarnCount (commitPass order i3) = _
    rw [h4b, h3b, h2b, h1b]
  · show shape (commitPass order i3) = _
    rw [h4c, h3c, h2c, h1c]

/-! ### The other annual phases preserve the counts -/

theorem cellCounts_food_growth (sp : SimP) (c : Cell) :
    cellHerbCount (food_growth sp c) = cellHerbCount c ∧
    cellCarnCount (food_growth sp c) = cellCarnCount c := by
  unfold food_growth
  cases c.kind <;> exact ⟨rfl, rfl⟩

theorem sortByFitness_length (pexp : ℚ → ℚ) (p : AnimalP) (d : Bool)
    (l : List Animal) : (sortByFitness pexp p d l).length = l.length :=
  List.length_mergeSort l

theorem herbFeedLoop_length (p : AnimalP) :
    ∀ (l : List Animal) (food : ℚ) (n : ℕ),
      (herbFeedLoop p l food n).1.length = l.length := by
  intro l
  induction l with
  | nil => intro food n; rfl
  | cons h hs ih =>
    intro food n
    cases n with
    | zero => rfl
    | succ m =>
      simp only [herbFeedLoop]
      split
      · simp [ih]
      · rfl

theorem cellCounts_herb_eating (pexp : ℚ → ℚ) (sp : SimP) (c : Cell) :
    cellHerbCount (herb_eating pexp sp c) = cellHerbCount c ∧
    cellCarnCount (herb_eating pexp sp c) = cellCarnCount c := by
  unfold herb_eating fitness_sorting
  constructor
  · simp [cellHerbCount, herbFeedLoop_length, sortByFitness_length]
  · simp [cellCarnCount, sortByFitness_length]

/-- With the kill probability overridden to `0`, positive exponentials,
`DeltaPhiMax` at least `1`, and non-negative draws, a carnivore's `eating`
leaves the carnivore and the herbivore list untouched: every fitness gap it
actually reaches lies in `(0, 1) ⊆ (0, DeltaPhiMax)`, so the stochastic
branch is taken and the draw against probability `0` always fails. -/
theorem eatAux_no_kill (pexp : ℚ → ℚ) (pC pH : AnimalP) (dpm : ℚ)
    (pk : Animal → ℚ → ℚ) (u : ℕ → ℚ)
    (hpexp : ∀ x, 0 < pexp x) (hdpm : 1 ≤ dpm)
    (hpk : ∀ a x, pk a x = 0) (hu : ∀ i, 0 ≤ u i) :
    ∀ (herbs : List Animal) (c : Animal) (eaten : ℚ) (k : ℕ),
      (Carnivore.eatAux pexp pC pH dpm pk u c herbs eaten k).1 = c ∧
      (Carnivore.eatAux pexp pC pH dpm pk u c herbs eaten k).2.1 = herbs := by
  intro herbs
  induction herbs with
  | nil => intro c eaten k; exact ⟨rfl, rfl⟩
  | cons h hs ih =>
    intro c eaten k
    by_cases hbr : fitness pexp pC c ≤ fitness pexp pH h ∨ eaten = pC.F
    · simp [Carnivore.eatAux, if_pos hbr]
    · have hgt : fitness pexp pH h < fitness pexp pC c := by
        rcases not_or.mp hbr with ⟨hx, -⟩
        exact lt_of_not_le hx
      have hstoch : 0 < fitness pexp pC c - fitness pexp pH h ∧
          fitness pexp pC c - fitness pexp pH h < dpm := by
        constructor
        · linarith
        · have hc1 := (fitness_pos_lt_one pexp hpexp pC c).2
          have hh0 := (fitness_pos_lt_one pexp hpexp pH h).1
          linarith
      have hnokill : Carnivore.carn_kills_herb pexp pC pH dpm pk c h (u k) =
          false := by
        unfold Carnivore.carn_kills_herb
        rw [if_pos hstoch, hpk]
        simp only [decide_eq_false_iff_not, not_lt]
        exact hu k
      simp only [Carnivore.eatAux, if_neg hbr, hnokill, Bool.false_eq_true,
        if_false, if_pos hstoch]
      obtain ⟨ha, hb⟩ := ih c eaten (k + 1)
      refine ⟨ha, ?_⟩
      rw [hb]

theorem carnFeedLoop_no_kill (pexp : ℚ → ℚ) (sp : SimP)
    (pk : Animal → ℚ → ℚ) (u : ℕ → ℚ)
    (hpexp : ∀ x, 0 < pexp x) (hdpm : 1 ≤ sp.dpm)
    (hpk : ∀ a x, pk a x = 0) (hu : ∀ i, 0 ≤ u i) :
    ∀ (cs herbs : List Animal) (k : ℕ),
      (carnFeedLoop pexp sp pk u cs herbs k).1 = cs ∧
      (carnFeedLoop pexp sp pk u cs herbs k).2.1 = herbs := by
  intro cs
  induction cs with
  | nil => intro herbs k; exact ⟨rfl, rfl⟩
  | cons c cs' ih =>
    intro herbs k
    cases herbs with
    | nil => exact ⟨rfl, rfl⟩
    | cons h0 hs =>
      by_cases hlt : fitness pexp sp.carnP c < fitness pexp sp.herbP h0
      · simp [carnFeedLoop, if_pos hlt]
      · obtain ⟨he1, he2⟩ := eatAux_no_kill pexp sp.carnP sp.herbP sp.dpm pk u
          hpexp hdpm hpk hu (h0 :: hs) c 0 k
        simp only [carnFeedLoop, if_neg hlt, Carnivore.eating]
        obtain ⟨hl1, hl2⟩ := ih
          (Carnivore.eatAux pexp sp.carnP sp.herbP sp.dpm pk u c (h0 :: hs) 0 k).2.1
          (Carnivore.eatAux pexp sp.carnP sp.herbP sp.dpm pk u c (h0 :: hs) 0 k).2.2
        rw [he1, hl1, hl2, he2]
        exact ⟨rfl, rfl⟩

theorem cellCounts_carn_eating (pexp : ℚ → ℚ) (sp : SimP)
    (pk : Animal → ℚ → ℚ) (u : ℕ → ℚ)
    (hpexp : ∀ x, 0 < pexp x) (hdpm : 1 ≤ sp.dpm)
    (hpk : ∀ a x, pk a x = 0) (hu : ∀ i, 0 ≤ u i) (c : Cell) (k : ℕ) :
    cellHerbCount (carn_eating pexp sp pk u c k).1 = cellHerbCount c ∧
    cellCarnCount (carn_eating pexp sp pk u c k).1 = cellCarnCount c := by
  obtain ⟨h1, h2⟩ := carnFeedLoop_no_kill pexp sp pk u hpexp hdpm hpk hu
    (sortByFitness pexp sp.carnP true c.carn)
    (sortByFitness pexp sp.herbP false c.herb) k
  unfold carn_eating fitness_sorting
  constructor
  · simp only [cellHerbCount]
    rw [show (carnFeedLoop pexp sp pk u
      (sortByFitness pexp sp.carnP true c.carn)
      (sortByFitness pexp sp.herbP false c.herb) k).2.1 = _ from h2]
    simp [sortByFitness_length]
  · simp only [cellCarnCount]
    rw [show (carnFeedLoop pexp sp pk u
      (sortByFitness pexp sp.carnP true c.carn)
      (sortByFitness pexp sp.herbP false c.herb) k).1 = _ from h1]
    simp [sortByFitness_length]

theorem probability_birth_gamma_zero (pexp : ℚ → ℚ) (p : AnimalP)
    (hg : p.gamma = 0) (a : Animal) (n : ℕ) :
    probability_birth pexp p a n = 0 := by
  unfold probability_birth
  split
  · rfl
  · simp [hg]

theorem birth_gamma_zero (pexp : ℚ → ℚ) (p : AnimalP) (hg : p.gamma = 0)
    (a : Animal) (n : ℕ) (u g : ℕ → ℚ) (k : ℕ) (hu : 0 ≤ u k) :
    birth pexp p a n u g k = (a, none, k + 1) := by
  unfold birth
  rw [probability_birth_gamma_zero pexp p hg a n,
    if_neg (not_lt.mpr hu)]

theorem newbornsLoop_gamma_zero (pexp : ℚ → ℚ) (p : AnimalP)
    (hg : p.gamma = 0) (u g : ℕ → ℚ) (hu : ∀ i, 0 ≤ u i) (n : ℕ) :
    ∀ (l : List Animal) (k : ℕ),
      (newbornsLoop pexp p u g n l k).1 = l ∧
      (newbornsLoop pexp p u g n l k).2.1 = [] := by
  intro l
  induction l with
  | nil => intro k; exact ⟨rfl, rfl⟩
  | cons a rest ih =>
    intro k
    simp only [newbornsLoop, birth_gamma_zero pexp p hg a n u g k (hu k)]
    obtain ⟨h1, h2⟩ := ih (k + 1)
    rw [h1, h2]
    exact ⟨rfl, rfl⟩

theorem animal_birth_gamma_zero (pexp : ℚ → ℚ) (sp : SimP) (u g : ℕ → ℚ)
    (hgh : sp.herbP.gamma = 0) (hgc : sp.carnP.gamma = 0)
    (hu : ∀ i, 0 ≤ u i) (c : Cell) (k : ℕ) :
    (animal_birth pexp sp u g c k).1 = c := by
  unfold animal_birth
  obtain ⟨h1, h2⟩ := newbornsLoop_gamma_zero pexp sp.herbP hgh u g hu
    c.herb.length c.herb k
  obtain ⟨h3, h4⟩ := newbornsLoop_gamma_zero pexp sp.carnP hgc u g hu
    c.carn.length c.carn
    (newbornsLoop pexp sp.herbP u g c.herb.length c.herb k).2.2
  dsimp only
  rw [h1, h2, h3, h4]
  simp

theorem death_omega_zero (pexp : ℚ → ℚ) (p : AnimalP) (hw : p.omega = 0)
    (a : Animal) (rnd : ℚ) (hr : 0 ≤ rnd) :
    death pexp p a rnd = false := by
  simp only [death, hw, zero_mul, decide_eq_false_iff_not, not_lt]
  exact hr

theorem deathFilter_omega_zero (pexp : ℚ → ℚ) (p : AnimalP)
    (hw : p.omega = 0) (u : ℕ → ℚ) (hu : ∀ i, 0 ≤ u i) :
    ∀ (l : List Animal) (k : ℕ), (deathFilter pexp p u l k).1 = l := by
  intro l
  induction l with
  | nil => intro k; rfl
  | cons a rest ih =>
    intro k
    simp only [deathFilter, death_omega_zero pexp p hw a (u k) (hu k),
      Bool.false_eq_true, if_false, ih (k + 1)]

theorem animal_death_omega_zero (pexp : ℚ → ℚ) (sp : SimP) (u : ℕ → ℚ)
    (hwh : sp.herbP.omega = 0) (hwc : sp.carnP.omega = 0)
    (hu : ∀ i, 0 ≤ u i) (c : Cell) (k : ℕ) :
    (animal_death pexp sp u c k).1 = c := by
  unfold animal_death
  dsimp only
  rw [deathFilter_omega_zero pexp sp.herbP hwh u hu c.herb k,
    deathFilter_omega_zero pexp sp.carnP hwc u hu c.carn _]

theorem cellCounts_aging (c : Cell) :
    cellHerbCount (animal_aging c) = cellHerbCount c ∧
    cellCarnCount (animal_aging c) = cellCarnCount c := by
  constructor <;> simp [cellHerbCount, cellCarnCount, animal_aging]

theorem cellCounts_weight (sp : SimP) (c : Cell) :
    cellHerbCount (animal_weight_change sp c) = cellHerbCount c ∧
    cellCarnCount (animal_weight_change sp c) = cellCarnCount c := by
  constructor <;> simp [cellHerbCount, cellCarnCount, animal_weight_change]

/-- One annual cycle conserves both species totals and the shape when birth
and death probabilities are forced to zero (`gamma = omega = 0`) and the kill
probability is forced to zero (as the repository's own conservation test
does). -/
theorem annual_cycle_conserve (pexp : ℚ → ℚ) (sp : SimP)
    (pk : Animal → ℚ → ℚ) (u g : ℕ → ℚ) (order : List Loc) (isl : Island)
    (k : ℕ)
    (hpexp : ∀ x, 0 < pexp x) (hdpm : 1 ≤ sp.dpm)
    (hgh : sp.herbP.gamma = 0) (hgc : sp.carnP.gamma = 0)
    (hwh : sp.herbP.omega = 0) (hwc : sp.carnP.omega = 0)
    (hpk : ∀ a x, pk a x = 0) (hu : ∀ i, 0 ≤ u i)
    (horder : ∀ l ∈ order, GoodLoc (shape isl) l) :
    totalBy cellHerbCount (annual_cycle pexp sp pk u g order isl k).1 =
      totalBy cellHerbCount isl ∧
    totalBy cellCarnCount (annual_cycle pexp sp pk u g order isl k).1 =
      totalBy cellCarnCount isl ∧
    shape (annual_cycle pexp sp pk u g order isl k).1 = shape isl := by
  set i1 := mapCells (food_growth sp) isl with hi1
  have e1h : totalBy cellHerbCount i1 = totalBy cellHerbCount isl :=
    totalBy_mapCells _ _ (fun c => (cellCounts_food_growth sp c).1) isl
  have e1c : totalBy cellCarnCount i1 = totalBy cellCarnCount isl :=
    totalBy_mapCells _ _ (fun c => (cellCounts_food_growth sp c).2) isl
  have s1 : shape i1 = shape isl := shape_mapCells _ isl
  set i2 := mapCells (herb_eating pexp sp) i1 with hi2
  have e2h : totalBy cellHerbCount i2 = totalBy cellHerbCount i1 :=
    totalBy_mapCells _ _ (fun c => (cellCounts_herb_eating pexp sp c).1) i1
  have e2c : totalBy cellCarnCount i2 = totalBy cellCarnCount i1 :=
    totalBy_mapCells _ _ (fun c => (cellCounts_herb_eating pexp sp c).2) i1
  have s2 : shape i2 = shape i1 := shape_mapCells _ i1
  set r3 := cellsFold (carn_eating pexp sp pk u) i2 k with hr3
  have e3h : totalBy cellHerbCount r3.1 = totalBy cellHerbCount i2 :=
    totalBy_cellsFold _ _
      (fun c k' => (cellCounts_carn_eating pexp sp pk u hpexp hdpm hpk hu c k').1)
      i2 k
  have e3c : totalBy cellCarnCount r3.1 = totalBy cellCarnCount i2 :=
    totalBy_cellsFold _ _
      (fun c k' => (cellCounts_carn_eating pexp sp pk u hpexp hdpm hpk hu c k').2)
      i2 k
  have s3 : shape r3.1 = shape i2 := shape_cellsFold _ i2 k
  set r4 := cellsFold (animal_birth pexp sp u g) r3.1 r3.2 with hr4
  have hbirth : ∀ (c : Cell) (k' : ℕ), (animal_birth pexp sp u g c k').1 = c :=
    fun c k' => animal_birth_gamma_zero pexp sp u g hgh hgc hu c k'
  have e4h : totalBy cellHerbCount r4.1 = totalBy cellHerbCount r3.1 :=
    totalBy_cellsFold _ _ (fun c k' => by rw [hbirth c k']) r3.1 r3.2
  have e4c : totalBy cellCarnCount r4.1 = totalBy cellCarnCount r3.1 :=
    totalBy_cellsFold _ _ (fun c k' => by rw [hbirth c k']) r3.1 r3.2
  have s4 : shape r4.1 = shape r3.1 := shape_cellsFold _ r3.1 r3.2
  set r5 := animals_migrate pexp sp u order r4.1 r4.2 with hr5
  obtain ⟨e5h, e5c, s5⟩ := animals_migrate_conserve pexp sp u order r4.1 r4.2
    (by
      intro l hm
      rw [s4, s3, s2, s1]
      exact horder l hm)
  set i6 := mapCells animal_aging r5.1 with hi6
  have e6h : totalBy cellHerbCount i6 = totalBy cellHerbCount r5.1 :=
    totalBy_mapCells _ _ (fun c => (cellCounts_aging c).1) r5.1
  have e6c : totalBy cellCarnCount i6 = totalBy cellCarnCount r5.1 :=
    totalBy_mapCells _ _ (fun c => (cellCounts_aging c).2) r5.1
  have s6 : shape i6 = shape r5.1 := shape_mapCells _ r5.1
  set i7 := mapCells (animal_weight_change sp) i6 with hi7
  have e7h : totalBy cellHerbCount i7 = totalBy cellHerbCount i6 :=
    totalBy_mapCells _ _ (fun c => (cellCounts_weight sp c).1) i6
  have e7c : totalBy cellCarnCount i7 = totalBy cellCarnCount i6 :=
    totalBy_mapCells _ _ (fun c => (cellCounts_weight sp c).2) i6
  have s7 : shape i7 = shape i6 := shape_mapCells _ i6
  have hdeath : ∀ (c : Cell) (k' : ℕ), (animal_death pexp sp u c k').1 = c :=
    fun c k' => animal_death_omega_zero pexp sp u hwh hwc hu c k'
  have e8h : totalBy cellHerbCount (cellsFold (animal_death pexp sp u) i7 r5.2).1 =
      totalBy cellHerbCount i7 :=
    totalBy_cellsFold _ _ (fun c k' => by rw [hdeath c k']) i7 r5.2
  have e8c : totalBy cellCarnCount (cellsFold (animal_death pexp sp u) i7 r5.2).1 =
      totalBy cellCarnCount i7 :=
    totalBy_cellsFold _ _ (fun c k' => by rw [hdeath c k']) i7 r5.2
  have s8 : shape (cellsFold (animal_death pexp sp u) i7 r5.2).1 = shape i7 :=
    shape_cellsFold _ i7 r5.2
  refine ⟨?_, ?_, ?_⟩
  · show totalBy cellHerbCount (cellsFold (animal_death pexp sp u) i7 r5.2).1 = _
    rw [e8h, e7h, e6h, e5h, e4h, e3h, e2h, e1h]
  · show totalBy cellCarnCount (cellsFold (animal_death pexp sp u) i7 r5.2).1 = _
    rw [e8c, e7c, e6c, e5c, e4c, e3c, e2c, e1c]
  · show shape (cellsFold (animal_death pexp sp u) i7 r5.2).1 = _
    rw [s8, s7, s6, s5, s4, s3, s2, s1]

/-- C2 amended: with birth and death probabilities forced to zero *and* the
kill probability forced to zero (as the repository's own conservation test
does by monkeypatching `prob_kill`), the island-wide herbivore and carnivore
counts are unchanged by any number of annual cycles, for any per-year
visitation orders of in-bounds interior cells.  Without disabling predation
the claim fails (see the counterexample). -/
theorem C2_conservation_amended (pexp : ℚ → ℚ) (sp : SimP)
    (pk : Animal → ℚ → ℚ) (u g : ℕ → ℚ) (orders : ℕ → List Loc)
    (hpexp : ∀ x, 0 < pexp x) (hdpm : 1 ≤ sp.dpm)
    (hgh : sp.herbP.gamma = 0) (hgc : sp.carnP.gamma = 0)
    (hwh : sp.herbP.omega = 0) (hwc : sp.carnP.omega = 0)
    (hpk : ∀ a x, pk a x = 0) (hu : ∀ i, 0 ≤ u i) :
    ∀ (n : ℕ) (isl : Island) (k : ℕ),
      (∀ y, ∀ l ∈ orders y, GoodLoc (shape isl) l) →
      number_of_animals (simulate pexp sp pk u g orders n isl k).1 =
        number_of_animals isl := by
  have main : ∀ (n : ℕ) (isl : Island) (k : ℕ),
      (∀ y, ∀ l ∈ orders y, GoodLoc (shape isl) l) →
      totalBy cellHerbCount (simulate pexp sp pk u g orders n isl k).1 =
        totalBy cellHerbCount isl ∧
      totalBy cellCarnCount (simulate pexp sp pk u g orders n isl k).1 =
        totalBy cellCarnCount isl ∧
      shape (simulate pexp sp pk u g orders n isl k).1 = shape isl := by
    intro n
    induction n with
    | zero => intro isl k _; exact ⟨rfl, rfl, rfl⟩
    | succ m ih =>
      intro isl k horders
      obtain ⟨c1, c2, c3⟩ := annual_cycle_conserve pexp sp pk u g (orders m)
        isl k hpexp hdpm hgh hgc hwh hwc hpk hu (horders m)
      obtain ⟨d1, d2, d3⟩ := ih
        (annual_cycle pexp sp pk u g (orders m) isl k).1
        (annual_cycle pexp sp pk u g (orders m) isl k).2
        (by
          intro y l hm
          rw [c3]
          exact horders y l hm)
      exact ⟨d1.trans c1, d2.trans c2, d3.trans c3⟩
  intro n isl k horders
  obtain ⟨c1, c2, -⟩ := main n isl k horders
  unfold number_of_animals
  rw [totalHerb_eq_totalBy, totalHerb_eq_totalBy, totalCarn_eq_totalBy,
    totalCarn_eq_totalBy, c1, c2]

theorem rowFold_fst_id (f : Cell → ℕ → Cell × ℕ) (h : ∀ c k, (f c k).1 = c) :
    ∀ (row : List Cell) (k : ℕ), (rowFold f row k).1 = row := by
  intro row
  induction row with
  | nil => intro k; rfl
  | cons c cs ih =>
    intro k
    simp only [rowFold, h c k, ih]

theorem cellsFold_fst_id (f : Cell → ℕ → Cell × ℕ) (h : ∀ c k, (f c k).1 = c) :
    ∀ (isl : Island) (k : ℕ), (cellsFold f isl k).1 = isl := by
  intro isl
  induction isl with
  | nil => intro k; rfl
  | cons row rows ih =>
    intro k
    simp only [cellsFold, rowFold_fst_id f h row k, ih]

/-- With birth and death probabilities forced to zero (but predation left
as-is), the annual cycle's totals equal the totals right after the feeding
phases: birth adds nothing, migration conserves, aging/weight-loss/death
remove nothing. -/
theorem annual_cycle_totals_after_feeding (pexp : ℚ → ℚ) (sp : SimP)
    (pk : Animal → ℚ → ℚ) (u g : ℕ → ℚ) (order : List Loc) (isl : Island)
    (k : ℕ)
    (hgh : sp.herbP.gamma = 0) (hgc : sp.carnP.gamma = 0)
    (hwh : sp.herbP.omega = 0) (hwc : sp.carnP.omega = 0)
    (hu : ∀ i, 0 ≤ u i)
    (horder : ∀ l ∈ order, GoodLoc (shape isl) l) :
    totalBy cellHerbCount (annual_cycle pexp sp pk u g order isl k).1 =
      totalBy cellHerbCount (cellsFold (carn_eating pexp sp pk u)
        (mapCells (herb_eating pexp sp) (mapCells (food_growth sp) isl)) k).1 ∧
    totalBy cellCarnCount (annual_cycle pexp sp pk u g order isl k).1 =
      totalBy cellCarnCount (cellsFold (carn_eating pexp sp pk u)
        (mapCells (herb_eating pexp sp) (mapCells (food_growth sp) isl)) k).1 := by
  set i1 := mapCells (food_growth sp) isl with hi1
  set i2 := mapCells (herb_eating pexp sp) i1 with hi2
  set r3 := cellsFold (carn_eating pexp sp pk u) i2 k with hr3
  have s123 : shape r3.1 = shape isl := by
    rw [shape_cellsFold, shape_mapCells, shape_mapCells]
  set r4 := cellsFold (animal_birth pexp sp u g) r3.1 r3.2 with hr4
  have hbirth : ∀ (c : Cell) (k' : ℕ), (animal_birth pexp sp u g c k').1 = c :=
    fun c k' => animal_birth_gamma_zero pexp sp u g hgh hgc hu c k'
  have h4 : r4.1 = r3.1 := cellsFold_fst_id _ hbirth r3.1 r3.2
  obtain ⟨e5h, e5c, s5⟩ := animals_migrate_conserve pexp sp u order r4.1 r4.2
    (by
      intro l hm
      rw [h4, s123]
      exact horder l hm)
  set r5 := animals_migrate pexp sp u order r4.1 r4.2 with hr5
  set i6 := mapCells animal_aging r5.1 with hi6
  set i7 := mapCells (animal_weight_change sp) i6 with hi7
  have hdeath : ∀ (c : Cell) (k' : ℕ), (animal_death pexp sp u c k').1 = c :=
    fun c k' => animal_death_omega_zero pexp sp u hwh hwc hu c k'
  constructor
  · show totalBy cellHerbCount (cellsFold (animal_death pexp sp u) i7 r5.2).1 = _
    rw [totalBy_cellsFold _ _ (fun c k' => by rw [hdeath c k']) i7 r5.2, hi7,
      totalBy_mapCells _ _ (fun c => (cellCounts_weight sp c).1) i6, hi6,
      totalBy_mapCells _ _ (fun c => (cellCounts_aging c).1) r5.1, hr5, e5h, h4]
  · show totalBy cellCarnCount (cellsFold (animal_death pexp sp u) i7 r5.2).1 = _
    rw [totalBy_cellsFold _ _ (fun c k' => by rw [hdeath c k']) i7 r5.2, hi7,
      totalBy_mapCells _ _ (fun c => (cellCounts_weight sp c).2) i6, hi6,
      totalBy_mapCells _ _ (fun c => (cellCounts_aging c).2) r5.1, hr5, e5c, h4]

/-- Default parameters with both species' birth and death probabilities
forced to zero (`gamma = 0`, `omega = 0`), as the repository's conservation
test sets them. -/
def spZero : SimP :=
  { simDefault with
    herbP := { herbDefault with gamma := 0, omega := 0 },
    carnP := { carnDefault with gamma := 0, omega := 0 } }

/-- One jungle cell holding a weak herbivore and a strong carnivore. -/
def islC2 : Island :=
  [[oceanCell, oceanCell, oceanCell],
   [oceanCell, ⟨.jungle, [⟨5, 50⟩], [⟨50, 5⟩], [], [], 800⟩, oceanCell],
   [oceanCell, oceanCell, oceanCell]]

theorem herb_eating_ocean :
    herb_eating pexpStep spZero oceanCell = oceanCell := by
  simp [herb_eating, fitness_sorting, sortByFitness, total_num_animals,
    herbFeedLoop, oceanCell]

theorem herb_eating_islC2_cell :
    herb_eating pexpStep spZero ⟨.jungle, [⟨5, 50⟩], [⟨50, 5⟩], [], [], 800⟩ =
      ⟨.jungle, [⟨14, 50⟩], [⟨50, 5⟩], [], [], 790⟩ := by
  norm_num [herb_eating, fitness_sorting, sortByFitness, total_num_animals,
    herbFeedLoop, Herbivore.eating, spZero, simDefault, herbDefault]

theorem carn_eating_ocean (k : ℕ) :
    carn_eating pexpStep spZero
      (Carnivore.prob_kill pexpStep spZero.carnP spZero.dpm) uZero
      oceanCell k = (oceanCell, k) := by
  simp [carn_eating, fitness_sorting, sortByFitness, carnFeedLoop, oceanCell]

theorem carn_eating_islC2_cell :
    carn_eating pexpStep spZero
      (Carnivore.prob_kill pexpStep spZero.carnP spZero.dpm) uZero
      ⟨.jungle, [⟨14, 50⟩], [⟨50, 5⟩], [], [], 790⟩ 0 =
      (⟨.jungle, [], [⟨121/2, 5⟩], [], [], 790⟩, 1) := by
  have hfh : fitness pexpStep spZero.herbP ⟨14, 50⟩ = 2/9 := by
    norm_num [fitness, q_factor, pexpStep, spZero, simDefault, herbDefault]
  have hfc : fitness pexpStep spZero.carnP ⟨50, 5⟩ = 4/9 := by
    norm_num [fitness, q_factor, pexpStep, spZero, simDefault, carnDefault]
  have hF : spZero.carnP.F = 50 := by norm_num [spZero, carnDefault]
  have hbeta : spZero.carnP.beta = 3/4 := by norm_num [spZero, carnDefault]
  have hd : spZero.dpm = 10 := by norm_num [spZero, simDefault]
  norm_num [carn_eating, fitness_sorting, sortByFitness, carnFeedLoop,
    Carnivore.eating, Carnivore.eatAux, Carnivore.carn_kills_herb,
    Carnivore.prob_kill, hfh, hfc, uZero, hF, hbeta, hd]

/-- C2 counterexample: with birth and death probabilities forced to zero but
the kill probability left at its default, one annual cycle on a cell holding
a weak herbivore and a strong carnivore removes the herbivore by predation:
the island totals change from `(1, 1)` to `(0, 1)`. -/
theorem C2_predation_breaks_conservation :
    spZero.herbP.gamma = 0 ∧ spZero.carnP.gamma = 0 ∧
    spZero.herbP.omega = 0 ∧ spZero.carnP.omega = 0 ∧
    number_of_animals (annual_cycle pexpStep spZero
        (Carnivore.prob_kill pexpStep spZero.carnP spZero.dpm) uZero gConst
        [(1, 1)] islC2 0).1 ≠ number_of_animals islC2 := by
  refine ⟨rfl, rfl, rfl, rfl, ?_⟩
  have hGood : ∀ l ∈ [((1 : ℤ), (1 : ℤ))], GoodLoc (shape islC2) l := by
    intro l hm
    simp only [List.mem_singleton] at hm
    subst hm
    decide
  obtain ⟨th, tc⟩ := annual_cycle_totals_after_feeding pexpStep spZero
    (Carnivore.prob_kill pexpStep spZero.carnP spZero.dpm) uZero gConst
    [(1, 1)] islC2 0 rfl rfl rfl rfl (fun i => le_refl 0) hGood
  have hA : mapCells (food_growth spZero) islC2 = islC2 := rfl
  have hB : mapCells (herb_eating pexpStep spZero) islC2 =
      [[oceanCell, oceanCell, oceanCell],
       [oceanCell, ⟨.jungle, [⟨14, 50⟩], [⟨50, 5⟩], [], [], 790⟩, oceanCell],
       [oceanCell, oceanCell, oceanCell]] := by
    simp [mapCells, islC2, herb_eating_ocean, herb_eating_islC2_cell]
  have hC : (cellsFold (carn_eating pexpStep spZero
      (Carnivore.prob_kill pexpStep spZero.carnP spZero.dpm) uZero)
      [[oceanCell, oceanCell, oceanCell],
       [oceanCell, ⟨.jungle, [⟨14, 50⟩], [⟨50, 5⟩], [], [], 790⟩, oceanCell],
       [oceanCell, oceanCell, oceanCell]] 0).1 =
      [[oceanCell, oceanCell, oceanCell],
       [oceanCell, ⟨.jungle, [], [⟨121/2, 5⟩], [], [], 790⟩, oceanCell],
       [oceanCell, oceanCell, oceanCell]] := by
    simp [cellsFold, rowFold, carn_eating_ocean, carn_eating_islC2_cell]
  rw [hA, hB] at th tc
  rw [hC] at th tc
  have hfin : number_of_animals (annual_cycle pexpStep spZero
      (Carnivore.prob_kill pexpStep spZero.carnP spZero.dpm) uZero gConst
      [(1, 1)] islC2 0).1 = (0, 1) := by
    unfold number_of_animals
    rw [totalHerb_eq_totalBy, totalCarn_eq_totalBy, th, tc]
    rfl
  rw [hfin]
  intro hc
  rw [show number_of_animals islC2 = (1, 1) from rfl] at hc
  simp at hc

/-- Witness for the amended C2 theorem: two cycles with birth, death and
kill probabilities all forced to zero leave the totals of `islC2`
unchanged. -/
theorem C2_conservation_amended_witness :
    number_of_animals (simulate pexpConst1 spZero (fun _ _ => 0) uZero gConst
        (fun _ => [(1, 1)]) 2 islC2 0).1 = number_of_animals islC2 :=
  C2_conservation_amended pexpConst1 spZero (fun _ _ => 0) uZero gConst
    (fun _ => [(1, 1)]) (fun x => by norm_num [pexpConst1])
    (by norm_num [spZero, simDefault]) rfl rfl rfl rfl (fun a x => rfl)
    (fun i => le_refl 0) 2 islC2 0
    (fun y l hm => by
      simp only [List.mem_singleton] at hm
      subst hm
      decide)

/-! ### The cumulative sampling never selects a zero-probability entry -/

/-- For a non-negative 4-entry probability list summing to `1` and a draw in
`[0, 1)`, the cumulative walk stops at a strictly positive entry. -/
theorem animal_moves_to_sel_pos (p0 p1 p2 p3 rnd : ℚ)
    (_h0 : 0 ≤ p0) (h1 : 0 ≤ p1) (h2 : 0 ≤ p2) (h3 : 0 ≤ p3)
    (hsum : p0 + p1 + p2 + p3 = 1) (hr0 : 0 ≤ rnd) (hr1 : rnd < 1) :
    0 < [p0, p1, p2, p3].getD (animal_moves_to [p0, p1, p2, p3] rnd) 0 := by
  have e0 : [p0, p1, p2, p3].getD 0 0 = p0 := rfl
  have e1 : [p0, p1, p2, p3].getD 1 0 = p1 := rfl
  have e2 : [p0, p1, p2, p3].getD 2 0 = p2 := rfl
  have e3 : [p0, p1, p2, p3].getD 3 0 = p3 := rfl
  simp only [animal_moves_to, e0, e1, e2, e3]
  split_ifs with ha hb hc
  · rw [e0]; linarith
  · rw [e1]; linarith
  · rw [e2]; linarith
  · rw [e3]; linarith

/-- In the branch where migration proceeds (`prob_move` not summing to `0`),
the destination sampled over four candidate cells is habitable. -/
theorem sel_entry_habitable (pexp : ℚ → ℚ) (p : AnimalP) (s : Sp)
    (c0 c1 c2 c3 : Cell) (rnd : ℚ)
    (hpexp : ∀ x, 0 < pexp x) (hr0 : 0 ≤ rnd) (hr1 : rnd < 1)
    (hS : ¬ (prob_move pexp p [c0, c1, c2, c3] s).sum = 0) :
    animals_can_live_here ([c0, c1, c2, c3].getD
      (animal_moves_to (prob_move pexp p [c0, c1, c2, c3] s) rnd)
      oceanCell) = true := by
  set f : Cell → ℚ := fun c =>
    if animals_can_live_here c then
      pexp (p.lam * (get_available_fodder c s /
        (((total_num_animals c s : ℚ) + 1) * p.F)))
    else 0 with hf
  have hE : propensity pexp p [c0, c1, c2, c3]
      (relative_abundance_of_fodder [c0, c1, c2, c3] p s) =
      [f c0, f c1, f c2, f c3] := rfl
  have hfnn : ∀ c, 0 ≤ f c := by
    intro c
    rw [hf]
    dsimp only
    split
    · exact le_of_lt (hpexp _)
    · exact le_rfl
  have hPS : ¬ ([f c0, f c1, f c2, f c3] : List ℚ).sum = 0 := by
    intro h
    apply hS
    simp only [prob_move]
    rw [hE, if_pos h]
    norm_num
  have hSpos : 0 < ([f c0, f c1, f c2, f c3] : List ℚ).sum := by
    have hSnn : 0 ≤ ([f c0, f c1, f c2, f c3] : List ℚ).sum := by
      simp only [List.sum_cons, List.sum_nil]
      have := hfnn c0
      have := hfnn c1
      have := hfnn c2
      have := hfnn c3
      linarith
    exact lt_of_le_of_ne hSnn (Ne.symm hPS)
  set S := ([f c0, f c1, f c2, f c3] : List ℚ).sum with hSdef
  have hpm : prob_move pexp p [c0, c1, c2, c3] s =
      [f c0 / S, f c1 / S, f c2 / S, f c3 / S] := by
    simp only [prob_move]
    rw [hE, if_neg hPS]
    rfl
  have hsum1 : f c0 / S + f c1 / S + f c2 / S + f c3 / S = 1 := by
    have hs4 : f c0 + f c1 + f c2 + f c3 = S := by
      rw [hSdef]
      simp [List.sum_cons]
      ring
    field_simp
    linarith [hs4]
  rw [hpm]
  have hsel := animal_moves_to_sel_pos (f c0 / S) (f c1 / S) (f c2 / S)
    (f c3 / S) rnd (div_nonneg (hfnn c0) hSpos.le)
    (div_nonneg (hfnn c1) hSpos.le) (div_nonneg (hfnn c2) hSpos.le)
    (div_nonneg (hfnn c3) hSpos.le) hsum1 hr0 hr1
  have hposle := animal_moves_to_le_three
    [f c0 / S, f c1 / S, f c2 / S, f c3 / S] rnd
  have hab_of_pos : ∀ c : Cell, 0 < f c / S → animals_can_live_here c = true := by
    intro c hpos
    by_cases hc : animals_can_live_here c = true
    · exact hc
    · exfalso
      have : f c = 0 := by
        rw [hf]
        dsimp only
        rw [if_neg (by simpa using hc)]
      rw [this] at hpos
      simp at hpos
  rcases Nat.lt_or_ge (animal_moves_to
    [f c0 / S, f c1 / S, f c2 / S, f c3 / S] rnd) 1 with hn | hn
  · have h0' : animal_moves_to [f c0 / S, f c1 / S, f c2 / S, f c3 / S] rnd = 0 := by
      omega
    rw [h0'] at hsel ⊢
    exact hab_of_pos c0 hsel
  · rcases Nat.lt_or_ge (animal_moves_to
      [f c0 / S, f c1 / S, f c2 / S, f c3 / S] rnd) 2 with hn2 | hn2
    · have h1' : animal_moves_to [f c0 / S, f c1 / S, f c2 / S, f c3 / S] rnd = 1 := by
        omega
      rw [h1'] at hsel ⊢
      exact hab_of_pos c1 hsel
    · rcases Nat.lt_or_ge (animal_moves_to
        [f c0 / S, f c1 / S, f c2 / S, f c3 / S] rnd) 3 with hn3 | hn3
      · have h2' : animal_moves_to [f c0 / S, f c1 / S, f c2 / S, f c3 / S] rnd = 2 := by
          omega
        rw [h2'] at hsel ⊢
        exact hab_of_pos c2 hsel
      · have h3' : animal_moves_to [f c0 / S, f c1 / S, f c2 / S, f c3 / S] rnd = 3 := by
          omega
        rw [h3'] at hsel ⊢
        exact hab_of_pos c3 hsel

/-! ### No organism ever inhabits an uninhabitable cell -/

/-- A cell holding no organisms at all. -/
def CellEmpty (c : Cell) : Prop :=
  c.herb = [] ∧ c.carn = [] ∧ c.herbImm = [] ∧ c.carnImm = []

instance (c : Cell) : Decidable (CellEmpty c) := by
  unfold CellEmpty
  infer_instance

/-- Every uninhabitable (mountain/ocean) cell of the island is empty. -/
def NoLife (isl : Island) : Prop :=
  ∀ row ∈ isl, ∀ c ∈ row, animals_can_live_here c = false → CellEmpty c

instance (isl : Island) : Decidable (NoLife isl) := by
  unfold NoLife
  infer_instance

theorem cellEmpty_ocean : CellEmpty oceanCell := ⟨rfl, rfl, rfl, rfl⟩

theorem noLife_getCell (isl : Island) (h : NoLife isl) (loc : Loc)
    (hhab : animals_can_live_here (getCell isl loc) = false) :
    CellEmpty (getCell isl loc) := by
  by_cases hinb : Inb isl loc
  · obtain ⟨h1, h2, h3, h4⟩ := (inb_iff isl loc).mp hinb
    have hg : getCell isl loc =
        (isl.getD loc.1.toNat []).getD loc.2.toNat oceanCell := by
      unfold getCell
      rw [if_neg (by omega)]
    have hrow : isl.getD loc.1.toNat [] ∈ isl := by
      rw [List.getD_eq_getElem isl [] h3]
      exact List.getElem_mem h3
    have hcell : (isl.getD loc.1.toNat []).getD loc.2.toNat oceanCell ∈
        isl.getD loc.1.toNat [] := by
      rw [List.getD_eq_getElem _ oceanCell h4]
      exact List.getElem_mem h4
    rw [hg]
    rw [hg] at hhab
    exact h _ hrow _ hcell hhab
  · rw [getCell_oob isl loc hinb]
    exact cellEmpty_ocean

theorem noLife_setCell (isl : Island) (loc : Loc) (c : Cell) (h : NoLife isl)
    (hc : animals_can_live_here c = true ∨ CellEmpty c) :
    NoLife (setCell isl loc c) := by
  unfold setCell
  split
  · exact h
  · intro row' hrow' c' hc' hhab'
    rcases List.mem_or_eq_of_mem_set hrow' with hrow' | hrow'
    · exact h _ hrow' _ hc' hhab'
    · subst hrow'
      rcases List.mem_or_eq_of_mem_set hc' with hc' | hc'
      · rcases Nat.lt_or_ge loc.1.toNat isl.length with hi | hi
        · have hrow : isl.getD loc.1.toNat [] ∈ isl := by
            rw [List.getD_eq_getElem isl [] hi]
            exact List.getElem_mem hi
          exact h _ hrow _ hc' hhab'
        · rw [List.getD_eq_default _ _ hi] at hc'
          exact absurd hc' (List.not_mem_nil c')
      · subst hc'
        rcases hc with hc | hc
        · rw [hc] at hhab'
          exact absurd hhab' (by simp)
        · exact hc

theorem hab_of_kind_eq (c d : Cell) (h : c.kind = d.kind) :
    animals_can_live_here c = animals_can_live_here d := by
  unfold animals_can_live_here
  rw [h]

theorem noLife_mapCells (f : Cell → Cell) (isl : Island) (h : NoLife isl)
    (hk : ∀ c, (f c).kind = c.kind)
    (he : ∀ c, CellEmpty c → CellEmpty (f c)) :
    NoLife (mapCells f isl) := by
  intro row' hrow' c' hc' hhab'
  obtain ⟨row, hrow, rfl⟩ := List.mem_map.mp hrow'
  obtain ⟨c, hc, rfl⟩ := List.mem_map.mp hc'
  have hhabc : animals_can_live_here c = false := by
    rw [← hab_of_kind_eq (f c) c (hk c)]
    exact hhab'
  exact he c (h row hrow c hc hhabc)

theorem noLife_rowFold (f : Cell → ℕ → Cell × ℕ)
    (hk : ∀ c k, (f c k).1.kind = c.kind)
    (he : ∀ c k, CellEmpty c → CellEmpty (f c k).1) :
    ∀ (row : List Cell) (k : ℕ),
      (∀ c ∈ row, animals_can_live_here c = false → CellEmpty c) →
      ∀ c' ∈ (rowFold f row k).1, animals_can_live_here c' = false →
        CellEmpty c' := by
  intro row
  induction row with
  | nil => intro k _ c' hc'; exact absurd hc' (List.not_mem_nil c')
  | cons c cs ih =>
    intro k hrow c' hc' hhab'
    simp only [rowFold] at hc'
    rcases List.mem_cons.mp hc' with hc' | hc'
    · subst hc'
      have hhabc : animals_can_live_here c = false := by
        rw [← hab_of_kind_eq (f c k).1 c (hk c k)]
        exact hhab'
      exact he c k (hrow c (List.mem_cons_self c cs) hhabc)
    · exact ih (f c k).2 (fun d hd => hrow d (List.mem_cons_of_mem c hd)) c'
        hc' hhab'

theorem noLife_cellsFold (f : Cell → ℕ → Cell × ℕ) (isl : Island)
    (h : NoLife isl)
    (hk : ∀ c k, (f c k).1.kind = c.kind)
    (he : ∀ c k, CellEmpty c → CellEmpty (f c k).1) :
    ∀ k, NoLife (cellsFold f isl k).1 := by
  induction isl with
  | nil => intro k row hr; exact absurd hr (List.not_mem_nil row)
  | cons row rows ih =>
    intro k row' hrow' c' hc' hhab'
    simp only [cellsFold] at hrow'
    rcases List.mem_cons.mp hrow' with hrow' | hrow'
    · subst hrow'
      exact noLife_rowFold f hk he row k
        (fun c hc => h row (List.mem_cons_self row rows) c hc) c' hc' hhab'
    · exact ih (fun r hr => h r (List.mem_cons_of_mem row hr)) _ row' hrow' c'
        hc' hhab'

/-! Per-cell phase operations: kind preservation and empty-cell stability. -/

theorem food_growth_kind (sp : SimP) (c : Cell) :
    (food_growth sp c).kind = c.kind := by
  unfold food_growth
  split <;> rfl

theorem food_growth_empty (sp : SimP) (c : Cell) (h : CellEmpty c) :
    CellEmpty (food_growth sp c) := by
  obtain ⟨h1, h2, h3, h4⟩ := h
  unfold food_growth
  split <;> exact ⟨h1, h2, h3, h4⟩

theorem herb_eating_kind (pexp : ℚ → ℚ) (sp : SimP) (c : Cell) :
    (herb_eating pexp sp c).kind = c.kind := rfl

theorem herb_eating_empty (pexp : ℚ → ℚ) (sp : SimP) (c : Cell)
    (h : CellEmpty c) : CellEmpty (herb_eating pexp sp c) := by
  obtain ⟨h1, h2, h3, h4⟩ := h
  unfold herb_eating fitness_sorting sortByFitness
  rw [h1, h2]
  exact ⟨by simp [herbFeedLoop, total_num_animals, h3], by simp, h3, h4⟩

theorem carn_eating_kind (pexp : ℚ → ℚ) (sp : SimP) (pk : Animal → ℚ → ℚ)
    (u : ℕ → ℚ) (c : Cell) (k : ℕ) :
    (carn_eating pexp sp pk u c k).1.kind = c.kind := rfl

theorem carn_eating_empty (pexp : ℚ → ℚ) (sp : SimP) (pk : Animal → ℚ → ℚ)
    (u : ℕ → ℚ) (c : Cell) (k : ℕ) (h : CellEmpty c) :
    CellEmpty (carn_eating pexp sp pk u c k).1 := by
  obtain ⟨h1, h2, h3, h4⟩ := h
  unfold carn_eating fitness_sorting sortByFitness
  rw [h1, h2]
  exact ⟨by simp [carnFeedLoop], by simp [carnFeedLoop], h3, h4⟩

theorem animal_birth_kind (pexp : ℚ → ℚ) (sp : SimP) (u g : ℕ → ℚ) (c : Cell)
    (k : ℕ) : (animal_birth pexp sp u g c k).1.kind = c.kind := rfl

theorem animal_birth_empty (pexp : ℚ → ℚ) (sp : SimP) (u g : ℕ → ℚ)
    (c : Cell) (k : ℕ) (h : CellEmpty c) :
    CellEmpty (animal_birth pexp sp u g c k).1 := by
  obtain ⟨h1, h2, h3, h4⟩ := h
  unfold animal_birth
  dsimp only
  rw [h1, h2]
  exact ⟨by simp [newbornsLoop], by simp [newbornsLoop], h3, h4⟩

theorem animal_aging_kind (c : Cell) : (animal_aging c).kind = c.kind := rfl

theorem animal_aging_empty (c : Cell) (h : CellEmpty c) :
    CellEmpty (animal_aging c) := by
  obtain ⟨h1, h2, h3, h4⟩ := h
  exact ⟨by simp [animal_aging, h1], by simp [animal_aging, h2], h3, h4⟩

theorem animal_weight_kind (sp : SimP) (c : Cell) :
    (animal_weight_change sp c).kind = c.kind := rfl

theorem animal_weight_empty (sp : SimP) (c : Cell) (h : CellEmpty c) :
    CellEmpty (animal_weight_change sp c) := by
  obtain ⟨h1, h2, h3, h4⟩ := h
  exact ⟨by simp [animal_weight_change, h1], by simp [animal_weight_change, h2],
    h3, h4⟩

theorem animal_death_kind (pexp : ℚ → ℚ) (sp : SimP) (u : ℕ → ℚ) (c : Cell)
    (k : ℕ) : (animal_death pexp sp u c k).1.kind = c.kind := rfl

theorem animal_death_empty (pexp : ℚ → ℚ) (sp : SimP) (u : ℕ → ℚ) (c : Cell)
    (k : ℕ) (h : CellEmpty c) : CellEmpty (animal_death pexp sp u c k).1 := by
  obtain ⟨h1, h2, h3, h4⟩ := h
  unfold animal_death
  dsimp only
  rw [h1, h2]
  exact ⟨by simp [deathFilter], by simp [deathFilter], h3, h4⟩

theorem hab_add_herb_immigrant (a : Animal) (c : Cell) :
    animals_can_live_here (add_herb_immigrant a c) = animals_can_live_here c :=
  hab_of_kind_eq _ _ rfl

theorem hab_add_carn_immigrant (a : Animal) (c : Cell) :
    animals_can_live_here (add_carn_immigrant a c) = animals_can_live_here c :=
  hab_of_kind_eq _ _ rfl

theorem hab_set_herb (c : Cell) (l : List Animal) :
    animals_can_live_here { c with herb := l } = animals_can_live_here c :=
  hab_of_kind_eq _ _ rfl

theorem hab_set_carn (c : Cell) (l : List Animal) :
    animals_can_live_here { c with carn := l } = animals_can_live_here c :=
  hab_of_kind_eq _ _ rfl

theorem hab_add_immigrants (c : Cell) :
    animals_can_live_here (add_immigrants_to_pop c) = animals_can_live_here c :=
  hab_of_kind_eq _ _ rfl

theorem getCell_map_neighbour (isl : Island) (loc : Loc) (pos : ℕ)
    (h : pos ≤ 3) :
    getCell isl ((neighbour_locations loc).getD pos loc) =
      ((neighbour_locations loc).map (getCell isl)).getD pos oceanCell := by
  interval_cases pos <;> rfl

theorem herbMigLoop_getCell_loc (pexp : ℚ → ℚ) (sp : SimP) (u : ℕ → ℚ)
    (loc : Loc) :
    ∀ (hs : List Animal) (isl : Island) (rem : List Animal) (k : ℕ),
      getCell (herbMigLoop pexp sp u loc hs isl rem k).1 loc =
        getCell isl loc := by
  intro hs
  induction hs with
  | nil => intro isl rem k; rfl
  | cons h t ih =>
    intro isl rem k
    by_cases h1 : u k < prob_migration pexp sp.herbP h
    · by_cases h2 : (prob_move pexp sp.herbP
          ((neighbour_locations loc).map (getCell isl)) .herbivore).sum = 0
      · rw [herbMigLoop_cons_stay2 pexp sp u loc h t isl rem k h1 h2]
        exact ih isl (rem ++ [h]) (k + 1)
      · rw [herbMigLoop_cons_move pexp sp u loc h t isl rem k h1 h2,
          ih _ rem (k + 2)]
        exact getCell_setCell_ne isl _ loc _
          (Ne.symm (neighbour_ne_self loc _
            (neighbour_getD_mem loc _ (animal_moves_to_le_three _ _))))
    · rw [herbMigLoop_cons_stay1 pexp sp u loc h t isl rem k h1]
      exact ih isl (rem ++ [h]) (k + 1)

theorem carnMigLoop_getCell_loc (pexp : ℚ → ℚ) (sp : SimP) (u : ℕ → ℚ)
    (loc : Loc) :
    ∀ (as_ : List Animal) (isl : Island) (rem : List Animal) (k : ℕ),
      getCell (carnMigLoop pexp sp u loc as_ isl rem k).1 loc =
        getCell isl loc := by
  intro as_
  induction as_ with
  | nil => intro isl rem k; rfl
  | cons a t ih =>
    intro isl rem k
    by_cases h1 : u k < prob_migration pexp sp.carnP a
    · by_cases h2 : (prob_move pexp sp.carnP
          ((neighbour_locations loc).map (getCell isl)) .carnivore).sum = 0
      · rw [carnMigLoop_cons_stay2 pexp sp u loc a t isl rem k h1 h2]
        exact ih isl (rem ++ [a]) (k + 1)
      · rw [carnMigLoop_cons_move pexp sp u loc a t isl rem k h1 h2,
          ih _ rem (k + 2)]
        exact getCell_setCell_ne isl _ loc _
          (Ne.symm (neighbour_ne_self loc _
            (neighbour_getD_mem loc _ (animal_moves_to_le_three _ _))))
    · rw [carnMigLoop_cons_stay1 pexp sp u loc a t isl rem k h1]
      exact ih isl (rem ++ [a]) (k + 1)

theorem noLife_herbMigLoop (pexp : ℚ → ℚ) (sp : SimP) (u : ℕ → ℚ) (loc : Loc)
    (hpexp : ∀ x, 0 < pexp x) (hu : ∀ i, 0 ≤ u i ∧ u i < 1) :
    ∀ (hs : List Animal) (isl : Island) (rem : List Animal) (k : ℕ),
      NoLife isl → NoLife (herbMigLoop pexp sp u loc hs isl rem k).1 := by
  intro hs
  induction hs with
  | nil => intro isl rem k hno; exact hno
  | cons h t ih =>
    intro isl rem k hno
    by_cases h1 : u k < prob_migration pexp sp.herbP h
    · by_cases h2 : (prob_move pexp sp.herbP
          ((neighbour_locations loc).map (getCell isl)) .herbivore).sum = 0
      · rw [herbMigLoop_cons_stay2 pexp sp u loc h t isl rem k h1 h2]
        exact ih isl (rem ++ [h]) (k + 1) hno
      · rw [herbMigLoop_cons_move pexp sp u loc h t isl rem k h1 h2]
        apply ih _ rem (k + 2)
        apply noLife_setCell _ _ _ hno
        left
        have hsel := sel_entry_habitable pexp sp.herbP .herbivore
          (getCell isl (loc.1 - 1, loc.2)) (getCell isl (loc.1, loc.2 + 1))
          (getCell isl (loc.1 + 1, loc.2)) (getCell isl (loc.1, loc.2 - 1))
          (u (k + 1)) hpexp (hu (k + 1)).1 (hu (k + 1)).2 h2
        have hgd := getCell_map_neighbour isl loc
          (animal_moves_to (prob_move pexp sp.herbP
            ((neighbour_locations loc).map (getCell isl)) .herbivore)
            (u (k + 1)))
          (animal_moves_to_le_three _ _)
        rw [hab_add_herb_immigrant, hgd]
        exact hsel
    · rw [herbMigLoop_cons_stay1 pexp sp u loc h t isl rem k h1]
      exact ih isl (rem ++ [h]) (k + 1) hno

theorem noLife_carnMigLoop (pexp : ℚ → ℚ) (sp : SimP) (u : ℕ → ℚ) (loc : Loc)
    (hpexp : ∀ x, 0 < pexp x) (hu : ∀ i, 0 ≤ u i ∧ u i < 1) :
    ∀ (as_ : List Animal) (isl : Island) (rem : List Animal) (k : ℕ),
      NoLife isl → NoLife (carnMigLoop pexp sp u loc as_ isl rem k).1 := by
  intro as_
  induction as_ with
  | nil => intro isl rem k hno; exact hno
  | cons a t ih =>
    intro isl rem k hno
    by_cases h1 : u k < prob_migration pexp sp.carnP a
    · by_cases h2 : (prob_move pexp sp.carnP
          ((neighbour_locations loc).map (getCell isl)) .carnivore).sum = 0
      · rw [carnMigLoop_cons_stay2 pexp sp u loc a t isl rem k h1 h2]
        exact ih isl (rem ++ [a]) (k + 1) hno
      · rw [carnMigLoop_cons_move pexp sp u loc a t isl rem k h1 h2]
        apply ih _ rem (k + 2)
        apply noLife_setCell _ _ _ hno
        left
        have hsel := sel_entry_habitable pexp sp.carnP .carnivore
          (getCell isl (loc.1 - 1, loc.2)) (getCell isl (loc.1, loc.2 + 1))
          (getCell isl (loc.1 + 1, loc.2)) (getCell isl (loc.1, loc.2 - 1))
          (u (k + 1)) hpexp (hu (k + 1)).1 (hu (k + 1)).2 h2
        have hgd := getCell_map_neighbour isl loc
          (animal_moves_to (prob_move pexp sp.carnP
            ((neighbour_locations loc).map (getCell isl)) .carnivore)
            (u (k + 1)))
          (animal_moves_to_le_three _ _)
        rw [hab_add_carn_immigrant, hgd]
        exact hsel
    · rw [carnMigLoop_cons_stay1 pexp sp u loc a t isl rem k h1]
      exact ih isl (rem ++ [a]) (k + 1) hno

theorem noLife_herb_migration (pexp : ℚ → ℚ) (sp : SimP) (u : ℕ → ℚ)
    (isl : Island) (loc : Loc) (k : ℕ)
    (hpexp : ∀ x, 0 < pexp x) (hu : ∀ i, 0 ≤ u i ∧ u i < 1)
    (hno : NoLife isl) :
    NoLife (herb_migration pexp sp u isl loc k).1 := by
  by_cases hhab : animals_can_live_here (getCell isl loc) = true
  · have hno' := noLife_herbMigLoop pexp sp u loc hpexp hu
      (getCell isl loc).herb isl [] k hno
    apply noLife_setCell _ _ _ hno'
    left
    rw [hab_set_herb, herbMigLoop_getCell_loc]
    exact hhab
  · have hemp := noLife_getCell isl hno loc (Bool.not_eq_true _ ▸ hhab)
    unfold herb_migration
    rw [show (getCell isl loc).herb = [] from hemp.1]
    simp only [herbMigLoop]
    exact noLife_setCell _ _ _ hno
      (Or.inr ⟨rfl, hemp.2.1, hemp.2.2.1, hemp.2.2.2⟩)

theorem noLife_carn_migration (pexp : ℚ → ℚ) (sp : SimP) (u : ℕ → ℚ)
    (isl : Island) (loc : Loc) (k : ℕ)
    (hpexp : ∀ x, 0 < pexp x) (hu : ∀ i, 0 ≤ u i ∧ u i < 1)
    (hno : NoLife isl) :
    NoLife (carn_migration pexp sp u isl loc k).1 := by
  by_cases hhab : animals_can_live_here (getCell isl loc) = true
  · have hno' := noLife_carnMigLoop pexp sp u loc hpexp hu
      (getCell isl loc).carn isl [] k hno
    apply noLife_setCell _ _ _ hno'
    left
    rw [hab_set_carn, carnMigLoop_getCell_loc]
    exact hhab
  · have hemp := noLife_getCell isl hno loc (Bool.not_eq_true _ ▸ hhab)
    unfold carn_migration
    rw [show (getCell isl loc).carn = [] from hemp.2.1]
    simp only [carnMigLoop]
    exact noLife_setCell _ _ _ hno
      (Or.inr ⟨hemp.1, rfl, hemp.2.2.1, hemp.2.2.2⟩)

theorem noLife_commit_cell (isl : Island) (loc : Loc) (hno : NoLife isl) :
    NoLife (modifyCell isl loc add_immigrants_to_pop) := by
  apply noLife_setCell _ _ _ hno
  by_cases hhab : animals_can_live_here (getCell isl loc) = true
  · left
    rw [hab_add_immigrants]
    exact hhab
  · right
    have hemp := noLife_getCell isl hno loc (Bool.not_eq_true _ ▸ hhab)
    refine ⟨?_, ?_, rfl, rfl⟩
    · show (getCell isl loc).herb ++ (getCell isl loc).herbImm = []
      rw [hemp.1, hemp.2.2.1]
      rfl
    · show (getCell isl loc).carn ++ (getCell isl loc).carnImm = []
      rw [hemp.2.1, hemp.2.2.2]
      rfl

theorem noLife_commitPass :
    ∀ (order : List Loc) (isl : Island), NoLife isl →
      NoLife (commitPass order isl) := by
  intro order
  induction order with
  | nil => intro isl hno; exact hno
  | cons l ls ih =>
    intro isl hno
    exact ih _ (noLife_commit_cell isl l hno)

theorem noLife_herbPass (pexp : ℚ → ℚ) (sp : SimP) (u : ℕ → ℚ)
    (hpexp : ∀ x, 0 < pexp x) (hu : ∀ i, 0 ≤ u i ∧ u i < 1) :
    ∀ (order : List Loc) (isl : Island) (k : ℕ), NoLife isl →
      NoLife (herbPass pexp sp u order isl k).1 := by
  intro order
  induction order with
  | nil => intro isl k hno; exact hno
  | cons l ls ih =>
    intro isl k hno
    exact ih _ _ (noLife_herb_migration pexp sp u isl l k hpexp hu hno)

theorem noLife_carnPass (pexp : ℚ → ℚ) (sp : SimP) (u : ℕ → ℚ)
    (hpexp : ∀ x, 0 < pexp x) (hu : ∀ i, 0 ≤ u i ∧ u i < 1) :
    ∀ (order : List Loc) (isl : Island) (k : ℕ), NoLife isl →
      NoLife (carnPass pexp sp u order isl k).1 := by
  intro order
  induction order with
  | nil => intro isl k hno; exact hno
  | cons l ls ih =>
    intro isl k hno
    exact ih _ _ (noLife_carn_migration pexp sp u isl l k hpexp hu hno)

theorem noLife_animals_migrate (pexp : ℚ → ℚ) (sp : SimP) (u : ℕ → ℚ)
    (order : List Loc) (isl : Island) (k : ℕ)
    (hpexp : ∀ x, 0 < pexp x) (hu : ∀ i, 0 ≤ u i ∧ u i < 1)
    (hno : NoLife isl) :
    NoLife (animals_migrate pexp sp u order isl k).1 := by
  apply noLife_commitPass
  apply noLife_carnPass pexp sp u hpexp hu
  apply noLife_commitPass
  exact noLife_herbPass pexp sp u hpexp hu order isl k hno

theorem noLife_annual_cycle (pexp : ℚ → ℚ) (sp : SimP) (pk : Animal → ℚ → ℚ)
    (u g : ℕ → ℚ) (order : List Loc) (isl : Island) (k : ℕ)
    (hpexp : ∀ x, 0 < pexp x) (hu : ∀ i, 0 ≤ u i ∧ u i < 1)
    (hno : NoLife isl) :
    NoLife (annual_cycle pexp sp pk u g order isl k).1 := by
  apply noLife_cellsFold _ _
    (noLife_mapCells _ _
      (noLife_mapCells _ _
        (noLife_animals_migrate pexp sp u order _ _ hpexp hu
          (noLife_cellsFold _ _
            (noLife_cellsFold _ _
              (noLife_mapCells _ _
                (noLife_mapCells _ _ hno (food_growth_kind sp)
                  (food_growth_empty sp))
                (herb_eating_kind pexp sp) (herb_eating_empty pexp sp))
              (carn_eating_kind pexp sp pk u) (carn_eating_empty pexp sp pk u)
              k)
            (animal_birth_kind pexp sp u g) (animal_birth_empty pexp sp u g)
            _))
        animal_aging_kind animal_aging_empty)
      (animal_weight_kind sp) (animal_weight_empty sp))
    (animal_death_kind pexp sp u) (animal_death_empty pexp sp u) _

theorem getD_map_of_lt {α β : Type} (f : α → β) (l : List α) (i : ℕ)
    (h : i < l.length) (d : β) (d' : α) :
    (l.map f).getD i d = f (l.getD i d') := by
  induction l generalizing i with
  | nil => simp at h
  | cons x t ih =>
    cases i with
    | zero => rfl
    | succ n => exact ih n (by simpa using h)

/-- C6: mountain and ocean cells never hold organisms.  (i) `add_population`
on them errors without touching the cell; (ii) their migration propensity
entry is `0`; (iii) the cumulative sampling never selects an entry with
probability `0`; (iv) the full annual cycle preserves the invariant that
every uninhabitable cell is empty, so no organism is ever staged into or
resident in a mountain or ocean cell of any reachable state. -/
theorem C6_uninhabitable_invariant (pexp : ℚ → ℚ) (sp : SimP)
    (pk : Animal → ℚ → ℚ) (u g : ℕ → ℚ) (order : List Loc) (isl : Island)
    (k : ℕ) (c : Cell) (pop : List PopEntry) (p : AnimalP) (s : Sp)
    (nbs : List Cell) (i : ℕ) (p0 p1 p2 p3 rnd : ℚ) :
    (c.kind = .mountain ∨ c.kind = .ocean →
      add_population pop c = (c, some "Animals can not live here")) ∧
    (i < nbs.length → animals_can_live_here (nbs.getD i oceanCell) = false →
      (propensity pexp p nbs
        (relative_abundance_of_fodder nbs p s)).getD i 0 = 0) ∧
    (0 ≤ p0 → 0 ≤ p1 → 0 ≤ p2 → 0 ≤ p3 → p0 + p1 + p2 + p3 = 1 →
      0 ≤ rnd → rnd < 1 →
      0 < [p0, p1, p2, p3].getD (animal_moves_to [p0, p1, p2, p3] rnd) 0) ∧
    ((∀ x, 0 < pexp x) → (∀ j, 0 ≤ u j ∧ u j < 1) → NoLife isl →
      NoLife (annual_cycle pexp sp pk u g order isl k).1) := by
  refine ⟨?_, ?_, ?_, ?_⟩
  · intro hck
    unfold add_population
    rcases hck with hck | hck <;> rw [hck]
  · intro hi hhab
    rw [propensity_eq_map,
      getD_map_of_lt _ nbs i hi 0 oceanCell,
      if_neg (by rw [hhab]; exact Bool.false_ne_true)]
  · intro h0 h1 h2 h3 hsum hr0 hr1
    exact animal_moves_to_sel_pos p0 p1 p2 p3 rnd h0 h1 h2 h3 hsum hr0 hr1
  · intro hpexp hu hno
    exact noLife_annual_cycle pexp sp pk u g order isl k hpexp hu hno

/-- A 3×3 island with an uninhabitable mountain centre next to a populated
jungle cell. -/
def islC6 : Island :=
  [[oceanCell, oceanCell, oceanCell, oceanCell],
   [oceanCell, ⟨.jungle, [⟨20, 2⟩], [⟨30, 4⟩], [], [], 800⟩,
    ⟨.mountain, [], [], [], [], 0⟩, oceanCell],
   [oceanCell, oceanCell, oceanCell, oceanCell]]

/-- Witness for C6 at concrete inputs. -/
theorem C6_uninhabitable_invariant_witness :
    add_population [⟨"Herbivore", 5, 20⟩] ⟨.mountain, [], [], [], [], 0⟩ =
      (⟨.mountain, [], [], [], [], 0⟩, some "Animals can not live here") ∧
    (propensity pexpConst1 herbDefault [oceanCell, jCell 800, oceanCell, oceanCell]
      (relative_abundance_of_fodder [oceanCell, jCell 800, oceanCell, oceanCell]
        herbDefault .herbivore)).getD 0 0 = 0 ∧
    0 < [(0 : ℚ), 1, 0, 0].getD (animal_moves_to [(0 : ℚ), 1, 0, 0] 0) 0 ∧
    NoLife (annual_cycle pexpConst1 simDefault
      (Carnivore.prob_kill pexpConst1 carnDefault 10) uZero gConst
      [(1, 1), (1, 2)] islC6 0).1 := by
  obtain ⟨w1, w2, w3, w4⟩ := C6_uninhabitable_invariant pexpConst1 simDefault
    (Carnivore.prob_kill pexpConst1 carnDefault 10) uZero gConst
    [(1, 1), (1, 2)] islC6 0 ⟨.mountain, [], [], [], [], 0⟩
    [⟨"Herbivore", 5, 20⟩] herbDefault .herbivore
    [oceanCell, jCell 800, oceanCell, oceanCell] 0 0 1 0 0 0
  refine ⟨w1 (Or.inl rfl), w2 (by norm_num) (by rfl), ?_, ?_⟩
  · exact w3 (le_refl 0) (by norm_num) (le_refl 0) (le_refl 0) (by norm_num)
      (le_refl 0) (by norm_num)
  · exact w4 (fun x => by norm_num [pexpConst1])
      (fun j => ⟨le_refl 0, by norm_num [uZero]⟩) (by decide)

/-! ### Immigrant staging lists across the annual cycle -/

/-- Every cell's staging lists are empty (the state at cycle boundaries). -/
def ImmClean (isl : Island) : Prop :=
  ∀ row ∈ isl, ∀ c ∈ row, c.herbImm = [] ∧ c.carnImm = []

instance (isl : Island) : Decidable (ImmClean isl) := by
  unfold ImmClean
  infer_instance

/-- Mid-pass invariant: staging lists are empty outside the visitation list
(migration only stages into habitable, hence visited, cells). -/
def ImmCleanOut (order : List Loc) (isl : Island) : Prop :=
  ∀ loc : Loc, loc ∉ order →
    (getCell isl loc).herbImm = [] ∧ (getCell isl loc).carnImm = []

theorem getD_mem_or_eq {α : Type} :
    ∀ (l : List α) (i : ℕ) (d : α), l.getD i d ∈ l ∨ l.getD i d = d
  | [], _, _ => Or.inr rfl
  | a :: t, 0, _ => Or.inl (List.mem_cons_self a t)
  | a :: t, i + 1, d =>
    (getD_mem_or_eq t i d).elim
      (fun h => Or.inl (List.mem_cons_of_mem a h)) Or.inr

theorem getD_of_lt {α : Type} :
    ∀ (l : List α) (i : ℕ) (d : α) (h : i < l.length),
      l.getD i d = l.get ⟨i, h⟩
  | _ :: _, 0, _, _ => rfl
  | _ :: t, i + 1, d, h => getD_of_lt t i d (Nat.lt_of_succ_lt_succ h)

theorem immCleanG_of_immClean (isl : Island) (h : ImmClean isl) (loc : Loc) :
    (getCell isl loc).herbImm = [] ∧ (getCell isl loc).carnImm = [] := by
  unfold getCell
  split
  · exact ⟨rfl, rfl⟩
  rcases getD_mem_or_eq isl loc.1.toNat [] with hrow | hrow
  · rcases getD_mem_or_eq (isl.getD loc.1.toNat []) loc.2.toNat oceanCell with
      hc | hc
    · exact h _ hrow _ hc
    · rw [hc]
      exact ⟨rfl, rfl⟩
  · rw [hrow]
    exact ⟨rfl, rfl⟩

theorem immClean_of_immCleanG (isl : Island)
    (h : ∀ loc : Loc,
      (getCell isl loc).herbImm = [] ∧ (getCell isl loc).carnImm = []) :
    ImmClean isl := by
  intro row hrow c hc
  obtain ⟨i, hi⟩ := List.mem_iff_get.mp hrow
  obtain ⟨j, hj⟩ := List.mem_iff_get.mp hc
  have hg : getCell isl ((i.1 : ℤ), (j.1 : ℤ)) = c := by
    unfold getCell
    rw [if_neg (by omega)]
    simp only [Int.toNat_natCast]
    rw [getD_of_lt isl i.1 [] i.2, hi, getD_of_lt row j.1 oceanCell j.2, hj]
  have := h ((i.1 : ℤ), (j.1 : ℤ))
  rw [hg] at this
  exact this

/-- A projection that every per-cell step preserves is preserved at every
coordinate through a `mapCells` phase. -/
theorem mapCells_proj {α : Type} (φ : Cell → α) (f : Cell → Cell)
    (hφ : ∀ c, φ (f c) = φ c) (isl : Island) (loc : Loc) :
    φ (getCell (mapCells f isl) loc) = φ (getCell isl loc) := by
  unfold getCell mapCells
  by_cases hneg : loc.1 < 0 ∨ loc.2 < 0
  · rw [if_pos hneg, if_pos hneg]
  · rw [if_neg hneg, if_neg hneg]
    by_cases h1 : loc.1.toNat < isl.length
    · rw [getD_map_of_lt _ isl loc.1.toNat h1 [] []]
      by_cases h2 : loc.2.toNat < (isl.getD loc.1.toNat []).length
      · rw [getD_map_of_lt f _ loc.2.toNat h2 oceanCell oceanCell]
        exact hφ _
      · rw [List.getD_eq_default _ _ (by simpa using Nat.le_of_not_lt h2),
          List.getD_eq_default _ _ (Nat.le_of_not_lt h2)]
    · rw [List.getD_eq_default (isl.map fun row => row.map f) ([] : List Cell)
          (by simpa using Nat.le_of_not_lt h1),
        List.getD_eq_default isl ([] : List Cell) (Nat.le_of_not_lt h1)]

theorem rowFold_proj {α : Type} (φ : Cell → α) (f : Cell → ℕ → Cell × ℕ)
    (hφ : ∀ c k, φ (f c k).1 = φ c) :
    ∀ (row : List Cell) (k j : ℕ),
      φ ((rowFold f row k).1.getD j oceanCell) = φ (row.getD j oceanCell) := by
  intro row
  induction row with
  | nil => intro k j; rfl
  | cons c cs ih =>
    intro k j
    cases j with
    | zero => exact hφ c k
    | succ n => exact ih (f c k).2 n

theorem cellsFold_proj_rows {α : Type} (φ : Cell → α)
    (f : Cell → ℕ → Cell × ℕ) (hφ : ∀ c k, φ (f c k).1 = φ c) :
    ∀ (isl : Island) (k i j : ℕ),
      φ (((cellsFold f isl k).1.getD i []).getD j oceanCell) =
        φ ((isl.getD i []).getD j oceanCell) := by
  intro isl
  induction isl with
  | nil => intro k i j; rfl
  | cons row rows ih =>
    intro k i j
    cases i with
    | zero => exact rowFold_proj φ f hφ row k j
    | succ n => exact ih (rowFold f row k).2 n j

theorem cellsFold_proj {α : Type} (φ : Cell → α) (f : Cell → ℕ → Cell × ℕ)
    (hφ : ∀ c k, φ (f c k).1 = φ c) (isl : Island) (k : ℕ) (loc : Loc) :
    φ (getCell (cellsFold f isl k).1 loc) = φ (getCell isl loc) := by
  unfold getCell
  by_cases hneg : loc.1 < 0 ∨ loc.2 < 0
  · rw [if_pos hneg, if_pos hneg]
  · rw [if_neg hneg, if_neg hneg]
    exact cellsFold_proj_rows φ f hφ isl k loc.1.toNat loc.2.toNat

/-- The commit step preserves any projection it does not write (the kind). -/
theorem commitPass_proj {α : Type} (φ : Cell → α)
    (hφ : ∀ c, φ (add_immigrants_to_pop c) = φ c) :
    ∀ (order : List Loc) (isl : Island) (loc : Loc),
      φ (getCell (commitPass order isl) loc) = φ (getCell isl loc) := by
  intro order
  induction order with
  | nil => intro isl loc; rfl
  | cons l ls ih =>
    intro isl loc
    exact (ih _ loc).trans (getCell_setCell_proj φ isl l _ (hφ _) loc)

theorem food_growth_imm (sp : SimP) (c : Cell) :
    (food_growth sp c).herbImm = c.herbImm ∧
      (food_growth sp c).carnImm = c.carnImm := by
  unfold food_growth
  split <;> exact ⟨rfl, rfl⟩

theorem herb_eating_imm (pexp : ℚ → ℚ) (sp : SimP) (c : Cell) :
    (herb_eating pexp sp c).herbImm = c.herbImm ∧
      (herb_eating pexp sp c).carnImm = c.carnImm := ⟨rfl, rfl⟩

theorem carn_eating_imm (pexp : ℚ → ℚ) (sp : SimP) (pk : Animal → ℚ → ℚ)
    (u : ℕ → ℚ) (c : Cell) (k : ℕ) :
    (carn_eating pexp sp pk u c k).1.herbImm = c.herbImm ∧
      (carn_eating pexp sp pk u c k).1.carnImm = c.carnImm := ⟨rfl, rfl⟩

theorem animal_birth_imm (pexp : ℚ → ℚ) (sp : SimP) (u g : ℕ → ℚ) (c : Cell)
    (k : ℕ) :
    (animal_birth pexp sp u g c k).1.herbImm = c.herbImm ∧
      (animal_birth pexp sp u g c k).1.carnImm = c.carnImm := ⟨rfl, rfl⟩

theorem animal_aging_imm (c : Cell) :
    (animal_aging c).herbImm = c.herbImm ∧
      (animal_aging c).carnImm = c.carnImm := ⟨rfl, rfl⟩

theorem animal_weight_imm (sp : SimP) (c : Cell) :
    (animal_weight_change sp c).herbImm = c.herbImm ∧
      (animal_weight_change sp c).carnImm = c.carnImm := ⟨rfl, rfl⟩

theorem animal_death_imm (pexp : ℚ → ℚ) (sp : SimP) (u : ℕ → ℚ) (c : Cell)
    (k : ℕ) :
    (animal_death pexp sp u c k).1.herbImm = c.herbImm ∧
      (animal_death pexp sp u c k).1.carnImm = c.carnImm := ⟨rfl, rfl⟩

/-- Herbivore staging pass, one cell: kinds stay those of the base island and
staging stays confined to the visitation list, because a staged destination is
habitable (`sel_entry_habitable`) and every habitable cell is visited. -/
theorem herbMigLoop_c10 (pexp : ℚ → ℚ) (sp : SimP) (u : ℕ → ℚ) (loc : Loc)
    (order : List Loc) (isl0 : Island)
    (hpexp : ∀ x, 0 < pexp x) (hu : ∀ i, 0 ≤ u i ∧ u i < 1)
    (horder : ∀ l : Loc, animals_can_live_here (getCell isl0 l) = true →
      l ∈ order) :
    ∀ (hs : List Animal) (isl : Island) (rem : List Animal) (k : ℕ),
      (∀ l, (getCell isl l).kind = (getCell isl0 l).kind) →
      ImmCleanOut order isl →
      (∀ l, (getCell (herbMigLoop pexp sp u loc hs isl rem k).1 l).kind =
        (getCell isl0 l).kind) ∧
      ImmCleanOut order (herbMigLoop pexp sp u loc hs isl rem k).1 := by
  intro hs
  induction hs with
  | nil => intro isl rem k hk hout; exact ⟨hk, hout⟩
  | cons h t ih =>
    intro isl rem k hk hout
    by_cases h1 : u k < prob_migration pexp sp.herbP h
    · by_cases h2 : (prob_move pexp sp.herbP
          ((neighbour_locations loc).map (getCell isl)) .herbivore).sum = 0
      · rw [herbMigLoop_cons_stay2 pexp sp u loc h t isl rem k h1 h2]
        exact ih isl (rem ++ [h]) (k + 1) hk hout
      · rw [herbMigLoop_cons_move pexp sp u loc h t isl rem k h1 h2]
        simp only [modifyCell]
        refine ih _ rem (k + 2) ?_ ?_
        · intro l
          exact (getCell_setCell_proj Cell.kind _ _ _ (by rfl) l).trans (hk l)
        · intro l hl
          have hsel := sel_entry_habitable pexp sp.herbP .herbivore
            (getCell isl (loc.1 - 1, loc.2)) (getCell isl (loc.1, loc.2 + 1))
            (getCell isl (loc.1 + 1, loc.2)) (getCell isl (loc.1, loc.2 - 1))
            (u (k + 1)) hpexp (hu (k + 1)).1 (hu (k + 1)).2 h2
          have hgd := getCell_map_neighbour isl loc
            (animal_moves_to (prob_move pexp sp.herbP
              ((neighbour_locations loc).map (getCell isl)) .herbivore)
              (u (k + 1)))
            (animal_moves_to_le_three _ _)
          have hhabnb : animals_can_live_here (getCell isl
              ((neighbour_locations loc).getD
                (animal_moves_to (prob_move pexp sp.herbP
                  ((neighbour_locations loc).map (getCell isl)) .herbivore)
                  (u (k + 1))) loc)) = true := by
            rw [hgd]
            exact hsel
          have hnb : ((neighbour_locations loc).getD
              (animal_moves_to (prob_move pexp sp.herbP
                ((neighbour_locations loc).map (getCell isl)) .herbivore)
                (u (k + 1))) loc) ∈ order :=
            horder _ ((hab_of_kind_eq _ _ (hk _)).symm.trans hhabnb)
          have hne : l ≠ ((neighbour_locations loc).getD
              (animal_moves_to (prob_move pexp sp.herbP
                ((neighbour_locations loc).map (getCell isl)) .herbivore)
                (u (k + 1))) loc) :=
            fun he => hl (he ▸ hnb)
          rw [getCell_setCell_ne isl _ l _ hne]
          exact hout l hl
    · rw [herbMigLoop_cons_stay1 pexp sp u loc h t isl rem k h1]
      exact ih isl (rem ++ [h]) (k + 1) hk hout

/-- Carnivore counterpart of `herbMigLoop_c10`. -/
theorem carnMigLoop_c10 (pexp : ℚ → ℚ) (sp : SimP) (u : ℕ → ℚ) (loc : Loc)
    (order : List Loc) (isl0 : Island)
    (hpexp : ∀ x, 0 < pexp x) (hu : ∀ i, 0 ≤ u i ∧ u i < 1)
    (horder : ∀ l : Loc, animals_can_live_here (getCell isl0 l) = true →
      l ∈ order) :
    ∀ (as_ : List Animal) (isl : Island) (rem : List Animal) (k : ℕ),
      (∀ l, (getCell isl l).kind = (getCell isl0 l).kind) →
      ImmCleanOut order isl →
      (∀ l, (getCell (carnMigLoop pexp sp u loc as_ isl rem k).1 l).kind =
        (getCell isl0 l).kind) ∧
      ImmCleanOut order (carnMigLoop pexp sp u loc as_ isl rem k).1 := by
  intro as_
  induction as_ with
  | nil => intro isl rem k hk hout; exact ⟨hk, hout⟩
  | cons a t ih =>
    intro isl rem k hk hout
    by_cases h1 : u k < prob_migration pexp sp.carnP a
    · by_cases h2 : (prob_move pexp sp.carnP
          ((neighbour_locations loc).map (getCell isl)) .carnivore).sum = 0
      · rw [carnMigLoop_cons_stay2 pexp sp u loc a t isl rem k h1 h2]
        exact ih isl (rem ++ [a]) (k + 1) hk hout
      · rw [carnMigLoop_cons_move pexp sp u loc a t isl rem k h1 h2]
        simp only [modifyCell]
        refine ih _ rem (k + 2) ?_ ?_
        · intro l
          exact (getCell_setCell_proj Cell.kind _ _ _ (by rfl) l).trans (hk l)
        · intro l hl
          have hsel := sel_entry_habitable pexp sp.carnP .carnivore
            (getCell isl (loc.1 - 1, loc.2)) (getCell isl (loc.1, loc.2 + 1))
            (getCell isl (loc.1 + 1, loc.2)) (getCell isl (loc.1, loc.2 - 1))
            (u (k + 1)) hpexp (hu (k + 1)).1 (hu (k + 1)).2 h2
          have hgd := getCell_map_neighbour isl loc
            (animal_moves_to (prob_move pexp sp.carnP
              ((neighbour_locations loc).map (getCell isl)) .carnivore)
              (u (k + 1)))
            (animal_moves_to_le_three _ _)
          have hhabnb : animals_can_live_here (getCell isl
              ((neighbour_locations loc).getD
                (animal_moves_to (prob_move pexp sp.carnP
                  ((neighbour_locations loc).map (getCell isl)) .carnivore)
                  (u (k + 1))) loc)) = true := by
            rw [hgd]
            exact hsel
          have hnb : ((neighbour_locations loc).getD
              (animal_moves_to (prob_move pexp sp.carnP
                ((neighbour_locations loc).map (getCell isl)) .carnivore)
                (u (k + 1))) loc) ∈ order :=
            horder _ ((hab_of_kind_eq _ _ (hk _)).symm.trans hhabnb)
          have hne : l ≠ ((neighbour_locations loc).getD
              (animal_moves_to (prob_move pexp sp.carnP
                ((neighbour_locations loc).map (getCell isl)) .carnivore)
                (u (k + 1))) loc) :=
            fun he => hl (he ▸ hnb)
          rw [getCell_setCell_ne isl _ l _ hne]
          exact hout l hl
    · rw [carnMigLoop_cons_stay1 pexp sp u loc a t isl rem k h1]
      exact ih isl (rem ++ [a]) (k + 1) hk hout

theorem herb_migration_c10 (pexp : ℚ → ℚ) (sp : SimP) (u : ℕ → ℚ)
    (order : List Loc) (isl0 : Island)
    (hpexp : ∀ x, 0 < pexp x) (hu : ∀ i, 0 ≤ u i ∧ u i < 1)
    (horder : ∀ l : Loc, animals_can_live_here (getCell isl0 l) = true →
      l ∈ order)
    (isl : Island) (loc : Loc) (k : ℕ)
    (hk : ∀ l, (getCell isl l).kind = (getCell isl0 l).kind)
    (hout : ImmCleanOut order isl) :
    (∀ l, (getCell (herb_migration pexp sp u isl loc k).1 l).kind =
      (getCell isl0 l).kind) ∧
    ImmCleanOut order (herb_migration pexp sp u isl loc k).1 := by
  obtain ⟨hk', hout'⟩ := herbMigLoop_c10 pexp sp u loc order isl0 hpexp hu
    horder (getCell isl loc).herb isl [] k hk hout
  constructor
  · intro l
    exact (getCell_setCell_proj Cell.kind _ _ _ (by rfl) l).trans (hk' l)
  · intro l hl
    exact ⟨(getCell_setCell_proj Cell.herbImm _ _ _ (by rfl) l).trans
        (hout' l hl).1,
      (getCell_setCell_proj Cell.carnImm _ _ _ (by rfl) l).trans (hout' l hl).2⟩

theorem carn_migration_c10 (pexp : ℚ → ℚ) (sp : SimP) (u : ℕ → ℚ)
    (order : List Loc) (isl0 : Island)
    (hpexp : ∀ x, 0 < pexp x) (hu : ∀ i, 0 ≤ u i ∧ u i < 1)
    (horder : ∀ l : Loc, animals_can_live_here (getCell isl0 l) = true →
      l ∈ order)
    (isl : Island) (loc : Loc) (k : ℕ)
    (hk : ∀ l, (getCell isl l).kind = (getCell isl0 l).kind)
    (hout : ImmCleanOut order isl) :
    (∀ l, (getCell (carn_migration pexp sp u isl loc k).1 l).kind =
      (getCell isl0 l).kind) ∧
    ImmCleanOut order (carn_migration pexp sp u isl loc k).1 := by
  obtain ⟨hk', hout'⟩ := carnMigLoop_c10 pexp sp u loc order isl0 hpexp hu
    horder (getCell isl loc).carn isl [] k hk hout
  constructor
  · intro l
    exact (getCell_setCell_proj Cell.kind _ _ _ (by rfl) l).trans (hk' l)
  · intro l hl
    exact ⟨(getCell_setCell_proj Cell.herbImm _ _ _ (by rfl) l).trans
        (hout' l hl).1,
      (getCell_setCell_proj Cell.carnImm _ _ _ (by rfl) l).trans (hout' l hl).2⟩

theorem herbPass_c10 (pexp : ℚ → ℚ) (sp : SimP) (u : ℕ → ℚ)
    (order : List Loc) (isl0 : Island)
    (hpexp : ∀ x, 0 < pexp x) (hu : ∀ i, 0 ≤ u i ∧ u i < 1)
    (horder : ∀ l : Loc, animals_can_live_here (getCell isl0 l) = true →
      l ∈ order) :
    ∀ (ls : List Loc) (isl : Island) (k : ℕ),
      (∀ l, (getCell isl l).kind = (getCell isl0 l).kind) →
      ImmCleanOut order isl →
      (∀ l, (getCell (herbPass pexp sp u ls isl k).1 l).kind =
        (getCell isl0 l).kind) ∧
      ImmCleanOut order (herbPass pexp sp u ls isl k).1 := by
  intro ls
  induction ls with
  | nil => intro isl k hk hout; exact ⟨hk, hout⟩
  | cons l rest ih =>
    intro isl k hk hout
    obtain ⟨hk', hout'⟩ := herb_migration_c10 pexp sp u order isl0 hpexp hu
      horder isl l k hk hout
    exact ih _ _ hk' hout'

theorem carnPass_c10 (pexp : ℚ → ℚ) (sp : SimP) (u : ℕ → ℚ)
    (order : List Loc) (isl0 : Island)
    (hpexp : ∀ x, 0 < pexp x) (hu : ∀ i, 0 ≤ u i ∧ u i < 1)
    (horder : ∀ l : Loc, animals_can_live_here (getCell isl0 l) = true →
      l ∈ order) :
    ∀ (ls : List Loc) (isl : Island) (k : ℕ),
      (∀ l, (getCell isl l).kind = (getCell isl0 l).kind) →
      ImmCleanOut order isl →
      (∀ l, (getCell (carnPass pexp sp u ls isl k).1 l).kind =
        (getCell isl0 l).kind) ∧
      ImmCleanOut order (carnPass pexp sp u ls isl k).1 := by
  intro ls
  induction ls with
  | nil => intro isl k hk hout; exact ⟨hk, hout⟩
  | cons l rest ih =>
    intro isl k hk hout
    obtain ⟨hk', hout'⟩ := carn_migration_c10 pexp sp u order isl0 hpexp hu
      horder isl l k hk hout
    exact ih _ _ hk' hout'

/-- Committing over the visitation list empties every staging list, given
that staging was confined to the list. -/
theorem commitPass_immCleanG :
    ∀ (order : List Loc) (isl : Island), ImmCleanOut order isl →
      ∀ loc : Loc, (getCell (commitPass order isl) loc).herbImm = [] ∧
        (getCell (commitPass order isl) loc).carnImm = [] := by
  intro order
  induction order with
  | nil => intro isl h loc; exact h loc (List.not_mem_nil loc)
  | cons l ls ih =>
    intro isl h loc
    apply ih
    intro loc' hl'
    rw [modifyCell, getCell_setCell]
    split
    · exact ⟨rfl, rfl⟩
    · rename_i hc
      by_cases hll : loc' = l
      · subst hll
        rw [getCell_oob isl loc' (fun hinb => hc ⟨rfl, hinb⟩)]
        exact ⟨rfl, rfl⟩
      · refine h loc' ?_
        intro hmem
        rcases List.mem_cons.mp hmem with h1 | h1
        · exact hll h1
        · exact hl' h1

theorem animals_migrate_c10 (pexp : ℚ → ℚ) (sp : SimP) (u : ℕ → ℚ)
    (order : List Loc) (isl0 isl : Island) (k : ℕ)
    (hpexp : ∀ x, 0 < pexp x) (hu : ∀ i, 0 ≤ u i ∧ u i < 1)
    (horder : ∀ l : Loc, animals_can_live_here (getCell isl0 l) = true →
      l ∈ order)
    (hk : ∀ l, (getCell isl l).kind = (getCell isl0 l).kind)
    (hclean : ∀ l : Loc,
      (getCell isl l).herbImm = [] ∧ (getCell isl l).carnImm = []) :
    ∀ l : Loc,
      (getCell (animals_migrate pexp sp u order isl k).1 l).herbImm = [] ∧
      (getCell (animals_migrate pexp sp u order isl k).1 l).carnImm = [] := by
  obtain ⟨hk1, hout1⟩ := herbPass_c10 pexp sp u order isl0 hpexp hu horder
    order isl k hk (fun l _ => hclean l)
  have hg2 := commitPass_immCleanG order _ hout1
  have hk2 : ∀ l, (getCell (commitPass order
      (herbPass pexp sp u order isl k).1) l).kind = (getCell isl0 l).kind :=
    fun l => (commitPass_proj Cell.kind (fun _ => rfl) order _ l).trans (hk1 l)
  obtain ⟨hk3, hout3⟩ := carnPass_c10 pexp sp u order isl0 hpexp hu horder
    order (commitPass order (herbPass pexp sp u order isl k).1)
    (herbPass pexp sp u order isl k).2 hk2 (fun l _ => hg2 l)
  exact commitPass_immCleanG order _ hout3

/-- The bounded (decidable) visitation-coverage hypothesis implies coverage of
every habitable coordinate. -/
theorem habInOrder_getCell (order : List Loc) (isl : Island)
    (h : ∀ i : ℕ, i < isl.length → ∀ j : ℕ, j < (isl.getD i []).length →
      (animals_can_live_here ((isl.getD i []).getD j oceanCell) = false ∨
        ((i : ℤ), (j : ℤ)) ∈ order))
    (loc : Loc) (hhab : animals_can_live_here (getCell isl loc) = true) :
    loc ∈ order := by
  unfold getCell at hhab
  by_cases hneg : loc.1 < 0 ∨ loc.2 < 0
  · rw [if_pos hneg] at hhab
    exact absurd hhab (by decide)
  rw [if_neg hneg] at hhab
  push_neg at hneg
  by_cases h1 : loc.1.toNat < isl.length
  · by_cases h2 : loc.2.toNat < (isl.getD loc.1.toNat []).length
    · rcases h loc.1.toNat h1 loc.2.toNat h2 with hf | hmem
      · rw [hhab] at hf
        exact absurd hf (by decide)
      · have hl : ((loc.1.toNat : ℤ), (loc.2.toNat : ℤ)) = loc := by
          rw [Int.toNat_of_nonneg hneg.1, Int.toNat_of_nonneg hneg.2]
        exact hl ▸ hmem
    · rw [List.getD_eq_default _ _ (Nat.le_of_not_lt h2)] at hhab
      exact absurd hhab (by decide)
  · rw [List.getD_eq_default _ _ (Nat.le_of_not_lt h1)] at hhab
    have he : (([] : List Cell)).getD loc.2.toNat oceanCell = oceanCell := rfl
    rw [he] at hhab
    exact absurd hhab (by decide)

/-- Every staging list is empty again after a full annual cycle, provided it
was empty at the start of the year and the visitation list covers every
habitable cell (which `randomize_cell_structure` guarantees on an
ocean-bordered map: it lists all interior cells). -/
theorem annual_cycle_imm (pexp : ℚ → ℚ) (sp : SimP) (pk : Animal → ℚ → ℚ)
    (u g : ℕ → ℚ) (order : List Loc) (isl : Island) (k : ℕ)
    (hpexp : ∀ x, 0 < pexp x) (hu : ∀ i, 0 ≤ u i ∧ u i < 1)
    (horder : ∀ l : Loc, animals_can_live_here (getCell isl l) = true →
      l ∈ order)
    (hclean : ∀ l : Loc,
      (getCell isl l).herbImm = [] ∧ (getCell isl l).carnImm = []) :
    ∀ l : Loc,
      (getCell (annual_cycle pexp sp pk u g order isl k).1 l).herbImm = [] ∧
      (getCell (annual_cycle pexp sp pk u g order isl k).1 l).carnImm = [] := by
  set i2 : Island :=
    mapCells (herb_eating pexp sp) (mapCells (food_growth sp) isl) with hi2
  set r3 := cellsFold (carn_eating pexp sp pk u) i2 k with hr3
  set r4 := cellsFold (animal_birth pexp sp u g) r3.1 r3.2 with hr4
  have hkpre : ∀ l, (getCell r4.1 l).kind = (getCell isl l).kind := by
    intro l
    rw [hr4, hr3, hi2]
    exact (cellsFold_proj Cell.kind _
        (fun c k' => animal_birth_kind pexp sp u g c k') _ _ l).trans
      ((cellsFold_proj Cell.kind _
          (fun c k' => carn_eating_kind pexp sp pk u c k') _ _ l).trans
        ((mapCells_proj Cell.kind _ (fun c => herb_eating_kind pexp sp c)
            _ l).trans
          (mapCells_proj Cell.kind _ (fun c => food_growth_kind sp c) _ l)))
  have hcleanpre : ∀ l,
      (getCell r4.1 l).herbImm = [] ∧ (getCell r4.1 l).carnImm = [] := by
    intro l
    rw [hr4, hr3, hi2]
    constructor
    · exact (cellsFold_proj Cell.herbImm _
          (fun c k' => (animal_birth_imm pexp sp u g c k').1) _ _ l).trans
        ((cellsFold_proj Cell.herbImm _
            (fun c k' => (carn_eating_imm pexp sp pk u c k').1) _ _ l).trans
          ((mapCells_proj Cell.herbImm _
              (fun c => (herb_eating_imm pexp sp c).1) _ l).trans
            ((mapCells_proj Cell.herbImm _
                (fun c => (food_growth_imm sp c).1) _ l).trans (hclean l).1)))
    · exact (cellsFold_proj Cell.carnImm _
          (fun c k' => (animal_birth_imm pexp sp u g c k').2) _ _ l).trans
        ((cellsFold_proj Cell.carnImm _
            (fun c k' => (carn_eating_imm pexp sp pk u c k').2) _ _ l).trans
          ((mapCells_proj Cell.carnImm _
              (fun c => (herb_eating_imm pexp sp c).2) _ l).trans
            ((mapCells_proj Cell.carnImm _
                (fun c => (food_growth_imm sp c).2) _ l).trans (hclean l).2)))
  have hmig := animals_migrate_c10 pexp sp u order isl r4.1 r4.2 hpexp hu
    horder hkpre hcleanpre
  intro l
  constructor
  · exact (cellsFold_proj Cell.herbImm _
        (fun c k' => (animal_death_imm pexp sp u c k').1) _ _ l).trans
      ((mapCells_proj Cell.herbImm _
          (fun c => (animal_weight_imm sp c).1) _ l).trans
        ((mapCells_proj Cell.herbImm _ (fun c => (animal_aging_imm c).1)
            _ l).trans (hmig l).1))
  · exact (cellsFold_proj Cell.carnImm _
        (fun c k' => (animal_death_imm pexp sp u c k').2) _ _ l).trans
      ((mapCells_proj Cell.carnImm _
          (fun c => (animal_weight_imm sp c).2) _ l).trans
        ((mapCells_proj Cell.carnImm _ (fun c => (animal_aging_imm c).2)
            _ l).trans (hmig l).2))

theorem map_congr_mem {α β : Type} (f g : α → β) :
    ∀ (l : List α), (∀ x ∈ l, f x = g x) → l.map f = l.map g
  | [], _ => rfl
  | a :: t, h => by
    rw [List.map_cons, List.map_cons, h a (List.mem_cons_self a t),
      map_congr_mem f g t (fun x hx => h x (List.mem_cons_of_mem a hx))]

theorem totalBy_congr (cnt1 cnt2 : Cell → ℕ) (isl : Island)
    (h : ∀ row ∈ isl, ∀ c ∈ row, cnt1 c = cnt2 c) :
    totalBy cnt1 isl = totalBy cnt2 isl := by
  unfold totalBy
  exact congrArg List.sum (map_congr_mem _ _ isl (fun row hrow =>
    congrArg List.sum (map_congr_mem cnt1 cnt2 row (h row hrow))))

/-- C10: after `annual_cycle` every cell's staging lists are empty again
(each species' staged immigrants are committed inside the migration phase and
no later phase stages any), so both the per-cell `total_num_animals` readings
and the island-wide `number_of_animals` totals at cycle boundaries count only
resident organisms, even though `total_num_animals` also counts staged
immigrants mid-migration.  The visitation-coverage hypothesis is what
`randomize_cell_structure` guarantees: every habitable cell is in the
shuffled list (the border is all ocean). -/
theorem C10_staging_cleared (pexp : ℚ → ℚ) (sp : SimP) (pk : Animal → ℚ → ℚ)
    (u g : ℕ → ℚ) (order : List Loc) (isl : Island) (k : ℕ)
    (hpexp : ∀ x, 0 < pexp x) (hu : ∀ i, 0 ≤ u i ∧ u i < 1)
    (horder : ∀ i : ℕ, i < isl.length → ∀ j : ℕ, j < (isl.getD i []).length →
      (animals_can_live_here ((isl.getD i []).getD j oceanCell) = false ∨
        ((i : ℤ), (j : ℤ)) ∈ order))
    (hclean : ImmClean isl) :
    ImmClean (annual_cycle pexp sp pk u g order isl k).1 ∧
    (∀ loc : Loc,
      total_num_animals
          (getCell (annual_cycle pexp sp pk u g order isl k).1 loc)
          .herbivore =
        (getCell (annual_cycle pexp sp pk u g order isl k).1 loc).herb.length ∧
      total_num_animals
          (getCell (annual_cycle pexp sp pk u g order isl k).1 loc)
          .carnivore =
        (getCell (annual_cycle pexp sp pk u g order isl k).1 loc).carn.length) ∧
    number_of_animals (annual_cycle pexp sp pk u g order isl k).1 =
      (totalBy (fun c => c.herb.length)
        (annual_cycle pexp sp pk u g order isl k).1,
       totalBy (fun c => c.carn.length)
        (annual_cycle pexp sp pk u g order isl k).1) := by
  have hG := annual_cycle_imm pexp sp pk u g order isl k hpexp hu
    (habInOrder_getCell order isl horder)
    (immCleanG_of_immClean isl hclean)
  have hM : ImmClean (annual_cycle pexp sp pk u g order isl k).1 :=
    immClean_of_immCleanG _ hG
  refine ⟨hM, ?_, ?_⟩
  · intro loc
    constructor
    · show (getCell (annual_cycle pexp sp pk u g order isl k).1 loc).herb.length
          + (getCell (annual_cycle pexp sp pk u g order isl
            k).1 loc).herbImm.length = _
      rw [(hG loc).1, List.length_nil, Nat.add_zero]
    · show (getCell (annual_cycle pexp sp pk u g order isl k).1 loc).carn.length
          + (getCell (annual_cycle pexp sp pk u g order isl
            k).1 loc).carnImm.length = _
      rw [(hG loc).2, List.length_nil, Nat.add_zero]
  · have e1 : totalHerb (annual_cycle pexp sp pk u g order isl k).1 =
        totalBy (fun c => c.herb.length)
          (annual_cycle pexp sp pk u g order isl k).1 := by
      rw [totalHerb_eq_totalBy]
      refine totalBy_congr _ _ _ (fun row hrow c hc => ?_)
      show c.herb.length + c.herbImm.length = c.herb.length
      rw [(hM row hrow c hc).1, List.length_nil, Nat.add_zero]
    have e2 : totalCarn (annual_cycle pexp sp pk u g order isl k).1 =
        totalBy (fun c => c.carn.length)
          (annual_cycle pexp sp pk u g order isl k).1 := by
      rw [totalCarn_eq_totalBy]
      refine totalBy_congr _ _ _ (fun row hrow c hc => ?_)
      show c.carn.length + c.carnImm.length = c.carn.length
      rw [(hM row hrow c hc).2, List.length_nil, Nat.add_zero]
    show (totalHerb _, totalCarn _) = _
    rw [e1, e2]

/-- Witness for C10 at concrete inputs. -/
theorem C10_staging_cleared_witness :
    ImmClean (annual_cycle pexpConst1 simDefault
      (Carnivore.prob_kill pexpConst1 carnDefault 10) uZero gConst
      [(1, 1)] islC6 0).1 ∧
    number_of_animals (annual_cycle pexpConst1 simDefault
      (Carnivore.prob_kill pexpConst1 carnDefault 10) uZero gConst
      [(1, 1)] islC6 0).1 =
      (totalBy (fun c => c.herb.length) (annual_cycle pexpConst1 simDefault
        (Carnivore.prob_kill pexpConst1 carnDefault 10) uZero gConst
        [(1, 1)] islC6 0).1,
       totalBy (fun c => c.carn.length) (annual_cycle pexpConst1 simDefault
        (Carnivore.prob_kill pexpConst1 carnDefault 10) uZero gConst
        [(1, 1)] islC6 0).1) := by
  obtain ⟨w1, _w2, w3⟩ := C10_staging_cleared pexpConst1 simDefault
    (Carnivore.prob_kill pexpConst1 carnDefault 10) uZero gConst
    [(1, 1)] islC6 0
    (fun x => by norm_num [pexpConst1])
    (fun j => ⟨le_refl 0, by norm_num [uZero]⟩)
    (by decide) (by decide)
  exact ⟨w1, w3⟩

end Biosim
